import Mathlib

/-! The rule-dispatch engine of validata.

A shallow embedding of `rule.go`, `validation.go` and `locale/fr.go`.

* Go strings are Lean strings; `len` is the UTF-8 byte length.
* `reflect.Value` is the tagged union `Value`, one constructor per kind the
  dispatcher distinguishes.
* A panic is an `Except.error` carrying a `Fault`.
* Each field goroutine sends exactly one `message`; `validateStruct` returns it.
* Library calls whose behaviour is not determined by the repository
  (`mail.ParseAddress`, `strconv.ParseFloat`, the database lookup, file
  reading and MIME sniffing) and the helpers of the repository that are not
  among the sources (`getRuleAndMsg`, `formatFieldName`, `locale.EN`) are
  fields of `Env`.
-/

set_option autoImplicit false

namespace Validata

/-! ## Go `strings` -/

/-- Byte length of a sequence of runes (Go `len` on the UTF-8 encoding). -/
def byteLen : List Char → Nat
  | [] => 0
  | c :: cs => c.utf8Size + byteLen cs

/-- Go `len(s)`. -/
def goLen (s : String) : Nat := byteLen s.data

/-- Go `strings.Contains(s, sep)` for a one-rune `sep`. -/
def containsChar (s : String) (c : Char) : Bool := s.data.contains c

/-- Go `strings.HasPrefix(s, p)`. -/
def startsWith (s p : String) : Bool := p.data.isPrefixOf s.data

/-- Cut at the first occurrence of `c`: the runes before it and after it. -/
def cutFirst (c : Char) : List Char → Option (List Char × List Char)
  | [] => none
  | x :: xs =>
    if x = c then some ([], xs)
    else match cutFirst c xs with
      | none => none
      | some (a, b) => some (x :: a, b)

/-- Go `strings.SplitN(s, sep, n)` for a one-rune `sep` and `n ≥ 0`. -/
def splitNChars (c : Char) : Nat → List Char → List (List Char)
  | 0, _ => []
  | 1, s => [s]
  | n + 2, s =>
    match cutFirst c s with
    | none => [s]
    | some (a, b) => a :: splitNChars c (n + 1) b

/-- Go `strings.SplitN(s, sep, n)`, on strings. -/
def splitN (s : String) (c : Char) (n : Nat) : List String :=
  (splitNChars c n s.data).map String.mk

/-- Go `strings.Split(s, sep)` for a one-rune `sep`, on rune lists. -/
def splitChars (c : Char) : List Char → List (List Char)
  | [] => [[]]
  | x :: xs =>
    if x = c then [] :: splitChars c xs
    else match splitChars c xs with
      | [] => [[x]]
      | h :: t => (x :: h) :: t

/-- Go `strings.Split(s, sep)` for a one-rune `sep`. -/
def split (s : String) (c : Char) : List String :=
  (splitChars c s.data).map String.mk

/-- Go `unicode.IsSpace`. -/
def isSpace (c : Char) : Bool :=
  let n := c.toNat
  n == 0x20 || (0x09 ≤ n && n ≤ 0x0D) || n == 0x85 || n == 0xA0 || n == 0x1680 ||
  (0x2000 ≤ n && n ≤ 0x200A) || n == 0x2028 || n == 0x2029 || n == 0x202F ||
  n == 0x205F || n == 0x3000

/-- Go `strings.TrimSpace`. -/
def trimSpace (s : String) : String :=
  String.mk ((s.data.dropWhile isSpace).reverse.dropWhile isSpace).reverse

/-- Go `strings.ToLower`, on the letters `A` to `Z`; the callers only compare the
result with the ASCII words `fr`, `kb`, `mb`, `gb`, which no other rune lower-cases into. -/
def toLower (s : String) : String := String.mk (s.data.map Char.toLower)

/-- Go `strings.LastIndex(s, sep)` for a one-rune `sep`: the runes before the last
occurrence and the runes after it, `none` when `sep` does not occur (Go: `-1`). -/
def cutLast (c : Char) (s : List Char) : Option (List Char × List Char) :=
  match cutFirst c s.reverse with
  | none => none
  | some (a, b) => some (b.reverse, a.reverse)

/-! ## Go `strconv` -/

/-- Value of an ASCII decimal digit. -/
def digitVal (c : Char) : Nat := c.toNat - 48

/-- Largest `uint64`. -/
def maxUint64 : Nat := 2 ^ 64 - 1

/-- The digit loop of `strconv.ParseUint(s, 10, 64)`: a rune that is not a digit ends
with 0 (syntax error), an overflow ends with the largest value (range error). -/
def parseUintLoop : List Char → Nat → Nat
  | [], n => n
  | c :: cs, n =>
    if c.isDigit then
      if n ≥ maxUint64 / 10 + 1 then maxUint64
      else if n * 10 + digitVal c > maxUint64 then maxUint64
      else parseUintLoop cs (n * 10 + digitVal c)
    else 0

/-- The value `strconv.ParseUint(s, 10, 64)` returns, its error dropped. -/
def parseUint (s : String) : Nat :=
  match s.data with
  | [] => 0
  | cs => parseUintLoop cs 0

/-- The value `strconv.ParseInt(s, 10, 64)` returns, its error dropped: 0 on a syntax
error (the digit loop then gives 0), the nearest bound on a range error.
`strconv.Atoi` returns the same value. -/
def parseInt (s : String) : Int :=
  match s.data with
  | [] => 0
  | c :: cs =>
    let neg := c = '-'
    let rest := if c = '+' ∨ c = '-' then cs else c :: cs
    match rest with
    | [] => 0
    | _ =>
      let un := parseUintLoop rest 0
      if ¬ neg ∧ un ≥ 2 ^ 63 then (2 ^ 63 - 1 : Int)
      else if neg ∧ un > 2 ^ 63 then -(2 ^ 63 : Int)
      else if neg then -(un : Int) else (un : Int)

/-- Go `strconv.Atoi` on a 64-bit platform. -/
def atoi (s : String) : Int := parseInt s

/-- Go `fmt.Sprintf("%d", n)` for an integer. -/
def fmtInt (i : Int) : String :=
  match i with
  | Int.ofNat n => Nat.repr n
  | Int.negSucc n => "-" ++ Nat.repr (n + 1)

/-! ## The fixed regular expressions of `rule.go` -/

/-- Rune class `[a-zA-Z]`. -/
def isLetter (c : Char) : Bool := c.isAlpha

/-- Rune class `[0-9a-zA-Z-+ .]`. -/
def isStringChar (c : Char) : Bool :=
  c.isDigit || c.isAlpha || c = '-' || c = '+' || c = ' ' || c = '.'

/-- A non-empty run of runes of one class, the shape `^[class]+$`. -/
def allOfClass (p : Char → Bool) (s : List Char) : Bool := !s.isEmpty && s.all p

/-- Pattern `^(?:[-]?(?:0|[1-9][0-9]*))$`. -/
def matchInt (s : List Char) : Bool :=
  let body := match s with
    | '-' :: t => t
    | t => t
  match body with
  | [] => false
  | ['0'] => true
  | c :: t => c.isDigit && c != '0' && t.all Char.isDigit

/-- Pattern `^[1-9]\d+$`. -/
def matchUint (s : List Char) : Bool :=
  match s with
  | c :: d :: t => c.isDigit && c != '0' && d.isDigit && t.all Char.isDigit
  | _ => false

/-- Pattern `[eE][-+]?[0-9]+` up to the end of the text. -/
def matchExponent (s : List Char) : Bool :=
  match s with
  | e :: t =>
    (e = 'e' || e = 'E') &&
    (let u := match t with
      | '-' :: r => r
      | '+' :: r => r
      | r => r
     allOfClass Char.isDigit u)
  | [] => false

/-- Pattern `^[-+]?[0-9]*\.?[0-9]+([eE][-+]?[0-9]+)?$`: a sign, then digits, or digits
(possibly none), a dot and digits; then an optional exponent. -/
def matchFloat (s : List Char) : Bool :=
  let body := match s with
    | '-' :: t => t
    | '+' :: t => t
    | t => t
  let d1 := body.takeWhile Char.isDigit
  let r1 := body.dropWhile Char.isDigit
  match r1 with
  | [] => !d1.isEmpty
  | '.' :: r2 =>
    let d2 := r2.takeWhile Char.isDigit
    let r3 := r2.dropWhile Char.isDigit
    !d2.isEmpty && (r3.isEmpty || matchExponent r3)
  | r => !d1.isEmpty && matchExponent r

/-- Pattern `^0\d{9}$`. -/
def matchPhone (s : List Char) : Bool :=
  match s with
  | c :: t => c = '0' && t.length = 9 && t.all Char.isDigit
  | [] => false

/-- Pattern `^\+\d{12}$`. -/
def matchPhoneWithCode (s : List Char) : Bool :=
  match s with
  | c :: t => c = '+' && t.length = 12 && t.all Char.isDigit
  | [] => false

/-- Pattern `^GHA-\d{9}-\d{1}$`. -/
def matchGHCard (s : List Char) : Bool :=
  match s with
  | 'G' :: 'H' :: 'A' :: '-' :: t =>
    t.length = 11 && (t.take 9).all Char.isDigit && (t.drop 9).head? = some '-' &&
    (t.drop 10).all Char.isDigit
  | _ => false

/-- Pattern `[A-Z]{2}-\d{1,4}-\d{4}$`, read from the end of the text; the pattern is
not anchored at the start. -/
def matchGHGPS (s : List Char) : Bool :=
  match s.reverse with
  | d4 :: d3 :: d2 :: d1 :: '-' :: t =>
    d4.isDigit && d3.isDigit && d2.isDigit && d1.isDigit &&
    (let run := t.takeWhile Char.isDigit
     let r := t.dropWhile Char.isDigit
     1 ≤ run.length && run.length ≤ 4 &&
     match r with
     | '-' :: u2 :: u1 :: _ => u2.isUpper && u1.isUpper
     | _ => false)
  | _ => false

/-- Pattern `[\x00-\x7F]+`, not anchored: some rune of the text is ASCII. -/
def matchASCII (s : List Char) : Bool := s.any (fun c => c.toNat ≤ 0x7F)

/-- Pattern `^([1-9]|[1-9][0-9]+)(kb|KB|mb|MB|gb|GB|tb|TB)$` with `FindAllStringSubmatch`:
the two groups of the only match, `none` when the text does not match. -/
def matchFileSize (s : List Char) : Option (String × String) :=
  let ds := s.takeWhile Char.isDigit
  let u := s.dropWhile Char.isDigit
  match ds with
  | [] => none
  | c :: _ =>
    if c = '0' then none
    else if String.mk u ∈ ["kb", "KB", "mb", "MB", "gb", "GB", "tb", "TB"] then
      some (String.mk ds, String.mk u)
    else none
/-- Go `fmt.Sprintf(format, args...)` for string arguments, on rune lists: the verbs
`%s` and `%v` print the next argument, `%%` prints a percent sign, a verb without an
argument left prints `%!v(MISSING)`, arguments left over are listed under `%!(EXTRA`.
Flags, widths and the other verbs valid for strings are not part of the model. -/
def sprintfChars : List Char → List String → List Char
  | [], [] => []
  | [], a :: as =>
    "%!(EXTRA ".data ++ (", ".intercalate ((a :: as).map (fun x => "string=" ++ x))).data ++ [')']
  | ['%'], _ => "%!(NOVERB)".data
  | '%' :: '%' :: rest, as => '%' :: sprintfChars rest as
  | '%' :: c :: rest, [] => "%!".data ++ [c] ++ "(MISSING)".data ++ sprintfChars rest []
  | '%' :: c :: rest, a :: as =>
    if c = 's' ∨ c = 'v' then a.data ++ sprintfChars rest as
    else "%!".data ++ [c] ++ "(string=".data ++ a.data ++ [')'] ++ sprintfChars rest as
  | c :: rest, as => c :: sprintfChars rest as

/-- Go `fmt.Sprintf(format, args...)` for string arguments. -/
def sprintf (format : String) (args : List String) : String :=
  String.mk (sprintfChars format.data args)

/-- Go `fmt.Sprintf("%s (%d)", field, i)`. -/
def indexedField (field : String) (i : Nat) : String :=
  field ++ " (" ++ Nat.repr i ++ ")"

/-! ## Data model -/

/-- A panic of the Go program. -/
inductive Fault where
  | missingTag
  | notPointer
  | notStructOrMap
  | implementMe
  | indexOutOfRange
  | typeAssertion
  | database
  | outOfFuel
  deriving DecidableEq, Repr

/-- Signed integer kinds of `reflect`. -/
inductive IntKind where
  | int | int8 | int16 | int32 | int64
  deriving DecidableEq, Repr

/-- Unsigned integer kinds of `reflect`. -/
inductive UintKind where
  | uint | uint8 | uint16 | uint32 | uint64 | uintptr
  deriving DecidableEq, Repr

/-- Floating-point kinds of `reflect`. -/
inductive FloatKind where
  | float32 | float64
  deriving DecidableEq, Repr

/-- The part of a `multipart.FileHeader` the rules read. -/
structure FileHeader where
  filename : String
  size : Int
  deriving DecidableEq, Repr

mutual
/-- A field value as `reflect` sees it. Named types are written by the name of their
kind, apart from the kinds that carry a type name `ty`. -/
inductive Value where
  | str (s : String)
  | int (k : IntKind) (i : Int)
  | uint (k : UintKind) (n : Nat)
  | float (k : FloatKind) (x : Float)
  | bool (b : Bool)
  /-- Slice or array of strings. -/
  | strs (xs : List String)
  /-- Slice or array of signed integers. -/
  | ints (k : IntKind) (xs : List Int)
  /-- Slice or array of unsigned integers. -/
  | uints (k : UintKind) (xs : List Nat)
  /-- Slice or array of floats. -/
  | floats (k : FloatKind) (xs : List Float)
  /-- The slice type `[]*multipart.FileHeader`, its pointers not nil. -/
  | files (xs : List FileHeader)
  /-- Any other slice or array of pointers or interfaces. -/
  | refs (ty : String) (xs : List Target)
  /-- Slice or array of any other element kind: only its length is read. -/
  | seq (ty : String) (len : Nat)
  /-- A non-nil `*multipart.FileHeader`. -/
  | file (fh : FileHeader)
  /-- Any other non-nil pointer or interface. -/
  | ref (ty : String) (t : Target)
  /-- A nil pointer or interface. -/
  | nilPtr (ty : String)
  /-- A map: only its length is read. -/
  | map (ty : String) (len : Nat)
  /-- Any other kind (struct, complex, channel, function); `zero` tells whether the
  value is deeply equal to the zero value of its type. -/
  | other (ty : String) (zero : Bool)
/-- What `Validate` is handed: a pointer to a struct, or anything else. -/
inductive Target where
  | struct (fields : List Field)
  /-- A pointer to a map. -/
  | mapPtr
  /-- A pointer to a value that is neither a struct nor a map. -/
  | otherPtr
  /-- A value that is not a pointer, or a nil pointer to a struct. -/
  | invalid
/-- A struct field: its `json` tag, its `validate` tag and its value. -/
inductive Field where
  | mk (json : Option String) (validate : Option String) (value : Value)
end

/-- The `json` tag, as `Tag.Lookup` gives it. -/
def Field.json : Field → Option String
  | .mk j _ _ => j

/-- The `validate` tag, as `Tag.Lookup` gives it. -/
def Field.validate : Field → Option String
  | .mk _ r _ => r

/-- The field value. -/
def Field.value : Field → Value
  | .mk _ _ v => v

/-- Go `Tag.Get`: the empty string for an absent tag. -/
def tagGet (t : Option String) : String := t.getD ""

/-- A value of the Go type `any` as it occurs in a `message` or in the result:
untyped nil, a string, a `[]any` or a `map[string]any`. -/
inductive Msg where
  | nil
  | str (s : String)
  | list (xs : List Msg)
  | map (kvs : List (String × Msg))

/-- A Go `map[string]any`, its entries in insertion order. -/
abbrev GoMap := List (String × Msg)

/-- Go `m[k] = v`. -/
def mapSet : GoMap → String → Msg → GoMap
  | [], k, v => [(k, v)]
  | (k0, v0) :: rest, k, v =>
    if k0 = k then (k, v) :: rest else (k0, v0) :: mapSet rest k v

/-- Go `m[k]` with the presence flag. -/
def mapGet : GoMap → String → Option Msg
  | [], _ => none
  | (k0, v0) :: rest, k => if k0 = k then some v0 else mapGet rest k

/-- The struct `message` sent on the channel. -/
structure Message where
  K : String
  V : Msg

/-- Go `x == nil` for a value of type `any`. -/
def Msg.isNil : Msg → Bool
  | .nil => true
  | _ => false

/-- Go `customMsg != ""` for a value of type `any`: false only for the string `""`. -/
def Msg.isNotEmptyString : Msg → Bool
  | .str s => s != ""
  | _ => true

/-- An entry of a locale table: a template, or a table of templates by variant. -/
inductive Entry where
  | flat (template : String)
  | nested (variants : List (String × String))
  deriving DecidableEq, Repr

/-- A locale table (`map[string]any`). -/
abbrev LocaleTable := List (String × Entry)

/-- What the repository takes from outside the three source files. -/
structure Env where
  /-- Helper `getRuleAndMsg` of the repository: the rule and the custom message of a segment. -/
  getRuleAndMsg : String → String × String
  /-- Helper `formatFieldName` of the repository. -/
  formatFieldName : String → String
  /-- Table `locale.EN` of the repository. -/
  EN : LocaleTable
  /-- Whether `mail.ParseAddress` accepts the text. -/
  parseAddress : String → Bool
  /-- Value returned by `strconv.ParseFloat(s, 64)`. -/
  parseFloat : String → Float
  /-- Go `fmt.Sprintf("%.2f", x)`. -/
  fmtFloat2 : Float → String
  /-- Function `isNotUnique` for the configured database, by value, field and table:
  it panics on any error other than no rows. -/
  isNotUnique : String → String → String → Except Fault Bool
  /-- Whether helper `readFile` returns without error. -/
  readFile : FileHeader → Bool
  /-- Whether `mimetype.EqualsAny(mimetype.Detect(buffer).Extension(), prepareMimes(mimes)...)`. -/
  mimeMatch : FileHeader → String → Bool
/-! ## `rule.go`: the predicate library -/

/-- Name of a signed integer type. -/
def IntKind.name : IntKind → String
  | .int => "int" | .int8 => "int8" | .int16 => "int16" | .int32 => "int32" | .int64 => "int64"

/-- Name of an unsigned integer type. -/
def UintKind.name : UintKind → String
  | .uint => "uint" | .uint8 => "uint8" | .uint16 => "uint16" | .uint32 => "uint32"
  | .uint64 => "uint64" | .uintptr => "uintptr"

/-- Name of a floating-point type. -/
def FloatKind.name : FloatKind → String
  | .float32 => "float32" | .float64 => "float64"

/-- Go `v.Type().String()`. -/
def typeString : Value → String
  | .str _ => "string"
  | .int k _ => k.name
  | .uint k _ => k.name
  | .float k _ => k.name
  | .bool _ => "bool"
  | .strs _ => "[]string"
  | .ints k _ => "[]" ++ k.name
  | .uints k _ => "[]" ++ k.name
  | .floats k _ => "[]" ++ k.name
  | .files _ => "[]*multipart.FileHeader"
  | .refs ty _ => ty
  | .seq ty _ => ty
  | .file _ => "*multipart.FileHeader"
  | .ref ty _ => ty
  | .nilPtr ty => ty
  | .map ty _ => ty
  | .other ty _ => ty

/-- Go `v.String()` of `reflect`: the text of a string, `<T Value>` for any other kind,
`<invalid Value>` for the zero `reflect.Value`. -/
def valueString : Option Value → String
  | none => "<invalid Value>"
  | some (.str s) => s
  | some v => "<" ++ typeString v ++ " Value>"

/-- Go `v.Len()` for the kinds that have a length. -/
def valueLen : Value → Option Nat
  | .str s => some (goLen s)
  | .strs xs => some xs.length
  | .ints _ xs => some xs.length
  | .uints _ xs => some xs.length
  | .floats _ xs => some xs.length
  | .files xs => some xs.length
  | .refs _ xs => some xs.length
  | .seq _ n => some n
  | .map _ n => some n
  | _ => none

/-- Function `isEmpty` (rule.go 17-35). -/
def isEmpty : Value → Bool
  | .str s => goLen s == 0
  | .strs xs => xs.length == 0
  | .ints _ xs => xs.length == 0
  | .uints _ xs => xs.length == 0
  | .floats _ xs => xs.length == 0
  | .files xs => xs.length == 0
  | .refs _ xs => xs.length == 0
  | .seq _ n => n == 0
  | .map _ n => n == 0
  | .bool b => !b
  | .int _ i => i == 0
  | .uint _ n => n == 0
  | .float _ x => x == 0
  | .file _ => false
  | .ref _ _ => false
  | .nilPtr _ => true
  | .other _ zero => zero

/-- Go `fmt.Sprintf("%d", v.Interface())` for an integer and for a slice of integers,
the kinds the dispatcher applies it to. -/
def sprintfD : Value → Option String
  | .int _ i => some (fmtInt i)
  | .uint _ n => some (Nat.repr n)
  | .ints _ xs => some ("[" ++ " ".intercalate (xs.map fmtInt) ++ "]")
  | .uints _ xs => some ("[" ++ " ".intercalate (xs.map Nat.repr) ++ "]")
  | _ => none

/-- Go `fmt.Sprintf("%.2f", v.Interface())` for a float and for a slice of floats,
the kinds the dispatcher applies it to. -/
def sprintfF (env : Env) : Value → Option String
  | .float _ x => some (env.fmtFloat2 x)
  | .floats _ xs => some ("[" ++ " ".intercalate (xs.map env.fmtFloat2) ++ "]")
  | _ => none

/-- Function `isNotInt` (rule.go 36-39). -/
def isNotInt (v : Value) : Bool :=
  match sprintfD v with
  | some s => !matchInt s.data
  | none => true

/-- Function `isNotUint` (rule.go 40-43). -/
def isNotUint (v : Value) : Bool :=
  match sprintfD v with
  | some s => !matchUint s.data
  | none => true

/-- Function `isNotFloat` (rule.go 44-47). -/
def isNotFloat (env : Env) (v : Value) : Bool :=
  match sprintfF env v with
  | some s => !matchFloat s.data
  | none => true

/-- Function `isNotAlpha` (rule.go 48-51), on `v.String()`. -/
def isNotAlpha (s : String) : Bool := !allOfClass isLetter s.data

/-- Function `isNotAlphanumeric` (rule.go 52-55), on `v.String()`. -/
def isNotAlphanumeric (s : String) : Bool := !allOfClass Char.isAlphanum s.data

/-- Function `isNotNumeric` (rule.go 56-59), on `v.String()`. -/
def isNotNumeric (s : String) : Bool := !allOfClass Char.isDigit s.data

/-- Function `isNotString` (rule.go 60-63), on `v.String()`. -/
def isNotString (s : String) : Bool := !allOfClass isStringChar s.data

/-- Function `isNotSame` (rule.go 64-66). -/
def isNotSame (v1 v2 : Option Value) : Bool :=
  !(trimSpace (valueString v1) == trimSpace (valueString v2))

/-- Function `isNotASCII` (rule.go 67-70), on `v.String()`. -/
def isNotASCII (s : String) : Bool := !matchASCII s.data

/-- Function `isNotEmail` (rule.go 71-90), on `v.String()`. -/
def isNotEmail (env : Env) (s : String) : Bool :=
  if goLen s < 6 ∨ goLen s > 254 then true
  else match cutLast '@' s.data with
    | none => true
    | some (localPart, domain) =>
      let at_ : Int := byteLen localPart
      if at_ ≤ 0 ∨ at_ > (goLen s : Int) - 3 then true
      else if String.mk domain ∈ ["localhost", "localhost.com", "example.com"] then true
      else if byteLen localPart > 64 then true
      else if !env.parseAddress s then true
      else false

/-- Function `isNotPhone` (rule.go 91-94), on `v.String()`. -/
def isNotPhone (s : String) : Bool := !matchPhone s.data

/-- Function `isNotPhoneWithCode` (rule.go 95-98), on `v.String()`. -/
def isNotPhoneWithCode (s : String) : Bool := !matchPhoneWithCode s.data

/-- Function `isNotUsername` (rule.go 99-107), on `v.String()`. -/
def isNotUsername (env : Env) (s : String) : Bool :=
  if containsChar s '@' then isNotEmail env s
  else if startsWith s "+" then isNotPhoneWithCode s
  else isNotPhone s

/-- Function `isNotGHCard` (rule.go 108-111), on `v.String()`. -/
def isNotGHCard (s : String) : Bool := !matchGHCard s.data

/-- Function `isNotGHGPS` (rule.go 112-115), on `v.String()`. -/
def isNotGHGPS (s : String) : Bool := !matchGHGPS s.data

/-- Function `isNotMin` (rule.go 116-132). -/
def isNotMin (env : Env) (v : Value) (comparable : String) : Bool :=
  match v with
  | .int _ i => !(decide (i ≥ parseInt comparable))
  | .uint _ n => !(decide (n ≥ parseUint comparable))
  | .float _ x => !(decide (x ≥ env.parseFloat comparable))
  | _ =>
    match valueLen v with
    | some len => !(decide ((len : Int) ≥ atoi comparable))
    | none => false

/-- Function `isNotMax` (rule.go 133-149). -/
def isNotMax (env : Env) (v : Value) (comparable : String) : Bool :=
  match v with
  | .int _ i => !(decide (i ≤ parseInt comparable))
  | .uint _ n => !(decide (n ≤ parseUint comparable))
  | .float _ x => !(decide (x ≤ env.parseFloat comparable))
  | _ =>
    match valueLen v with
    | some len => !(decide ((len : Int) ≤ atoi comparable))
    | none => false

/-- Function `isNotEqual` (rule.go 150-166). -/
def isNotEqual (env : Env) (v : Value) (comparable : String) : Bool :=
  match v with
  | .int _ i => decide (i ≠ parseInt comparable)
  | .uint _ n => decide (n ≠ parseUint comparable)
  | .float _ x => x != env.parseFloat comparable
  | _ =>
    match valueLen v with
    | some len => decide ((len : Int) ≠ atoi comparable)
    | none => false

/-- Function `isNotBetween` (rule.go 167-187). -/
def isNotBetween (env : Env) (v : Value) (min max : String) : Bool :=
  match v with
  | .int _ i => !(decide (i > parseInt min) && decide (i < parseInt max))
  | .uint _ n => !(decide (n > parseUint min) && decide (n < parseUint max))
  | .float _ x => !(decide (x > env.parseFloat min) && decide (x < env.parseFloat max))
  | _ =>
    match valueLen v with
    | some len => !(decide ((len : Int) > atoi min) && decide ((len : Int) < atoi max))
    | none => false

/-- Function `isNotFrom` (rule.go 188-208). -/
def isNotFrom (env : Env) (v : Value) (min max : String) : Bool :=
  match v with
  | .int _ i => !(decide (i ≥ parseInt min) && decide (i ≤ parseInt max))
  | .uint _ n => !(decide (n ≥ parseUint min) && decide (n ≤ parseUint max))
  | .float _ x => !(decide (x ≥ env.parseFloat min) && decide (x ≤ env.parseFloat max))
  | _ =>
    match valueLen v with
    | some len => !(decide ((len : Int) ≥ atoi min) && decide ((len : Int) ≤ atoi max))
    | none => false

/-- Function `isNotSize` (rule.go 209-225). -/
def isNotSize (env : Env) (v : Value) (comparable : String) : Bool :=
  match v with
  | .int _ i => !(decide (i = parseInt comparable))
  | .uint _ n => !(decide (n = parseUint comparable))
  | .float _ x => !(x == env.parseFloat comparable)
  | _ =>
    match valueLen v with
    | some len => !(decide ((len : Int) = atoi comparable))
    | none => false

/-- Function `isNotFile` (rule.go 226-239): a file pointer, else the type assertion to
a slice of file pointers, which panics for any other value. -/
def isNotFile (env : Env) (v : Value) : Except Fault Bool :=
  match v with
  | .file fh => pure (!env.readFile fh)
  | .files fhs => pure (fhs.any (fun fh => !env.readFile fh))
  | _ => throw Fault.typeAssertion

/-- Function `isNotMimes` (rule.go 240-261). -/
def isNotMimes (env : Env) (v : Value) (mimes : String) : Except Fault Bool :=
  match v with
  | .file fh => pure (!env.readFile fh || !env.mimeMatch fh mimes)
  | .files fhs => pure (fhs.any (fun fh => !env.readFile fh || !env.mimeMatch fh mimes))
  | _ => throw Fault.typeAssertion
/-! ## `locale/fr.go` -/

/-- Table `FR` (locale/fr.go 4-90). -/
def FR : LocaleTable :=
  [ ("required", .flat "Le champ %s est requis."),
    ("string", .flat "Le champ %s doit être une chaîne de caractères."),
    ("alpha", .flat "Le champ %s ne peut contenir que des lettres."),
    ("numeric", .flat "Le champ %s doit être un nombre."),
    ("alpha_numeric", .flat "Le champ %s ne peut contenir que des lettres et des chiffres."),
    ("int", .flat "Le champ %s doit être un entier."),
    ("uint", .flat "Le champ %s doit être un entier positif."),
    ("float", .flat "Le champ %s doit être un nombre décimal."),
    ("email", .flat "Le champ %s doit être une adresse email valide."),
    ("phone", .flat "Le champ %s doit être un numéro de téléphone valide."),
    ("phone_with_code",
      .flat "Le champ %s doit être un numéro de téléphone valide avec le code du pays."),
    ("username",
      .flat "Le champ %s doit être une adresse email valide, un numéro de téléphone valide ou un numéro de téléphone avec le code du pays."),
    ("match", .flat "Le champ %s ne correspond pas."),
    ("same", .flat "Les champs %s et %s doivent correspondre."),
    ("unique", .flat "Le %s a déjà été pris."),
    ("bool", .flat "Le champ %s doit être vrai."),
    ("file", .flat "Le champ %s doit être un fichier."),
    ("file_type", .flat "Le champ %s doit être un fichier de type : %s."),
    ("image", .flat "Le champ %s doit être une image."),
    ("image_type", .flat "Le champ %s doit être une image de type : %s."),
    ("mimes", .flat "Le champ %s doit être un fichier de type : %s."),
    ("gh_card", .flat "Le champ %s doit être une carte d'identité ghanéenne valide."),
    ("gh_gps", .flat "Le champ %s doit être une adresse numérique ghanéenne valide."),
    ("gt", .nested
      [ ("numeric", "Le champ %s doit être supérieur à %s."),
        ("file", "Le champ %s doit être supérieur à %s mégaoctets."),
        ("string", "Le champ %s doit comporter plus de %s caractères."),
        ("slice", "Le champ %s doit contenir plus de %s éléments.") ]),
    ("gte", .nested
      [ ("numeric", "Le champ %s doit être supérieur ou égal à %s."),
        ("file", "Le champ %s doit être supérieur ou égal à %s mégaoctets."),
        ("string", "Le champ %s doit comporter au moins %s caractères."),
        ("slice", "Le champ %s doit contenir %s éléments ou plus.") ]),
    ("lt", .nested
      [ ("numeric", "Le champ %s doit être inférieur à %s."),
        ("file", "Le champ %s doit être inférieur à %s mégaoctets."),
        ("string", "Le champ %s doit comporter moins de %s caractères."),
        ("slice", "Le champ %s doit contenir moins de %s éléments.") ]),
    ("lte", .nested
      [ ("numeric", "Le champ %s doit être inférieur ou égal à %s."),
        ("file", "Le champ %s doit être inférieur ou égal à %s mégaoctets."),
        ("string", "Le champ %s doit comporter %s caractères ou moins."),
        ("slice", "Le champ %s ne doit pas contenir plus de %s éléments.") ]),
    ("min", .nested
      [ ("numeric", "Le champ %s doit être d'au moins %s"),
        ("file", "Le champ %s doit être d'au moins %s mégaoctets."),
        ("string", "Le champ %s doit comporter au moins %s caractères."),
        ("slice", "Le champ %s doit contenir au moins %s éléments.") ]),
    ("max", .nested
      [ ("numeric", "Le champ %s ne doit pas être supérieur à %s."),
        ("file", "Le champ %s ne doit pas dépasser %s mégaoctets."),
        ("string", "Le champ %s ne doit pas comporter plus de %s caractères."),
        ("slice", "Le champ %s ne doit pas contenir plus de %s éléments.") ]),
    ("equal", .nested
      [ ("numeric", "Le champ %s doit être égal à %s."),
        ("file", "Le champ %s doit être égal à %s mégaoctets."),
        ("string", "Le champ %s doit comporter exactement %s caractères."),
        ("slice", "Le champ %s doit comporter exactement %s éléments.") ]),
    ("between", .nested
      [ ("numeric", "Le champ %s doit être compris entre %s et %s."),
        ("file", "Le champ %s doit être compris entre %s et %s mégaoctets."),
        ("string", "Le champ %s doit comporter entre %s et %s caractères."),
        ("slice", "Le champ %s doit comporter entre %s et %s éléments.") ]),
    ("from", .nested
      [ ("numeric", "Le champ %s doit être compris entre %s et %s."),
        ("file", "Le champ %s doit être compris entre %s et %s mégaoctets."),
        ("string", "Le champ %s doit comporter entre %s et %s caractères."),
        ("slice", "Le champ %s doit comporter entre %s et %s éléments.") ]),
    ("size", .nested
      [ ("numeric", "Le champ %s doit avoir une taille de %s."),
        ("file_kb", "Le champ %s doit avoir une taille de %s kilooctets."),
        ("file_mb", "Le champ %s doit avoir une taille de %s mégaoctets."),
        ("file_gb", "Le champ %s doit avoir une taille de %s gigaoctets."),
        ("string", "Le champ %s doit comporter %s caractères."),
        ("slice", "Le champ %s doit contenir %s éléments.") ]) ]

/-! ## `validation.go`: the message renderer -/

/-- Method `getMessage` (validation.go 885-899): a missing or wrongly shaped entry makes
the type assertion panic, a missing variant gives the empty template. -/
def getMessage (env : Env) (locale : String) (rule : String) : Except Fault String :=
  let message := if toLower locale = "fr" then FR else env.EN
  if containsChar rule '.' then
    let keys := splitN rule '.' 2
    match message.lookup (keys.getD 0 "") with
    | some (.nested msg) => pure ((msg.lookup (keys.getD 1 "")).getD "")
    | _ => throw Fault.typeAssertion
  else
    match message.lookup rule with
    | some (.flat template) => pure template
    | _ => throw Fault.typeAssertion

/-- The rendering shared by `setMessage` and `generateMessage` when there is no custom
message: the template of `ruleKey` filled with the field name and at most two values. -/
def render (env : Env) (locale : String) (ruleKey field : String) (values : List String) :
    Except Fault String :=
  match values with
  | [] => do
    let t ← getMessage env locale ruleKey
    pure (sprintf t [field])
  | [a] => do
    let t ← getMessage env locale ruleKey
    pure (sprintf t [field, a])
  | a :: b :: _ => do
    let t ← getMessage env locale ruleKey
    pure (sprintf t [field, a, b])

/-- Method `setMessage` (validation.go 836-867): the message sent on the channel. -/
def setMessage (env : Env) (locale : String) (ruleKey : String) (customMsg : Msg)
    (msgKey field : String) (values : List String) : Except Fault Message :=
  if ruleKey = "empty" then pure ⟨msgKey, customMsg⟩
  else if customMsg.isNotEmptyString then pure ⟨msgKey, customMsg⟩
  else do
    let s ← render env locale ruleKey field values
    pure ⟨msgKey, .str s⟩

/-- Method `generateMessage` (validation.go 869-883). -/
def generateMessage (env : Env) (locale : String) (ruleKey : String) (customMsg : Msg)
    (field : String) (values : List String) : Except Fault Msg :=
  if ruleKey = "empty" then pure (.str "")
  else if customMsg.isNotEmptyString then pure customMsg
  else do
    let s ← render env locale ruleKey field values
    pure (.str s)

/-- Method `getTagAndValue` (validation.go 823-834): the first field whose `json` tag is
`lookupTag`; the empty tag and the zero `reflect.Value` when there is none. -/
def getTagAndValue : List Field → String → String × Option Value
  | [], _ => ("", none)
  | f :: rest, lookupTag =>
    match f.json with
    | some t => if t = lookupTag then (t, some f.value) else getTagAndValue rest lookupTag
    | none => getTagAndValue rest lookupTag
/-! ## `validation.go`: the field dispatcher -/

/-- What one directive does to one value: the rule key and the positional arguments
handed to the renderer when the directive fires, `none` when it does not. -/
abbrev Fired := Option (String × List String)

/-- The rule key with its arguments when the predicate holds. -/
def fireIf (violated : Bool) (ruleKey : String) (values : List String) : Fired :=
  if violated then some (ruleKey, values) else none

/-- Go `minMax[1]` after `minMax := strings.SplitN(arg, ",", 2)`: index out of range
when the argument has no comma. -/
def upperBound (arg : String) : Except Fault String :=
  match (splitN arg ',' 2)[1]? with
  | some hi => pure hi
  | none => throw Fault.indexOutOfRange

/-- Go `minMax[0]` after `minMax := strings.SplitN(arg, ",", 2)`. -/
def lowerBound (arg : String) : String := (splitN arg ',' 2).getD 0 ""

/-- The switch on `rule` for a text value (validation.go 168-281 for a string field,
426-539 for an element of a string sequence). -/
def stringDirective (env : Env) (fields : List Field) (value : String) (rule : String) :
    Except Fault Fired :=
  if rule = "string" then pure (fireIf (isNotString value) "string" [])
  else if rule = "ascii" then pure (fireIf (isNotASCII value) "string" [])
  else if rule = "alpha" then pure (fireIf (isNotAlpha value) "alpha" [])
  else if rule = "numeric" then pure (fireIf (isNotNumeric value) "numeric" [])
  else if rule = "alpha_numeric" then
    pure (fireIf (isNotAlphanumeric value) "alpha_numeric" [])
  else if rule = "email" then pure (fireIf (isNotEmail env value) "email" [])
  else if rule = "phone" then pure (fireIf (isNotPhone value) "phone" [])
  else if rule = "phone_with_code" then
    pure (fireIf (isNotPhoneWithCode value) "phone_with_code" [])
  else if rule = "username" then pure (fireIf (isNotUsername env value) "username" [])
  else if rule = "gh_card" then pure (fireIf (isNotGHCard value) "gh_card" [])
  else if rule = "gh_gps" then pure (fireIf (isNotGHGPS value) "gh_gps" [])
  else if containsChar rule ':' then
    let rSlice := splitN rule ':' 2
    let name := rSlice.getD 0 ""
    let arg := rSlice.getD 1 ""
    if name = "min" then pure (fireIf (isNotMin env (.str value) arg) "min.string" [arg])
    else if name = "max" then pure (fireIf (isNotMax env (.str value) arg) "max.string" [arg])
    else if name = "equal" then
      pure (fireIf (isNotEqual env (.str value) arg) "equal.string" [arg])
    else if name = "size" then
      pure (fireIf (isNotSize env (.str value) arg) "size.string" [arg])
    else if name = "from" then do
      let hi ← upperBound arg
      pure (fireIf (isNotFrom env (.str value) (lowerBound arg) hi) "from.string"
        [lowerBound arg, hi])
    else if name = "between" then do
      let hi ← upperBound arg
      pure (fireIf (isNotBetween env (.str value) (lowerBound arg) hi) "between.string"
        [lowerBound arg, hi])
    else if name = "same" then
      let tv := getTagAndValue fields arg
      pure (fireIf (isNotSame (some (.str value)) tv.2) "same" [tv.1])
    else if name = "match" then
      let tv := getTagAndValue fields arg
      pure (fireIf (isNotSame (some (.str value)) tv.2) "match" [])
    else if name = "unique" then
      match splitN arg '.' 2 with
      | [table, column] => do
        let taken ← env.isNotUnique value column table
        pure (fireIf taken "unique" [])
      | _ => pure none
    else pure none
  else pure none

/-- The switch on `rule` for an integer field (validation.go 283-345). -/
def integerDirective (env : Env) (fields : List Field) (value : Value) (rule : String) :
    Except Fault Fired :=
  if rule = "int" then pure (fireIf (isNotInt value) "int" [])
  else if rule = "uint" then pure (fireIf (isNotUint value) "uint" [])
  else if containsChar rule ':' then
    let rSlice := splitN rule ':' 2
    let name := rSlice.getD 0 ""
    let arg := rSlice.getD 1 ""
    if name = "min" then pure (fireIf (isNotMin env value arg) "min.numeric" [arg])
    else if name = "max" then pure (fireIf (isNotMax env value arg) "max.numeric" [arg])
    else if name = "equal" then pure (fireIf (isNotEqual env value arg) "equal.numeric" [arg])
    else if name = "size" then pure (fireIf (isNotSize env value arg) "size.numeric" [arg])
    else if name = "from" then do
      let hi ← upperBound arg
      pure (fireIf (isNotFrom env value (lowerBound arg) hi) "from.numeric"
        [lowerBound arg, hi])
    else if name = "between" then do
      let hi ← upperBound arg
      pure (fireIf (isNotBetween env value (lowerBound arg) hi) "between.numeric"
        [lowerBound arg, hi])
    else if name = "same" then
      let tv := getTagAndValue fields arg
      pure (fireIf (isNotSame (some value) tv.2) "same" [tv.1])
    else if name = "match" then
      let tv := getTagAndValue fields arg
      pure (fireIf (isNotSame (some value) tv.2) "match" [])
    else pure none
  else pure none

/-- The switch on `rule` for a float field (validation.go 347-404). -/
def floatDirective (env : Env) (fields : List Field) (value : Value) (rule : String) :
    Except Fault Fired :=
  if rule = "float" then pure (fireIf (isNotFloat env value) "float" [])
  else if containsChar rule ':' then
    let rSlice := splitN rule ':' 2
    let name := rSlice.getD 0 ""
    let arg := rSlice.getD 1 ""
    if name = "min" then pure (fireIf (isNotMin env value arg) "min.numeric" [arg])
    else if name = "max" then pure (fireIf (isNotMax env value arg) "max.numeric" [arg])
    else if name = "equal" then pure (fireIf (isNotEqual env value arg) "equal.numeric" [arg])
    else if name = "size" then pure (fireIf (isNotSize env value arg) "size.numeric" [arg])
    else if name = "from" then do
      let hi ← upperBound arg
      pure (fireIf (isNotFrom env value (lowerBound arg) hi) "from.numeric"
        [lowerBound arg, hi])
    else if name = "between" then do
      let hi ← upperBound arg
      pure (fireIf (isNotBetween env value (lowerBound arg) hi) "between.numeric"
        [lowerBound arg, hi])
    else if name = "same" then
      let tv := getTagAndValue fields arg
      pure (fireIf (isNotSame (some value) tv.2) "same" [tv.1])
    else if name = "match" then
      let tv := getTagAndValue fields arg
      pure (fireIf (isNotSame (some value) tv.2) "match" [])
    else pure none
  else pure none

/-- The switch on `rule` inside the loop over an integer sequence (validation.go
548-604). The loop does not index the sequence: `value` is the sequence itself. -/
def integerElemDirective (env : Env) (fields : List Field) (value : Value) (rule : String) :
    Except Fault Fired :=
  if rule = "int" then pure (fireIf (isNotInt value) "int" [])
  else if rule = "uint" then pure (fireIf (isNotUint value) "uint" [])
  else if containsChar rule ':' then
    let rSlice := splitN rule ':' 2
    let name := rSlice.getD 0 ""
    let arg := rSlice.getD 1 ""
    if name = "min" then pure (fireIf (isNotMin env value arg) "min.numeric" [arg])
    else if name = "max" then pure (fireIf (isNotMax env value arg) "max.numeric" [arg])
    else if name = "equal" then pure (fireIf (isNotEqual env value arg) "equal.numeric" [arg])
    else if name = "from" then do
      let hi ← upperBound arg
      pure (fireIf (isNotFrom env value (lowerBound arg) hi) "from.numeric"
        [lowerBound arg, hi])
    else if name = "between" then do
      let hi ← upperBound arg
      pure (fireIf (isNotBetween env value (lowerBound arg) hi) "between.numeric"
        [lowerBound arg, hi])
    else if name = "same" then
      let tv := getTagAndValue fields arg
      pure (fireIf (isNotSame (some value) tv.2) "same" [tv.1])
    else if name = "match" then
      let tv := getTagAndValue fields arg
      pure (fireIf (isNotSame (some value) tv.2) "match" [])
    else pure none
  else pure none

/-- The switch on `rule` inside the loop over a float sequence (validation.go 613-664).
The loop does not index the sequence: `value` is the sequence itself. -/
def floatElemDirective (env : Env) (fields : List Field) (value : Value) (rule : String) :
    Except Fault Fired :=
  if rule = "float" then pure (fireIf (isNotFloat env value) "float" [])
  else if containsChar rule ':' then
    let rSlice := splitN rule ':' 2
    let name := rSlice.getD 0 ""
    let arg := rSlice.getD 1 ""
    if name = "min" then pure (fireIf (isNotMin env value arg) "min.numeric" [arg])
    else if name = "max" then pure (fireIf (isNotMax env value arg) "max.numeric" [arg])
    else if name = "equal" then pure (fireIf (isNotEqual env value arg) "equal.numeric" [arg])
    else if name = "from" then do
      let hi ← upperBound arg
      pure (fireIf (isNotFrom env value (lowerBound arg) hi) "from.numeric"
        [lowerBound arg, hi])
    else if name = "between" then do
      let hi ← upperBound arg
      pure (fireIf (isNotBetween env value (lowerBound arg) hi) "between.numeric"
        [lowerBound arg, hi])
    else if name = "same" then
      let tv := getTagAndValue fields arg
      pure (fireIf (isNotSame (some value) tv.2) "same" [tv.1])
    else if name = "match" then
      let tv := getTagAndValue fields arg
      pure (fireIf (isNotSame (some value) tv.2) "match" [])
    else pure none
  else pure none

/-- Go `int64(unit*size64)`: the product in 64-bit two's complement. -/
def wrapInt64 (x : Int) : Int := (x + 2 ^ 63) % 2 ^ 64 - 2 ^ 63

/-- The `size` case for a file (validation.go 705-728, 783-805): `matches[0]` is out of
range when the argument does not match the pattern. -/
def fileSizeDirective (fh : FileHeader) (arg : String) : Except Fault Fired :=
  match matchFileSize arg.data with
  | none => throw Fault.indexOutOfRange
  | some (size, symbol) =>
    let size64 := parseInt size
    if toLower symbol = "kb" then
      pure (fireIf (decide (fh.size > wrapInt64 (1024 * size64))) "size.file_kb" [size])
    else if toLower symbol = "mb" then
      pure (fireIf (decide (fh.size > wrapInt64 (1024 * 1024 * size64))) "size.file_mb" [size])
    else if toLower symbol = "gb" then
      pure (fireIf (decide (fh.size > wrapInt64 (1024 * 1024 * 1024 * size64)))
        "size.file_gb" [size])
    else pure none

/-- The switch on `rule` for a file (validation.go 753-808 for a file field, 675-731
for an element of a file sequence). -/
def fileDirective (env : Env) (fh : FileHeader) (rule : String) : Except Fault Fired :=
  if rule = "image" then do
    let bad ← isNotMimes env (.file fh) "jpg,jpeg,png,webp"
    pure (fireIf bad "image" [])
  else if rule = "file" then do
    let bad ← isNotFile env (.file fh)
    pure (fireIf bad "file" [])
  else if containsChar rule ':' then
    let rSlice := splitN rule ':' 2
    let name := rSlice.getD 0 ""
    let arg := rSlice.getD 1 ""
    if name = "image" then do
      let bad ← isNotMimes env (.file fh) arg
      pure (fireIf bad "image_type" [arg])
    else if name = "file" then do
      let bad ← isNotMimes env (.file fh) arg
      pure (fireIf bad "file_type" [arg])
    else if name = "mimes" then do
      let bad ← isNotMimes env (.file fh) arg
      pure (fireIf bad "mimes" [arg])
    else if name = "size" then fileSizeDirective fh arg
    else pure none
  else pure none

/-- The length directives of a sequence (validation.go 406-420): the predicate is
handed `rSlice[0]`, the message `rSlice[1]`. -/
def sliceDirective (env : Env) (value : Value) (rule : String) : Except Fault Fired :=
  if startsWith rule "slice" && containsChar rule ':' then
    let rSlice := (splitN rule ':' 3).drop 1
    let name := rSlice.getD 0 ""
    if name = "min" then
      if isNotMin env value name then
        match rSlice[1]? with
        | some arg => pure (some ("min.slice", [arg]))
        | none => throw Fault.indexOutOfRange
      else pure none
    else if name = "max" then
      if isNotMax env value name then
        match rSlice[1]? with
        | some arg => pure (some ("max.slice", [arg]))
        | none => throw Fault.indexOutOfRange
      else pure none
    else pure none
  else pure none

/-- The loop `for i := 1; i <= value.Len(); i++` over the elements of a sequence, from
index `i`: the message of every element for which the directive fires, appended in
the order of the loop. -/
def collectMsgs {α : Type} (env : Env) (locale : String) (customMsg : Msg)
    (formattedField : String) (directive : α → Except Fault Fired) :
    List α → Nat → Except Fault (List Msg)
  | [], _ => pure []
  | x :: xs, i => do
    let fired ← directive x
    match fired with
    | some (ruleKey, values) => do
      let m ← generateMessage env locale ruleKey customMsg (indexedField formattedField i) values
      let rest ← collectMsgs env locale customMsg formattedField directive xs (i + 1)
      pure (m :: rest)
    | none => collectMsgs env locale customMsg formattedField directive xs (i + 1)

/-- The loop over a sequence of nested records (validation.go 739-744), from index
`i`: the entries added to the map `err`. -/
def collectNested (nested : Target → Except Fault (Option GoMap)) (jsonTag : String) :
    List Target → Nat → GoMap → Except Fault GoMap
  | [], _, err => pure err
  | t :: ts, i, err => do
    let msg ← nested t
    match msg with
    | some m => collectNested nested jsonTag ts (i + 1) (mapSet err (jsonTag ++ "." ++ Nat.repr i) (.map m))
    | none => collectNested nested jsonTag ts (i + 1) err

/-- A scalar directive that fired sends its message and the field is done. -/
def sendFired (env : Env) (locale : String) (customMsg : Msg) (jsonTag formattedField : String)
    (fired : Fired) : Except Fault (Option Message) :=
  match fired with
  | some (ruleKey, values) => do
    let m ← setMessage env locale ruleKey customMsg jsonTag formattedField values
    pure (some m)
  | none => pure none

/-- After the loop over a sequence: `if len(errMsgs) > 0` the list is the message. -/
def sendList (env : Env) (locale : String) (jsonTag formattedField : String)
    (errMsgs : List Msg) : Except Fault (Option Message) :=
  match errMsgs with
  | [] => pure none
  | _ :: _ => do
    let m ← setMessage env locale "" (.list errMsgs) jsonTag formattedField []
    pure (some m)

/-- The switch on the element kind of a sequence (validation.go 421-750). -/
def elementsStep (env : Env) (nested : Target → Except Fault (Option GoMap)) (locale : String)
    (fields : List Field) (value : Value) (jsonTag formattedField : String)
    (rule : String) (customMsg : Msg) : Except Fault (Option Message) :=
  match value with
  | .strs xs => do
    let errMsgs ← collectMsgs env locale customMsg formattedField
      (fun x => stringDirective env fields x rule) xs 1
    sendList env locale jsonTag formattedField errMsgs
  | .ints _ xs => do
    let errMsgs ← collectMsgs env locale customMsg formattedField
      (fun _ => integerElemDirective env fields value rule) xs 1
    sendList env locale jsonTag formattedField errMsgs
  | .uints _ xs => do
    let errMsgs ← collectMsgs env locale customMsg formattedField
      (fun _ => integerElemDirective env fields value rule) xs 1
    sendList env locale jsonTag formattedField errMsgs
  | .floats _ xs => do
    let errMsgs ← collectMsgs env locale customMsg formattedField
      (fun _ => floatElemDirective env fields value rule) xs 1
    sendList env locale jsonTag formattedField errMsgs
  | .files xs => do
    let errMsgs ← collectMsgs env locale customMsg formattedField
      (fun fh => fileDirective env fh rule) xs 1
    sendList env locale jsonTag formattedField errMsgs
  | .refs _ ts => do
    let err ← collectNested nested jsonTag ts 0 []
    match err with
    | [] => pure none
    | _ :: _ => do
      let m ← setMessage env locale "" (.map err) jsonTag formattedField []
      pure (some m)
  | _ => pure none

/-- The switch on the kind of a non-empty value for one directive (validation.go
166-816): the message sent, or `none` when the loop goes on to the next directive. -/
def kindStep (env : Env) (nested : Target → Except Fault (Option GoMap)) (locale : String)
    (fields : List Field) (value : Value) (jsonTag formattedField : String)
    (rule : String) (customMsg : Msg) : Except Fault (Option Message) :=
  match value with
  | .str s => do
    let fired ← stringDirective env fields s rule
    sendFired env locale customMsg jsonTag formattedField fired
  | .int _ _ => do
    let fired ← integerDirective env fields value rule
    sendFired env locale customMsg jsonTag formattedField fired
  | .uint _ _ => do
    let fired ← integerDirective env fields value rule
    sendFired env locale customMsg jsonTag formattedField fired
  | .float _ _ => do
    let fired ← floatDirective env fields value rule
    sendFired env locale customMsg jsonTag formattedField fired
  | .strs _ | .ints _ _ | .uints _ _ | .floats _ _ | .files _ | .refs _ _ | .seq _ _ => do
    let fired ← sliceDirective env value rule
    match fired with
    | some _ => sendFired env locale customMsg jsonTag formattedField fired
    | none => elementsStep env nested locale fields value jsonTag formattedField rule customMsg
  | .file fh => do
    let fired ← fileDirective env fh rule
    sendFired env locale customMsg jsonTag formattedField fired
  | .ref _ t => do
    let msg ← nested t
    match msg with
    | some m => do
      let sent ← setMessage env locale "" (.map m) jsonTag formattedField []
      pure (some sent)
    | none => pure none
  | .nilPtr _ => do
    let msg ← nested .invalid
    match msg with
    | some m => do
      let sent ← setMessage env locale "" (.map m) jsonTag formattedField []
      pure (some sent)
    | none => pure none
  | .bool _ | .map _ _ | .other _ _ => pure none

/-- Go `value.Kind() == reflect.Bool`. -/
def isBoolKind : Value → Bool
  | .bool _ => true
  | _ => false

/-- The body of the loop over the directives (validation.go 156-818) for one segment
of the chain: the message sent, or `none` when the loop goes on. -/
def ruleStep (env : Env) (nested : Target → Except Fault (Option GoMap)) (locale : String)
    (fields : List Field) (value : Value) (jsonTag formattedField : String)
    (ruleOrMsg : String) : Except Fault (Option Message) :=
  let rule := (env.getRuleAndMsg ruleOrMsg).1
  let customMsg := Msg.str (env.getRuleAndMsg ruleOrMsg).2
  if rule = "required" ∧ isEmpty value = true then
    if isBoolKind value then do
      let m ← setMessage env locale "bool" customMsg jsonTag formattedField []
      pure (some m)
    else do
      let m ← setMessage env locale "required" customMsg jsonTag formattedField []
      pure (some m)
  else if !isEmpty value then
    kindStep env nested locale fields value jsonTag formattedField rule customMsg
  else pure none

/-- The loop over the directives (validation.go 155-820): the first message sent, the
pass message when the chain is exhausted. -/
def ruleLoop (env : Env) (nested : Target → Except Fault (Option GoMap)) (locale : String)
    (fields : List Field) (value : Value) (jsonTag formattedField : String) :
    List String → Except Fault Message
  | [] => setMessage env locale "empty" (.str "") jsonTag formattedField []
  | ruleOrMsg :: rest => do
    let sent ← ruleStep env nested locale fields value jsonTag formattedField ruleOrMsg
    match sent with
    | some m => pure m
    | none => ruleLoop env nested locale fields value jsonTag formattedField rest

/-- Method `validateStruct` (validation.go 148-821) for one field of the record
`fields`: the one message the goroutine sends on the channel. -/
def validateStruct (env : Env) (nested : Target → Except Fault (Option GoMap))
    (locale : String) (fields : List Field) (f : Field) : Except Fault Message :=
  ruleLoop env nested locale fields f.value (tagGet f.json)
    (env.formatFieldName (tagGet f.json)) (split (tagGet f.validate) '|')

/-! ## `validation.go`: the record evaluator -/

/-- The field goroutines of `structValidator`, joined: their messages, here in the
order of declaration. -/
def runFields (env : Env) (nested : Target → Except Fault (Option GoMap)) (locale : String)
    (fields : List Field) : List Field → Except Fault (List Message)
  | [] => pure []
  | f :: rest => do
    let m ← validateStruct env nested locale fields f
    let ms ← runFields env nested locale fields rest
    pure (m :: ms)

/-- The fold over the received messages (validation.go 127-136): the maps `errMsg` and
`noErrMsg`. -/
def foldMessages : List Message → GoMap × GoMap → GoMap × GoMap
  | [], acc => acc
  | msg :: rest, (errMsg, noErrMsg) =>
    foldMessages rest
      (mapSet errMsg msg.K msg.V,
       if msg.V.isNil then mapSet noErrMsg msg.K msg.V else noErrMsg)

/-- The end of `structValidator` (validation.go 127-141) on the received messages:
`none` is the nil map. -/
def assemble (msgs : List Message) : Option GoMap :=
  let maps := foldMessages msgs ([], [])
  if maps.1.length ≠ maps.2.length then some maps.1 else none

/-- Both tags of a field are present (validation.go 117-118). -/
def hasTags (f : Field) : Bool := f.json.isSome && f.validate.isSome

/-- Method `structValidator` (validation.go 113-142). A field without one of the two
tags is a panic; the panic of a field goroutine ends the program as well. -/
def structValidator (env : Env) (nested : Target → Except Fault (Option GoMap))
    (locale : String) (fields : List Field) : Except Fault (Option GoMap) :=
  if fields.all hasTags then do
    let msgs ← runFields env nested locale fields fields
    pure (assemble msgs)
  else throw Fault.missingTag

/-- Method `Validate` (validation.go 60-79), its recursive use for nested records
passed as `nested`. -/
def Validate (env : Env) (nested : Target → Except Fault (Option GoMap)) (locale : String) :
    Target → Except Fault (Option GoMap)
  | .struct fields => structValidator env nested locale fields
  | .mapPtr => throw Fault.implementMe
  | .otherPtr => throw Fault.notStructOrMap
  | .invalid => throw Fault.notPointer

/-- Method `Validate` for records nested at most `depth` levels deep: every nested
record is validated by `Validate` itself (validation.go 741, 811). -/
def validateDepth (env : Env) (locale : String) : Nat → Target → Except Fault (Option GoMap)
  | 0 => Validate env (fun _ => throw Fault.outOfFuel) locale
  | depth + 1 => Validate env (validateDepth env locale depth) locale

/-- An instance of the outside world for the examples: a segment is a rule without a
custom message, a field name is shown as it is, `locale.EN` is left empty (the examples
use the locale `fr`), every address parses, no value is taken in the database, every
file is readable and of an allowed type. -/
def exampleEnv : Env where
  getRuleAndMsg := fun s => (s, "")
  formatFieldName := fun s => s
  EN := []
  parseAddress := fun _ => true
  parseFloat := fun _ => 0
  fmtFloat2 := fun _ => "0.00"
  isNotUnique := fun _ _ _ => pure false
  readFile := fun _ => true
  mimeMatch := fun _ _ => true

/-! ## Notions used to state the properties -/

/-- The scalar kinds with a rule switch of their own: text, integer and float. -/
def isScalar : Value → Bool
  | .str _ | .int _ _ | .uint _ _ | .float _ _ => true
  | _ => false

/-- The rule switch `kindStep` runs for a scalar value, by kind. -/
def scalarDirective (env : Env) (fields : List Field) (value : Value) (rule : String) :
    Except Fault Fired :=
  match value with
  | .str s => stringDirective env fields s rule
  | .int _ _ => integerDirective env fields value rule
  | .uint _ _ => integerDirective env fields value rule
  | .float _ _ => floatDirective env fields value rule
  | _ => pure none

/-- A sequence of nested records: a slice of pointers or interfaces other than file
headers. -/
def isNestedSeq : Value → Bool
  | .refs _ _ => true
  | _ => false

/-- The text element `x` violates the directive `rule`: the rule switch fires on it. -/
def elemViolates (env : Env) (fields : List Field) (rule : String) (x : String) : Bool :=
  match stringDirective env fields x rule with
  | .ok (some _) => true
  | _ => false

/-- The text element `x` violates at least one directive of the chain. -/
def elemViolatesSome (env : Env) (fields : List Field) (chain : List String) (x : String) :
    Bool :=
  chain.any (fun seg => elemViolates env fields (env.getRuleAndMsg seg).1 x)

/-- No nested record is validated: the callback of a record without nested records. -/
def noNested : Target → Except Fault (Option GoMap) := fun _ => throw Fault.outOfFuel

/-- The message `m` reports the element at position `j` of the text sequence `xs`,
counted from 1 as in the message: the directive fires on that element and `m` is the
message generated for the position `j`. -/
def reportsElement (env : Env) (locale : String) (fields : List Field)
    (rule : String) (customMsg : Msg) (formattedField : String) (xs : List String)
    (j : Nat) (m : Msg) : Prop :=
  ∃ x ruleKey values, 1 ≤ j ∧ xs[j - 1]? = some x ∧
    stringDirective env fields x rule = .ok (some (ruleKey, values)) ∧
    generateMessage env locale ruleKey customMsg (indexedField formattedField j) values = .ok m

/-- The number a run of decimal digits denotes, read from the left after the digits
that gave `n`. -/
def decVal : List Char → Nat → Nat
  | [], n => n
  | c :: cs, n => decVal cs (n * 10 + digitVal c)
/-- The runes of a numeric parameter after its optional sign, as `ParseInt` reads them. -/
def unsignedPart (p : String) : List Char :=
  match p.data with
  | [] => []
  | c :: cs => if c = '+' ∨ c = '-' then cs else c :: cs

/-- A decimal integer literal: an optional sign and at least one digit, nothing else. -/
def isDecimalLiteral (p : String) : Bool :=
  !(unsignedPart p).isEmpty && (unsignedPart p).all Char.isDigit

/-- The digits a numeric parameter starts with, after its optional sign. -/
def leadingDigits (p : String) : List Char := (unsignedPart p).takeWhile Char.isDigit

/-- The lookup of `getMessage` in a table already selected (validation.go 893-898). -/
def lookupTemplate (message : LocaleTable) (rule : String) : Except Fault String :=
  if containsChar rule '.' then
    let keys := splitN rule '.' 2
    match message.lookup (keys.getD 0 "") with
    | some (.nested msg) => pure ((msg.lookup (keys.getD 1 "")).getD "")
    | _ => throw Fault.typeAssertion
  else
    match message.lookup rule with
    | some (.flat template) => pure template
    | _ => throw Fault.typeAssertion

/-! ## A matcher for the regular expressions of `rule.go` -/

/-- The constructs of the regular expressions of `rule.go`: a rune class (or a single
rune), concatenation, alternation, an optional part, and the repetition of a rune class
(`*`, `+`, and from `lo` to `hi` times). -/
inductive Re where
  | cls (p : Char → Bool)
  | seq (a b : Re)
  | alt (a b : Re)
  | opt (a : Re)
  | star (p : Char → Bool)
  | plus (p : Char → Bool)
  | rep (p : Char → Bool) (lo hi : Nat)

/-- Any number of runes of the class `p`, then the continuation `k`. -/
def runStar (p : Char → Bool) (k : List Char → Bool) : List Char → Bool
  | [] => k []
  | c :: cs => k (c :: cs) || (p c && runStar p k cs)

/-- Exactly `n` runes of the class `p`, then the continuation `k`. -/
def runExact (p : Char → Bool) (k : List Char → Bool) : Nat → List Char → Bool
  | 0, s => k s
  | _ + 1, [] => false
  | n + 1, c :: cs => p c && runExact p k n cs

/-- At most `n` runes of the class `p`, then the continuation `k`. -/
def runUpTo (p : Char → Bool) (k : List Char → Bool) : Nat → List Char → Bool
  | 0, s => k s
  | _ + 1, [] => k []
  | n + 1, c :: cs => k (c :: cs) || (p c && runUpTo p k n cs)

/-- Whether some prefix of the text matches the expression and the rest of the text
satisfies the continuation `k`. -/
def Re.run : Re → List Char → (List Char → Bool) → Bool
  | .cls _, [], _ => false
  | .cls p, c :: cs, k => p c && k cs
  | .seq a b, s, k => a.run s (fun r => b.run r k)
  | .alt a b, s, k => a.run s k || b.run s k
  | .opt a, s, k => a.run s k || k s
  | .star p, s, k => runStar p k s
  | .plus _, [], _ => false
  | .plus p, c :: cs, k => p c && runStar p k cs
  | .rep p lo hi, s, k => runExact p (runUpTo p k (hi - lo)) lo s

/-- Go `MatchString` for an expression anchored at both ends, `^re$`. -/
def matchWhole (re : Re) (s : List Char) : Bool := re.run s List.isEmpty

/-- Pattern `^0\d{9}$`. -/
def phoneRe : Re := .seq (.cls (fun c => c = '0')) (.rep Char.isDigit 9 9)

/-- Pattern `^\+\d{12}$`. -/
def phoneWithCodeRe : Re := .seq (.cls (fun c => c = '+')) (.rep Char.isDigit 12 12)

/-! ## Further notions: directive names -/

/-- The name of a directive: the rule up to its first colon, the whole rule when it
has none (`rSlice[0]` of the dispatcher). -/
def directiveName (rule : String) : String := (splitN rule ':' 2).getD 0 ""

/-- The directive names with a case in the dispatcher for a scalar kind: `required`,
the cases of `switch rule`, and the cases of `switch rSlice[0]` (validation.go 157,
167-404). Boolean fields have no rule switch. -/
def recognisedNames : Value → List String
  | .str _ =>
    ["required", "string", "ascii", "alpha", "numeric", "alpha_numeric", "email", "phone",
     "phone_with_code", "username", "gh_card", "gh_gps", "min", "max", "equal", "size",
     "from", "between", "same", "match", "unique"]
  | .int _ _ | .uint _ _ =>
    ["required", "int", "uint", "min", "max", "equal", "size", "from", "between", "same",
     "match"]
  | .float _ _ =>
    ["required", "float", "min", "max", "equal", "size", "from", "between", "same", "match"]
  | _ => ["required"]

/-! ## `validation.go`: the field goroutine and its channel -/

/-- A block of statements of the goroutine `validateStruct`, run on the messages the
channel holds: a panic, or the messages the channel holds afterwards together with the
value of the block, `none` once a `return` statement has been executed. -/
def Chan (α : Type) : Type := List Message → Except Fault (Option α × List Message)

/-- Go `return`. -/
def Chan.ret {α : Type} : Chan α := fun ch => .ok (none, ch)

/-- Go `msgChan <- m`. -/
def Chan.send (m : Message) : Chan Unit := fun ch => .ok (some (), ch ++ [m])

/-- The evaluation of an expression that can panic and does not touch the channel. -/
def Chan.call {α : Type} (x : Except Fault α) : Chan α := fun ch =>
  match x with
  | .ok a => .ok (some a, ch)
  | .error e => .error e

/-- One block after another: the second is not run after a panic or a `return`. -/
def Chan.andThen {α β : Type} (x : Chan α) (f : α → Chan β) : Chan β := fun ch =>
  match x ch with
  | .error e => .error e
  | .ok (none, ch1) => .ok (none, ch1)
  | .ok (some a, ch1) => f a ch1

instance : Monad Chan where
  pure a := fun ch => .ok (some a, ch)
  bind := Chan.andThen

/-- Method `setMessage` (validation.go 836-867) with its channel: each of the five
branches sends one message. -/
def setMessageCh (env : Env) (locale : String) (ruleKey : String) (customMsg : Msg)
    (msgKey field : String) (values : List String) : Chan Unit :=
  if ruleKey = "empty" then Chan.send ⟨msgKey, customMsg⟩
  else if customMsg.isNotEmptyString then Chan.send ⟨msgKey, customMsg⟩
  else
    match values with
    | a :: b :: _ => do
      let t ← Chan.call (getMessage env locale ruleKey)
      Chan.send ⟨msgKey, .str (sprintf t [field, a, b])⟩
    | [a] => do
      let t ← Chan.call (getMessage env locale ruleKey)
      Chan.send ⟨msgKey, .str (sprintf t [field, a])⟩
    | [] => do
      let t ← Chan.call (getMessage env locale ruleKey)
      Chan.send ⟨msgKey, .str (sprintf t [field])⟩

/-- The switch on `rule` for a string field (validation.go 167-281), statement by
statement: every `setMessage` is followed by its `return`. -/
def stringDirectiveCh (env : Env) (locale : String) (fields : List Field)
    (customMsg : Msg) (jsonTag formattedField : String)
    (value : String) (rule : String) : Chan Unit :=
  if rule = "string" then
    if isNotString value then do
      setMessageCh env locale "string" customMsg jsonTag formattedField []
      Chan.ret
    else pure ()
  else if rule = "ascii" then
    if isNotASCII value then do
      setMessageCh env locale "string" customMsg jsonTag formattedField []
      Chan.ret
    else pure ()
  else if rule = "alpha" then
    if isNotAlpha value then do
      setMessageCh env locale "alpha" customMsg jsonTag formattedField []
      Chan.ret
    else pure ()
  else if rule = "numeric" then
    if isNotNumeric value then do
      setMessageCh env locale "numeric" customMsg jsonTag formattedField []
      Chan.ret
    else pure ()
  else if rule = "alpha_numeric" then
    if isNotAlphanumeric value then do
      setMessageCh env locale "alpha_numeric" customMsg jsonTag formattedField []
      Chan.ret
    else pure ()
  else if rule = "email" then
    if isNotEmail env value then do
      setMessageCh env locale "email" customMsg jsonTag formattedField []
      Chan.ret
    else pure ()
  else if rule = "phone" then
    if isNotPhone value then do
      setMessageCh env locale "phone" customMsg jsonTag formattedField []
      Chan.ret
    else pure ()
  else if rule = "phone_with_code" then
    if isNotPhoneWithCode value then do
      setMessageCh env locale "phone_with_code" customMsg jsonTag formattedField []
      Chan.ret
    else pure ()
  else if rule = "username" then
    if isNotUsername env value then do
      setMessageCh env locale "username" customMsg jsonTag formattedField []
      Chan.ret
    else pure ()
  else if rule = "gh_card" then
    if isNotGHCard value then do
      setMessageCh env locale "gh_card" customMsg jsonTag formattedField []
      Chan.ret
    else pure ()
  else if rule = "gh_gps" then
    if isNotGHGPS value then do
      setMessageCh env locale "gh_gps" customMsg jsonTag formattedField []
      Chan.ret
    else pure ()
  else if containsChar rule ':' then
    let rSlice := splitN rule ':' 2
    let name := rSlice.getD 0 ""
    let arg := rSlice.getD 1 ""
    if name = "min" then
      if isNotMin env (.str value) arg then do
        setMessageCh env locale "min.string" customMsg jsonTag formattedField [arg]
        Chan.ret
      else pure ()
    else if name = "max" then
      if isNotMax env (.str value) arg then do
        setMessageCh env locale "max.string" customMsg jsonTag formattedField [arg]
        Chan.ret
      else pure ()
    else if name = "equal" then
      if isNotEqual env (.str value) arg then do
        setMessageCh env locale "equal.string" customMsg jsonTag formattedField [arg]
        Chan.ret
      else pure ()
    else if name = "size" then
      if isNotSize env (.str value) arg then do
        setMessageCh env locale "size.string" customMsg jsonTag formattedField [arg]
        Chan.ret
      else pure ()
    else if name = "from" then do
      let hi ← Chan.call (upperBound arg)
      if isNotFrom env (.str value) (lowerBound arg) hi then do
        setMessageCh env locale "from.string" customMsg jsonTag formattedField
          [lowerBound arg, hi]
        Chan.ret
      else pure ()
    else if name = "between" then do
      let hi ← Chan.call (upperBound arg)
      if isNotBetween env (.str value) (lowerBound arg) hi then do
        setMessageCh env locale "between.string" customMsg jsonTag formattedField
          [lowerBound arg, hi]
        Chan.ret
      else pure ()
    else if name = "same" then
      let tv := getTagAndValue fields arg
      if isNotSame (some (.str value)) tv.2 then do
        setMessageCh env locale "same" customMsg jsonTag formattedField [tv.1]
        Chan.ret
      else pure ()
    else if name = "match" then
      let tv := getTagAndValue fields arg
      if isNotSame (some (.str value)) tv.2 then do
        setMessageCh env locale "match" customMsg jsonTag formattedField []
        Chan.ret
      else pure ()
    else if name = "unique" then
      match splitN arg '.' 2 with
      | [table, column] => do
        let taken ← Chan.call (env.isNotUnique value column table)
        if taken then do
          setMessageCh env locale "unique" customMsg jsonTag formattedField []
          Chan.ret
        else pure ()
      | _ => pure ()
    else pure ()
  else pure ()

/-- The switch on `rule` for an integer field (validation.go 283-345), statement by
statement. -/
def integerDirectiveCh (env : Env) (locale : String) (fields : List Field)
    (customMsg : Msg) (jsonTag formattedField : String)
    (value : Value) (rule : String) : Chan Unit :=
  if rule = "int" then
    if isNotInt value then do
      setMessageCh env locale "int" customMsg jsonTag formattedField []
      Chan.ret
    else pure ()
  else if rule = "uint" then
    if isNotUint value then do
      setMessageCh env locale "uint" customMsg jsonTag formattedField []
      Chan.ret
    else pure ()
  else if containsChar rule ':' then
    let rSlice := splitN rule ':' 2
    let name := rSlice.getD 0 ""
    let arg := rSlice.getD 1 ""
    if name = "min" then
      if isNotMin env value arg then do
        setMessageCh env locale "min.numeric" customMsg jsonTag formattedField [arg]
        Chan.ret
      else pure ()
    else if name = "max" then
      if isNotMax env value arg then do
        setMessageCh env locale "max.numeric" customMsg jsonTag formattedField [arg]
        Chan.ret
      else pure ()
    else if name = "equal" then
      if isNotEqual env value arg then do
        setMessageCh env locale "equal.numeric" customMsg jsonTag formattedField [arg]
        Chan.ret
      else pure ()
    else if name = "size" then
      if isNotSize env value arg then do
        setMessageCh env locale "size.numeric" customMsg jsonTag formattedField [arg]
        Chan.ret
      else pure ()
    else if name = "from" then do
      let hi ← Chan.call (upperBound arg)
      if isNotFrom env value (lowerBound arg) hi then do
        setMessageCh env locale "from.numeric" customMsg jsonTag formattedField
          [lowerBound arg, hi]
        Chan.ret
      else pure ()
    else if name = "between" then do
      let hi ← Chan.call (upperBound arg)
      if isNotBetween env value (lowerBound arg) hi then do
        setMessageCh env locale "between.numeric" customMsg jsonTag formattedField
          [lowerBound arg, hi]
        Chan.ret
      else pure ()
    else if name = "same" then
      let tv := getTagAndValue fields arg
      if isNotSame (some value) tv.2 then do
        setMessageCh env locale "same" customMsg jsonTag formattedField [tv.1]
        Chan.ret
      else pure ()
    else if name = "match" then
      let tv := getTagAndValue fields arg
      if isNotSame (some value) tv.2 then do
        setMessageCh env locale "match" customMsg jsonTag formattedField []
        Chan.ret
      else pure ()
    else pure ()
  else pure ()

/-- The switch on `rule` for a float field (validation.go 347-404), statement by
statement. -/
def floatDirectiveCh (env : Env) (locale : String) (fields : List Field)
    (customMsg : Msg) (jsonTag formattedField : String)
    (value : Value) (rule : String) : Chan Unit :=
  if rule = "float" then
    if isNotFloat env value then do
      setMessageCh env locale "float" customMsg jsonTag formattedField []
      Chan.ret
    else pure ()
  else if containsChar rule ':' then
    let rSlice := splitN rule ':' 2
    let name := rSlice.getD 0 ""
    let arg := rSlice.getD 1 ""
    if name = "min" then
      if isNotMin env value arg then do
        setMessageCh env locale "min.numeric" customMsg jsonTag formattedField [arg]
        Chan.ret
      else pure ()
    else if name = "max" then
      if isNotMax env value arg then do
        setMessageCh env locale "max.numeric" customMsg jsonTag formattedField [arg]
        Chan.ret
      else pure ()
    else if name = "equal" then
      if isNotEqual env value arg then do
        setMessageCh env locale "equal.numeric" customMsg jsonTag formattedField [arg]
        Chan.ret
      else pure ()
    else if name = "size" then
      if isNotSize env value arg then do
        setMessageCh env locale "size.numeric" customMsg jsonTag formattedField [arg]
        Chan.ret
      else pure ()
    else if name = "from" then do
      let hi ← Chan.call (upperBound arg)
      if isNotFrom env value (lowerBound arg) hi then do
        setMessageCh env locale "from.numeric" customMsg jsonTag formattedField
          [lowerBound arg, hi]
        Chan.ret
      else pure ()
    else if name = "between" then do
      let hi ← Chan.call (upperBound arg)
      if isNotBetween env value (lowerBound arg) hi then do
        setMessageCh env locale "between.numeric" customMsg jsonTag formattedField
          [lowerBound arg, hi]
        Chan.ret
      else pure ()
    else if name = "same" then
      let tv := getTagAndValue fields arg
      if isNotSame (some value) tv.2 then do
        setMessageCh env locale "same" customMsg jsonTag formattedField [tv.1]
        Chan.ret
      else pure ()
    else if name = "match" then
      let tv := getTagAndValue fields arg
      if isNotSame (some value) tv.2 then do
        setMessageCh env locale "match" customMsg jsonTag formattedField []
        Chan.ret
      else pure ()
    else pure ()
  else pure ()

/-- The `size` case of a file field (validation.go 783-805), statement by statement. -/
def fileSizeDirectiveCh (env : Env) (locale : String) (customMsg : Msg)
    (jsonTag formattedField : String) (fh : FileHeader) (arg : String) : Chan Unit :=
  match matchFileSize arg.data with
  | none => Chan.call (throw Fault.indexOutOfRange)
  | some (size, symbol) =>
    let size64 := parseInt size
    if toLower symbol = "kb" then
      if decide (fh.size > wrapInt64 (1024 * size64)) then do
        setMessageCh env locale "size.file_kb" customMsg jsonTag formattedField [size]
        Chan.ret
      else pure ()
    else if toLower symbol = "mb" then
      if decide (fh.size > wrapInt64 (1024 * 1024 * size64)) then do
        setMessageCh env locale "size.file_mb" customMsg jsonTag formattedField [size]
        Chan.ret
      else pure ()
    else if toLower symbol = "gb" then
      if decide (fh.size > wrapInt64 (1024 * 1024 * 1024 * size64)) then do
        setMessageCh env locale "size.file_gb" customMsg jsonTag formattedField [size]
        Chan.ret
      else pure ()
    else pure ()

/-- The switch on `rule` for a file field (validation.go 752-808), statement by
statement. -/
def fileDirectiveCh (env : Env) (locale : String) (customMsg : Msg)
    (jsonTag formattedField : String) (fh : FileHeader) (rule : String) : Chan Unit :=
  if rule = "image" then do
    let bad ← Chan.call (isNotMimes env (.file fh) "jpg,jpeg,png,webp")
    if bad then do
      setMessageCh env locale "image" customMsg jsonTag formattedField []
      Chan.ret
    else pure ()
  else if rule = "file" then do
    let bad ← Chan.call (isNotFile env (.file fh))
    if bad then do
      setMessageCh env locale "file" customMsg jsonTag formattedField []
      Chan.ret
    else pure ()
  else if containsChar rule ':' then
    let rSlice := splitN rule ':' 2
    let name := rSlice.getD 0 ""
    let arg := rSlice.getD 1 ""
    if name = "image" then do
      let bad ← Chan.call (isNotMimes env (.file fh) arg)
      if bad then do
        setMessageCh env locale "image_type" customMsg jsonTag formattedField [arg]
        Chan.ret
      else pure ()
    else if name = "file" then do
      let bad ← Chan.call (isNotMimes env (.file fh) arg)
      if bad then do
        setMessageCh env locale "file_type" customMsg jsonTag formattedField [arg]
        Chan.ret
      else pure ()
    else if name = "mimes" then do
      let bad ← Chan.call (isNotMimes env (.file fh) arg)
      if bad then do
        setMessageCh env locale "mimes" customMsg jsonTag formattedField [arg]
        Chan.ret
      else pure ()
    else if name = "size" then
      fileSizeDirectiveCh env locale customMsg jsonTag formattedField fh arg
    else pure ()
  else pure ()

/-- The length directives of a sequence (validation.go 406-420), statement by
statement. -/
def sliceDirectiveCh (env : Env) (locale : String) (customMsg : Msg)
    (jsonTag formattedField : String) (value : Value) (rule : String) : Chan Unit :=
  if startsWith rule "slice" && containsChar rule ':' then
    let rSlice := (splitN rule ':' 3).drop 1
    let name := rSlice.getD 0 ""
    if name = "min" then
      if isNotMin env value name then
        match rSlice[1]? with
        | some arg => do
          setMessageCh env locale "min.slice" customMsg jsonTag formattedField [arg]
          Chan.ret
        | none => Chan.call (throw Fault.indexOutOfRange)
      else pure ()
    else if name = "max" then
      if isNotMax env value name then
        match rSlice[1]? with
        | some arg => do
          setMessageCh env locale "max.slice" customMsg jsonTag formattedField [arg]
          Chan.ret
        | none => Chan.call (throw Fault.indexOutOfRange)
      else pure ()
    else pure ()
  else pure ()

/-- After the loop over the elements of a sequence: `if len(errMsgs) > 0` the list is
sent and the goroutine returns (validation.go 541-544, 606-609, 665-668, 732-735). -/
def sendListCh (env : Env) (locale : String) (jsonTag formattedField : String)
    (errMsgs : List Msg) : Chan Unit :=
  match errMsgs with
  | [] => pure ()
  | _ :: _ => do
    setMessageCh env locale "" (.list errMsgs) jsonTag formattedField []
    Chan.ret

/-- The switch on the element kind of a sequence (validation.go 421-750), statement by
statement: the loops over the elements build `errMsgs` and `err` without a send. -/
def elementsStepCh (env : Env) (nested : Target → Except Fault (Option GoMap))
    (locale : String) (fields : List Field) (value : Value) (jsonTag formattedField : String)
    (rule : String) (customMsg : Msg) : Chan Unit :=
  match value with
  | .strs xs => do
    let errMsgs ← Chan.call (collectMsgs env locale customMsg formattedField
      (fun x => stringDirective env fields x rule) xs 1)
    sendListCh env locale jsonTag formattedField errMsgs
  | .ints _ xs => do
    let errMsgs ← Chan.call (collectMsgs env locale customMsg formattedField
      (fun _ => integerElemDirective env fields value rule) xs 1)
    sendListCh env locale jsonTag formattedField errMsgs
  | .uints _ xs => do
    let errMsgs ← Chan.call (collectMsgs env locale customMsg formattedField
      (fun _ => integerElemDirective env fields value rule) xs 1)
    sendListCh env locale jsonTag formattedField errMsgs
  | .floats _ xs => do
    let errMsgs ← Chan.call (collectMsgs env locale customMsg formattedField
      (fun _ => floatElemDirective env fields value rule) xs 1)
    sendListCh env locale jsonTag formattedField errMsgs
  | .files xs => do
    let errMsgs ← Chan.call (collectMsgs env locale customMsg formattedField
      (fun fh => fileDirective env fh rule) xs 1)
    sendListCh env locale jsonTag formattedField errMsgs
  | .refs _ ts => do
    let err ← Chan.call (collectNested nested jsonTag ts 0 [])
    match err with
    | [] => pure ()
    | _ :: _ => do
      setMessageCh env locale "" (.map err) jsonTag formattedField []
      Chan.ret
  | _ => pure ()

/-- The nested validation of a pointer field (validation.go 810-815), statement by
statement. -/
def nestedStepCh (env : Env) (nested : Target → Except Fault (Option GoMap))
    (locale : String) (jsonTag formattedField : String) (t : Target) : Chan Unit := do
  let msg ← Chan.call (nested t)
  match msg with
  | some m => do
    setMessageCh env locale "" (.map m) jsonTag formattedField []
    Chan.ret
  | none => pure ()

/-- The switch on the kind of a non-empty value for one directive (validation.go
166-816), statement by statement. -/
def kindStepCh (env : Env) (nested : Target → Except Fault (Option GoMap)) (locale : String)
    (fields : List Field) (value : Value) (jsonTag formattedField : String)
    (rule : String) (customMsg : Msg) : Chan Unit :=
  match value with
  | .str s => stringDirectiveCh env locale fields customMsg jsonTag formattedField s rule
  | .int _ _ => integerDirectiveCh env locale fields customMsg jsonTag formattedField value rule
  | .uint _ _ => integerDirectiveCh env locale fields customMsg jsonTag formattedField value rule
  | .float _ _ => floatDirectiveCh env locale fields customMsg jsonTag formattedField value rule
  | .strs _ | .ints _ _ | .uints _ _ | .floats _ _ | .files _ | .refs _ _ | .seq _ _ => do
    sliceDirectiveCh env locale customMsg jsonTag formattedField value rule
    elementsStepCh env nested locale fields value jsonTag formattedField rule customMsg
  | .file fh => fileDirectiveCh env locale customMsg jsonTag formattedField fh rule
  | .ref _ t => nestedStepCh env nested locale jsonTag formattedField t
  | .nilPtr _ => nestedStepCh env nested locale jsonTag formattedField .invalid
  | .bool _ | .map _ _ | .other _ _ => pure ()

/-- The body of the loop over the directives (validation.go 156-818) for one segment
of the chain, statement by statement. -/
def ruleStepCh (env : Env) (nested : Target → Except Fault (Option GoMap)) (locale : String)
    (fields : List Field) (value : Value) (jsonTag formattedField : String)
    (ruleOrMsg : String) : Chan Unit :=
  let rule := (env.getRuleAndMsg ruleOrMsg).1
  let customMsg := Msg.str (env.getRuleAndMsg ruleOrMsg).2
  do
    if rule = "required" ∧ isEmpty value = true then do
      if isBoolKind value then do
        setMessageCh env locale "bool" customMsg jsonTag formattedField []
        Chan.ret
      else pure ()
      setMessageCh env locale "required" customMsg jsonTag formattedField []
      Chan.ret
    else pure ()
    if !isEmpty value then
      kindStepCh env nested locale fields value jsonTag formattedField rule customMsg
    else pure ()

/-- The loop over the directives and the statement after it (validation.go 155-820):
once the chain is exhausted the pass message is sent. -/
def ruleLoopCh (env : Env) (nested : Target → Except Fault (Option GoMap)) (locale : String)
    (fields : List Field) (value : Value) (jsonTag formattedField : String) :
    List String → Chan Unit
  | [] => setMessageCh env locale "empty" (.str "") jsonTag formattedField []
  | ruleOrMsg :: rest => do
    ruleStepCh env nested locale fields value jsonTag formattedField ruleOrMsg
    ruleLoopCh env nested locale fields value jsonTag formattedField rest

/-- Method `validateStruct` (validation.go 148-821) as the goroutine of one field
acting on the channel. -/
def validateStructCh (env : Env) (nested : Target → Except Fault (Option GoMap))
    (locale : String) (fields : List Field) (f : Field) : Chan Unit :=
  ruleLoopCh env nested locale fields f.value (tagGet f.json)
    (env.formatFieldName (tagGet f.json)) (split (tagGet f.validate) '|')

/-- The messages the channel holds after a block, whether the block has returned or
not. -/
def Chan.after {α : Type} (x : Chan α) (ch : List Message) : Except Fault (List Message) :=
  match x ch with
  | .ok (_, ch1) => .ok ch1
  | .error e => .error e

/-- The messages a run of `validateStruct` sends on an empty channel. -/
def validateStructSends (env : Env) (nested : Target → Except Fault (Option GoMap))
    (locale : String) (fields : List Field) (f : Field) : Except Fault (List Message) :=
  (validateStructCh env nested locale fields f).after []

/-- The field goroutines of `structValidator` on their shared channel, joined by
`wg.Wait()`: the messages the channel holds when the receiving loop starts, the
goroutines taken in the order of declaration. -/
def runFieldsCh (env : Env) (nested : Target → Except Fault (Option GoMap)) (locale : String)
    (fields : List Field) : List Field → List Message → Except Fault (List Message)
  | [], ch => .ok ch
  | f :: rest, ch => do
    let ch1 ← (validateStructCh env nested locale fields f).after ch
    runFieldsCh env nested locale fields rest ch1

/-- The effect on the channel of a step of which the result is known: it panicked, it
sent nothing and the loop goes on, or it sent `m` and the goroutine returned. -/
def afterStep (r : Except Fault (Option Message)) : Chan Unit := fun ch =>
  match r with
  | .error e => .error e
  | .ok none => .ok (some (), ch)
  | .ok (some m) => .ok (none, ch ++ [m])

/-! ## `validation.go`: the request handler -/

/-- What the handler of `ValidateRequest` does to the response and to the next
handler, in order. -/
inductive HandlerEvent where
  /-- Go `w.Header().Set(key, value)`. -/
  | setHeader (key value : String)
  /-- Go `w.WriteHeader(status)`. -/
  | writeHeader (status : Nat)
  /-- Go `w.Write` of the marshalled `jsonRes`: its fields `status` and `errors`. -/
  | write (status : Bool) (errors : GoMap)
  /-- Go `next.ServeHTTP(w, r)`. -/
  | next

/-- The handler returned by `ValidateRequest` (validation.go 81-111), for the record
`target` as `json.Unmarshal` left it and the value `errors0` an earlier request left in
`jsonRes.Errors`: the events of one request. A receiver on which `Validate` never got a
pointer has no element type. -/
def ValidateRequest (env : Env) (nested : Target → Except Fault (Option GoMap))
    (locale : String) (errors0 : Option GoMap) (target : Target) :
    Except Fault (List HandlerEvent) := do
  let errors ← match target with
    | .struct fields => do
      let message ← structValidator env nested locale fields
      match message with
      | some m => pure (if m.length > 0 then some m else none)
      | none => pure none
    | .mapPtr => throw Fault.implementMe
    | .otherPtr => pure errors0
    | .invalid => throw Fault.notPointer
  match errors with
  | some m =>
    pure [.setHeader "Content-Type" "application/json", .writeHeader 422, .write false m,
      .next]
  | none => pure [.next]

/-- Go `MatchString` for an expression without anchors: a match starts somewhere in the
text. -/
def matchAnywhere (re : Re) : List Char → Bool
  | [] => re.run [] (fun _ => true)
  | c :: cs => re.run (c :: cs) (fun _ => true) || matchAnywhere re cs

/-- Pattern `^[1-9]\d+$`. -/
def uintRe : Re := .seq (.cls (fun c => c.isDigit && c != '0')) (.plus Char.isDigit)

/-- Pattern `[\x00-\x7F]+`. -/
def asciiRe : Re := .plus (fun c => decide (c.toNat ≤ 0x7F))

/-- The number of `%s` verbs of a format, scanned as `sprintfChars` scans it. -/
def placeholders : List Char → Nat
  | [] => 0
  | ['%'] => 0
  | '%' :: '%' :: rest => placeholders rest
  | '%' :: c :: rest => (if c = 's' then 1 else 0) + placeholders rest
  | _ :: rest => placeholders rest

/-- The rule keys `validateStruct` hands to `setMessage` and `generateMessage` without
a message of its own, each with the number of positional arguments that follow the
field name in the call (validation.go 157-805). The key `empty` and the empty key,
which carry their message with them, are not rendered. -/
def dispatcherKeys : List (String × Nat) :=
  [ ("bool", 0), ("required", 0), ("string", 0), ("alpha", 0), ("numeric", 0),
    ("alpha_numeric", 0), ("email", 0), ("phone", 0), ("phone_with_code", 0),
    ("username", 0), ("gh_card", 0), ("gh_gps", 0),
    ("min.string", 1), ("max.string", 1), ("equal.string", 1), ("size.string", 1),
    ("from.string", 2), ("between.string", 2),
    ("same", 1), ("match", 0), ("unique", 0), ("int", 0), ("uint", 0),
    ("min.numeric", 1), ("max.numeric", 1), ("equal.numeric", 1), ("size.numeric", 1),
    ("from.numeric", 2), ("between.numeric", 2), ("float", 0),
    ("min.slice", 1), ("max.slice", 1),
    ("image", 0), ("file", 0), ("image_type", 1), ("file_type", 1), ("mimes", 1),
    ("size.file_kb", 1), ("size.file_mb", 1), ("size.file_gb", 1) ]

/-- The template of `key` in `table` is not empty and has one `%s` for the field name
and one for each of the `n` positional arguments. -/
def arityOK (table : LocaleTable) (key : String) (n : Nat) : Bool :=
  match lookupTemplate table key with
  | .ok t => t != "" && placeholders t.data == n + 1
  | .error _ => false

/-! ## Lemmas on the renderer -/

theorem setMessage_V_not_nil (env : Env) (locale ruleKey : String) (customMsg : Msg)
    (msgKey field : String) (values : List String) (m : Message)
    (hc : customMsg.isNil = false)
    (h : setMessage env locale ruleKey customMsg msgKey field values = .ok m) :
    m.V.isNil = false := by
  unfold setMessage at h
  by_cases hk : ruleKey = "empty"
  · simp [hk, pure, Except.pure] at h
    subst h; exact hc
  · by_cases hn : customMsg.isNotEmptyString = true
    · simp [hk, hn, pure, Except.pure] at h
      subst h; exact hc
    · simp [hk, hn] at h
      cases hr : render env locale ruleKey field values with
      | error e => simp [hr, bind, Except.bind] at h
      | ok s =>
        simp [hr, bind, Except.bind, pure, Except.pure] at h
        subst h; rfl

theorem setMessage_K (env : Env) (locale ruleKey : String) (customMsg : Msg)
    (msgKey field : String) (values : List String) (m : Message)
    (h : setMessage env locale ruleKey customMsg msgKey field values = .ok m) :
    m.K = msgKey := by
  unfold setMessage at h
  by_cases hk : ruleKey = "empty"
  · simp [hk, pure, Except.pure] at h
    subst h; rfl
  · by_cases hn : customMsg.isNotEmptyString = true
    · simp [hk, hn, pure, Except.pure] at h
      subst h; rfl
    · simp [hk, hn] at h
      cases hr : render env locale ruleKey field values with
      | error e => simp [hr, bind, Except.bind] at h
      | ok s =>
        simp [hr, bind, Except.bind, pure, Except.pure] at h
        subst h; rfl

/-! ## Lemmas on the dispatcher -/

theorem sendFired_V_not_nil (env : Env) (locale : String) (customMsg : Msg)
    (jsonTag formattedField : String) (fired : Fired) (m : Message)
    (hc : customMsg.isNil = false)
    (h : sendFired env locale customMsg jsonTag formattedField fired = .ok (some m)) :
    m.V.isNil = false := by
  unfold sendFired at h
  cases fired with
  | none => simp [pure, Except.pure] at h
  | some kv =>
    obtain ⟨ruleKey, values⟩ := kv
    simp only at h
    cases hs : setMessage env locale ruleKey customMsg jsonTag formattedField values with
    | error e => simp [hs, bind, Except.bind] at h
    | ok m0 =>
      simp [hs, bind, Except.bind, pure, Except.pure] at h
      subst h
      exact setMessage_V_not_nil env locale ruleKey customMsg jsonTag formattedField values m0 hc hs

theorem sendList_V_not_nil (env : Env) (locale : String) (jsonTag formattedField : String)
    (errMsgs : List Msg) (m : Message)
    (h : sendList env locale jsonTag formattedField errMsgs = .ok (some m)) :
    m.V.isNil = false := by
  unfold sendList at h
  cases errMsgs with
  | nil => simp [pure, Except.pure] at h
  | cons x xs =>
    simp only at h
    cases hs : setMessage env locale "" (.list (x :: xs)) jsonTag formattedField [] with
    | error e => simp [hs, bind, Except.bind] at h
    | ok m0 =>
      simp [hs, bind, Except.bind, pure, Except.pure] at h
      subst h
      exact setMessage_V_not_nil env locale "" (.list (x :: xs)) jsonTag formattedField [] m0 rfl hs

theorem sendMap_V_not_nil (env : Env) (locale : String) (jsonTag formattedField : String)
    (kvs : GoMap) (m : Message)
    (h : (do let sent ← setMessage env locale "" (.map kvs) jsonTag formattedField []
             pure (some sent) : Except Fault (Option Message)) = .ok (some m)) :
    m.V.isNil = false := by
  cases hs : setMessage env locale "" (.map kvs) jsonTag formattedField [] with
  | error e => simp [hs, bind, Except.bind] at h
  | ok m0 =>
    simp [hs, bind, Except.bind, pure, Except.pure] at h
    subst h
    exact setMessage_V_not_nil env locale "" (.map kvs) jsonTag formattedField [] m0 rfl hs

theorem elementsStep_V_not_nil (env : Env) (nested : Target → Except Fault (Option GoMap))
    (locale : String) (fields : List Field) (value : Value) (jsonTag formattedField : String)
    (rule : String) (customMsg : Msg) (m : Message)
    (h : elementsStep env nested locale fields value jsonTag formattedField rule customMsg
      = .ok (some m)) :
    m.V.isNil = false := by
  unfold elementsStep at h
  cases value <;> simp only [pure, Except.pure] at h <;> try (simp at h)
  case strs xs =>
    cases hc : collectMsgs env locale customMsg formattedField
      (fun x => stringDirective env fields x rule) xs 1 with
    | error e => simp [hc, bind, Except.bind] at h
    | ok l =>
      simp only [hc, bind, Except.bind] at h
      exact sendList_V_not_nil env locale jsonTag formattedField l m h
  case ints k xs =>
    cases hc : collectMsgs env locale customMsg formattedField
      (fun _ => integerElemDirective env fields (.ints k xs) rule) xs 1 with
    | error e => simp [hc, bind, Except.bind] at h
    | ok l =>
      simp only [hc, bind, Except.bind] at h
      exact sendList_V_not_nil env locale jsonTag formattedField l m h
  case uints k xs =>
    cases hc : collectMsgs env locale customMsg formattedField
      (fun _ => integerElemDirective env fields (.uints k xs) rule) xs 1 with
    | error e => simp [hc, bind, Except.bind] at h
    | ok l =>
      simp only [hc, bind, Except.bind] at h
      exact sendList_V_not_nil env locale jsonTag formattedField l m h
  case floats k xs =>
    cases hc : collectMsgs env locale customMsg formattedField
      (fun _ => floatElemDirective env fields (.floats k xs) rule) xs 1 with
    | error e => simp [hc, bind, Except.bind] at h
    | ok l =>
      simp only [hc, bind, Except.bind] at h
      exact sendList_V_not_nil env locale jsonTag formattedField l m h
  case files xs =>
    cases hc : collectMsgs env locale customMsg formattedField
      (fun fh => fileDirective env fh rule) xs 1 with
    | error e => simp [hc, bind, Except.bind] at h
    | ok l =>
      simp only [hc, bind, Except.bind] at h
      exact sendList_V_not_nil env locale jsonTag formattedField l m h
  case refs ty ts =>
    cases hc : collectNested nested jsonTag ts 0 [] with
    | error e => simp [hc, bind, Except.bind] at h
    | ok err =>
      simp only [hc, bind, Except.bind] at h
      cases err with
      | nil => simp at h
      | cons kv rest =>
        simp only at h
        exact sendMap_V_not_nil env locale jsonTag formattedField (kv :: rest) m h

theorem kindStep_V_not_nil (env : Env) (nested : Target → Except Fault (Option GoMap))
    (locale : String) (fields : List Field) (value : Value) (jsonTag formattedField : String)
    (rule : String) (customMsg : Msg) (m : Message)
    (hc : customMsg.isNil = false)
    (h : kindStep env nested locale fields value jsonTag formattedField rule customMsg
      = .ok (some m)) :
    m.V.isNil = false := by
  have scalar : ∀ (d : Except Fault Fired),
      (do let fired ← d
          sendFired env locale customMsg jsonTag formattedField fired) = .ok (some m) →
      m.V.isNil = false := by
    intro d hd
    cases hx : d with
    | error e => simp [hx, bind, Except.bind] at hd
    | ok fired =>
      simp only [hx, bind, Except.bind] at hd
      exact sendFired_V_not_nil env locale customMsg jsonTag formattedField fired m hc hd
  have seqs : ∀ (v : Value),
      (do let fired ← sliceDirective env v rule
          match fired with
          | some _ => sendFired env locale customMsg jsonTag formattedField fired
          | none => elementsStep env nested locale fields v jsonTag formattedField rule customMsg)
        = .ok (some m) →
      m.V.isNil = false := by
    intro v hd
    cases hx : sliceDirective env v rule with
    | error e => simp [hx, bind, Except.bind] at hd
    | ok fired =>
      simp only [hx, bind, Except.bind] at hd
      cases fired with
      | none =>
        exact elementsStep_V_not_nil env nested locale fields v jsonTag formattedField rule
          customMsg m hd
      | some kv =>
        exact sendFired_V_not_nil env locale customMsg jsonTag formattedField (some kv) m hc hd
  have nest : ∀ (t : Target),
      (do let msg ← nested t
          match msg with
          | some m0 => do
            let sent ← setMessage env locale "" (.map m0) jsonTag formattedField []
            pure (some sent)
          | none => pure none) = .ok (some m) →
      m.V.isNil = false := by
    intro t hd
    cases hx : nested t with
    | error e => simp [hx, bind, Except.bind] at hd
    | ok r =>
      simp only [hx, bind, Except.bind] at hd
      cases r with
      | none => simp [pure, Except.pure] at hd
      | some m0 => exact sendMap_V_not_nil env locale jsonTag formattedField m0 m hd
  unfold kindStep at h
  cases value
  case str s => exact scalar _ h
  case int k i => exact scalar _ h
  case uint k n => exact scalar _ h
  case float k x => exact scalar _ h
  case bool b => simp [pure, Except.pure] at h
  case strs xs => exact seqs _ h
  case ints k xs => exact seqs _ h
  case uints k xs => exact seqs _ h
  case floats k xs => exact seqs _ h
  case files xs => exact seqs _ h
  case refs ty ts => exact seqs _ h
  case seq ty n => exact seqs _ h
  case file fh => exact scalar _ h
  case ref ty t => exact nest _ h
  case nilPtr ty => exact nest _ h
  case map ty n => simp [pure, Except.pure] at h
  case other ty z => simp [pure, Except.pure] at h

theorem ruleStep_V_not_nil (env : Env) (nested : Target → Except Fault (Option GoMap))
    (locale : String) (fields : List Field) (value : Value) (jsonTag formattedField : String)
    (ruleOrMsg : String) (m : Message)
    (h : ruleStep env nested locale fields value jsonTag formattedField ruleOrMsg
      = .ok (some m)) :
    m.V.isNil = false := by
  unfold ruleStep at h
  have send : ∀ (key : String),
      (do let m0 ← setMessage env locale key (Msg.str (env.getRuleAndMsg ruleOrMsg).2)
            jsonTag formattedField []
          pure (some m0) : Except Fault (Option Message)) = .ok (some m) →
      m.V.isNil = false := by
    intro key hd
    cases hs : setMessage env locale key (Msg.str (env.getRuleAndMsg ruleOrMsg).2)
        jsonTag formattedField [] with
    | error e => simp [hs, bind, Except.bind] at hd
    | ok m0 =>
      simp [hs, bind, Except.bind, pure, Except.pure] at hd
      subst hd
      exact setMessage_V_not_nil env locale key (Msg.str (env.getRuleAndMsg ruleOrMsg).2) jsonTag
        formattedField [] m0 rfl hs
  simp only at h
  split at h
  · split at h
    · exact send _ h
    · exact send _ h
  · split at h
    · exact kindStep_V_not_nil env nested locale fields value jsonTag formattedField
        (env.getRuleAndMsg ruleOrMsg).1 (Msg.str (env.getRuleAndMsg ruleOrMsg).2) m rfl h
    · simp [pure, Except.pure] at h

theorem ruleLoop_V_not_nil (env : Env) (nested : Target → Except Fault (Option GoMap))
    (locale : String) (fields : List Field) (value : Value) (jsonTag formattedField : String)
    (chain : List String) (m : Message)
    (h : ruleLoop env nested locale fields value jsonTag formattedField chain = .ok m) :
    m.V.isNil = false := by
  induction chain with
  | nil =>
    unfold ruleLoop at h
    exact setMessage_V_not_nil env locale "empty" (.str "") jsonTag formattedField [] m rfl h
  | cons seg rest ih =>
    unfold ruleLoop at h
    cases hs : ruleStep env nested locale fields value jsonTag formattedField seg with
    | error e => simp [hs, bind, Except.bind] at h
    | ok sent =>
      simp only [hs, bind, Except.bind] at h
      cases sent with
      | none => exact ih h
      | some m0 =>
        simp [pure, Except.pure] at h
        subst h
        exact ruleStep_V_not_nil env nested locale fields value jsonTag formattedField seg m0 hs

theorem runFields_V_not_nil (env : Env) (nested : Target → Except Fault (Option GoMap))
    (locale : String) (fields : List Field) (fs : List Field) (msgs : List Message)
    (h : runFields env nested locale fields fs = .ok msgs) :
    msgs.length = fs.length ∧ ∀ m ∈ msgs, m.V.isNil = false := by
  induction fs generalizing msgs with
  | nil =>
    unfold runFields at h
    simp [pure, Except.pure] at h
    subst h
    simp
  | cons f rest ih =>
    unfold runFields at h
    cases hv : validateStruct env nested locale fields f with
    | error e => simp [hv, bind, Except.bind] at h
    | ok m0 =>
      cases hr : runFields env nested locale fields rest with
      | error e => simp [hv, hr, bind, Except.bind] at h
      | ok ms =>
        simp [hv, hr, bind, Except.bind, pure, Except.pure] at h
        subst h
        obtain ⟨hl, hn⟩ := ih ms hr
        refine ⟨by simp [hl], ?_⟩
        intro m hm
        rcases List.mem_cons.mp hm with heq | hin
        · subst heq
          exact ruleLoop_V_not_nil env nested locale fields _ _ _ _ m hv
        · exact hn m hin

theorem mapSet_ne_nil (m : GoMap) (k : String) (v : Msg) : mapSet m k v ≠ [] := by
  cases m with
  | nil => simp [mapSet]
  | cons kv rest =>
    obtain ⟨k0, v0⟩ := kv
    unfold mapSet
    split <;> simp

theorem foldMessages_not_nil (msgs : List Message) (errMsg noErrMsg : GoMap)
    (h : ∀ m ∈ msgs, m.V.isNil = false) :
    (foldMessages msgs (errMsg, noErrMsg)).2 = noErrMsg ∧
    ((msgs ≠ [] ∨ errMsg ≠ []) → (foldMessages msgs (errMsg, noErrMsg)).1 ≠ []) := by
  induction msgs generalizing errMsg noErrMsg with
  | nil => simp [foldMessages]
  | cons msg rest ih =>
    have hm : msg.V.isNil = false := h msg (List.mem_cons_self _ _)
    have hrest : ∀ m ∈ rest, m.V.isNil = false := fun m hin => h m (List.mem_cons_of_mem _ hin)
    unfold foldMessages
    simp only [hm]
    obtain ⟨h2, h1⟩ := ih (mapSet errMsg msg.K msg.V) noErrMsg hrest
    refine ⟨by simpa using h2, fun _ => ?_⟩
    exact h1 (Or.inr (mapSet_ne_nil _ _ _))

/-! ## The loop over the directives -/

theorem ruleLoop_cons_some (env : Env) (nested : Target → Except Fault (Option GoMap))
    (locale : String) (fields : List Field) (value : Value) (jsonTag formattedField : String)
    (seg : String) (rest : List String) (m : Message)
    (h : ruleStep env nested locale fields value jsonTag formattedField seg = .ok (some m)) :
    ruleLoop env nested locale fields value jsonTag formattedField (seg :: rest) = .ok m := by
  simp [ruleLoop, h, bind, Except.bind, pure, Except.pure]

theorem ruleLoop_cons_error (env : Env) (nested : Target → Except Fault (Option GoMap))
    (locale : String) (fields : List Field) (value : Value) (jsonTag formattedField : String)
    (seg : String) (rest : List String) (e : Fault)
    (h : ruleStep env nested locale fields value jsonTag formattedField seg = .error e) :
    ruleLoop env nested locale fields value jsonTag formattedField (seg :: rest) = .error e := by
  simp [ruleLoop, h, bind, Except.bind]

theorem ruleLoop_cons_none (env : Env) (nested : Target → Except Fault (Option GoMap))
    (locale : String) (fields : List Field) (value : Value) (jsonTag formattedField : String)
    (seg : String) (rest : List String)
    (h : ruleStep env nested locale fields value jsonTag formattedField seg = .ok none) :
    ruleLoop env nested locale fields value jsonTag formattedField (seg :: rest)
      = ruleLoop env nested locale fields value jsonTag formattedField rest := by
  simp [ruleLoop, h, bind, Except.bind]

theorem ruleLoop_skip (env : Env) (nested : Target → Except Fault (Option GoMap))
    (locale : String) (fields : List Field) (value : Value) (jsonTag formattedField : String)
    (pre rest : List String)
    (h : ∀ s ∈ pre, ruleStep env nested locale fields value jsonTag formattedField s = .ok none) :
    ruleLoop env nested locale fields value jsonTag formattedField (pre ++ rest)
      = ruleLoop env nested locale fields value jsonTag formattedField rest := by
  induction pre with
  | nil => rfl
  | cons s pre ih =>
    have hs := h s (List.mem_cons_self _ _)
    have hpre : ∀ t ∈ pre,
        ruleStep env nested locale fields value jsonTag formattedField t = .ok none :=
      fun t ht => h t (List.mem_cons_of_mem _ ht)
    rw [List.cons_append, ruleLoop_cons_none _ _ _ _ _ _ _ _ _ hs]
    exact ih hpre

theorem ruleLoop_nil (env : Env) (nested : Target → Except Fault (Option GoMap))
    (locale : String) (fields : List Field) (value : Value) (jsonTag formattedField : String) :
    ruleLoop env nested locale fields value jsonTag formattedField []
      = .ok ⟨jsonTag, .str ""⟩ := by
  simp [ruleLoop, setMessage, pure, Except.pure]

theorem ruleStep_empty_other (env : Env) (nested : Target → Except Fault (Option GoMap))
    (locale : String) (fields : List Field) (value : Value) (jsonTag formattedField : String)
    (seg : String) (hv : isEmpty value = true) (hr : (env.getRuleAndMsg seg).1 ≠ "required") :
    ruleStep env nested locale fields value jsonTag formattedField seg = .ok none := by
  simp [ruleStep, hv, hr, pure, Except.pure]

theorem ruleStep_scalar (env : Env) (nested : Target → Except Fault (Option GoMap))
    (locale : String) (fields : List Field) (value : Value) (jsonTag formattedField : String)
    (seg : String) (hs : isScalar value = true) (hv : isEmpty value = false) :
    ruleStep env nested locale fields value jsonTag formattedField seg
      = (do let fired ← scalarDirective env fields value (env.getRuleAndMsg seg).1
            sendFired env locale (.str (env.getRuleAndMsg seg).2) jsonTag formattedField fired) := by
  cases value <;> simp [isScalar] at hs <;>
    simp [ruleStep, hv, kindStep, scalarDirective]

theorem ruleStep_required_empty (env : Env) (nested : Target → Except Fault (Option GoMap))
    (locale : String) (fields : List Field) (value : Value) (jsonTag formattedField : String)
    (seg : String) (hv : isEmpty value = true) (hr : (env.getRuleAndMsg seg).1 = "required") :
    ruleStep env nested locale fields value jsonTag formattedField seg
      = (do let m ← setMessage env locale (if isBoolKind value then "bool" else "required")
              (.str (env.getRuleAndMsg seg).2) jsonTag formattedField []
            pure (some m)) := by
  by_cases hb : isBoolKind value = true <;> simp [ruleStep, hv, hr, hb]

theorem ruleLoop_required_empty (env : Env) (nested : Target → Except Fault (Option GoMap))
    (locale : String) (fields : List Field) (value : Value) (jsonTag formattedField : String)
    (pre post : List String) (seg : String)
    (hv : isEmpty value = true) (hr : (env.getRuleAndMsg seg).1 = "required")
    (hpre : ∀ s ∈ pre, (env.getRuleAndMsg s).1 ≠ "required") :
    ruleLoop env nested locale fields value jsonTag formattedField (pre ++ seg :: post)
      = setMessage env locale (if isBoolKind value then "bool" else "required")
          (.str (env.getRuleAndMsg seg).2) jsonTag formattedField [] := by
  rw [ruleLoop_skip]
  · cases hm : setMessage env locale (if isBoolKind value then "bool" else "required")
        (.str (env.getRuleAndMsg seg).2) jsonTag formattedField [] with
    | error e =>
      apply ruleLoop_cons_error
      rw [ruleStep_required_empty _ _ _ _ _ _ _ _ hv hr, hm]
      simp [bind, Except.bind]
    | ok m =>
      apply ruleLoop_cons_some
      rw [ruleStep_required_empty _ _ _ _ _ _ _ _ hv hr, hm]
      simp [bind, Except.bind, pure, Except.pure]
  · intro s hs
    exact ruleStep_empty_other env nested locale fields value _ _ s hv (hpre s hs)

theorem exists_first_required (env : Env) (chain : List String)
    (h : ∃ seg ∈ chain, (env.getRuleAndMsg seg).1 = "required") :
    ∃ pre seg post, chain = pre ++ seg :: post ∧ (env.getRuleAndMsg seg).1 = "required" ∧
      ∀ s ∈ pre, (env.getRuleAndMsg s).1 ≠ "required" := by
  induction chain with
  | nil => simp at h
  | cons a rest ih =>
    by_cases ha : (env.getRuleAndMsg a).1 = "required"
    · exact ⟨[], a, rest, rfl, ha, by simp⟩
    · obtain ⟨seg, hmem, hseg⟩ := h
      have hin : seg ∈ rest := by
        rcases List.mem_cons.mp hmem with heq | hin
        · subst heq; exact absurd hseg ha
        · exact hin
      obtain ⟨pre, s, post, hc, hs, hp⟩ := ih ⟨seg, hin, hseg⟩
      refine ⟨a :: pre, s, post, by simp [hc], hs, ?_⟩
      intro t ht
      rcases List.mem_cons.mp ht with heq | hin2
      · subst heq; exact ha
      · exact hp t hin2

theorem collectMsgs_none {α : Type} (env : Env) (locale : String) (customMsg : Msg)
    (formattedField : String) (directive : α → Except Fault Fired) (xs : List α) (i : Nat)
    (h : ∀ x ∈ xs, directive x = .ok none) :
    collectMsgs env locale customMsg formattedField directive xs i = .ok [] := by
  induction xs generalizing i with
  | nil => rfl
  | cons x rest ih =>
    have hx := h x (List.mem_cons_self _ _)
    have hrest : ∀ y ∈ rest, directive y = .ok none :=
      fun y hy => h y (List.mem_cons_of_mem _ hy)
    simp [collectMsgs, hx, bind, Except.bind, ih (i + 1) hrest]

theorem ruleStep_required_nonempty (env : Env) (nested : Target → Except Fault (Option GoMap))
    (locale : String) (fields : List Field) (value : Value) (jsonTag formattedField : String)
    (seg : String) (hv : isEmpty value = false) (hr : (env.getRuleAndMsg seg).1 = "required")
    (hseq : isNestedSeq value = false) (hptr : ∀ ty t, value ≠ .ref ty t) :
    ruleStep env nested locale fields value jsonTag formattedField seg = .ok none := by
  have hstr : ∀ x : String, stringDirective env fields x "required" = .ok none := fun _ => rfl
  have hint : ∀ v : Value, integerDirective env fields v "required" = .ok none := fun _ => rfl
  have hflt : ∀ v : Value, floatDirective env fields v "required" = .ok none := fun _ => rfl
  have hinte : ∀ v : Value, integerElemDirective env fields v "required" = .ok none :=
    fun _ => rfl
  have hflte : ∀ v : Value, floatElemDirective env fields v "required" = .ok none :=
    fun _ => rfl
  have hfile : ∀ fh : FileHeader, fileDirective env fh "required" = .ok none := fun _ => rfl
  have hslice : ∀ v : Value, sliceDirective env v "required" = .ok none := fun _ => rfl
  cases value
  case str s =>
    simp [ruleStep, hv, hr, kindStep, hstr, sendFired, bind, Except.bind, pure, Except.pure]
  case int k i =>
    simp [ruleStep, hv, hr, kindStep, hint, sendFired, bind, Except.bind, pure, Except.pure]
  case uint k n =>
    simp [ruleStep, hv, hr, kindStep, hint, sendFired, bind, Except.bind, pure, Except.pure]
  case float k x =>
    simp [ruleStep, hv, hr, kindStep, hflt, sendFired, bind, Except.bind, pure, Except.pure]
  case bool b => simp [ruleStep, hv, hr, kindStep, pure, Except.pure]
  case strs xs =>
    simp [ruleStep, hv, hr, kindStep, hslice, elementsStep, bind, Except.bind,
      collectMsgs_none env locale _ formattedField _ xs 1 (fun x _ => hstr x), sendList,
      pure, Except.pure]
  case ints k xs =>
    simp [ruleStep, hv, hr, kindStep, hslice, elementsStep, bind, Except.bind,
      collectMsgs_none env locale _ formattedField _ xs 1 (fun _ _ => hinte (.ints k xs)),
      sendList, pure, Except.pure]
  case uints k xs =>
    simp [ruleStep, hv, hr, kindStep, hslice, elementsStep, bind, Except.bind,
      collectMsgs_none env locale _ formattedField _ xs 1 (fun _ _ => hinte (.uints k xs)),
      sendList, pure, Except.pure]
  case floats k xs =>
    simp [ruleStep, hv, hr, kindStep, hslice, elementsStep, bind, Except.bind,
      collectMsgs_none env locale _ formattedField _ xs 1 (fun _ _ => hflte (.floats k xs)),
      sendList, pure, Except.pure]
  case files xs =>
    simp [ruleStep, hv, hr, kindStep, hslice, elementsStep, bind, Except.bind,
      collectMsgs_none env locale _ formattedField _ xs 1 (fun fh _ => hfile fh), sendList,
      pure, Except.pure]
  case refs ty ts => simp [isNestedSeq] at hseq
  case seq ty n =>
    simp [ruleStep, hv, hr, kindStep, hslice, elementsStep, bind, Except.bind, pure,
      Except.pure]
  case file fh =>
    simp [ruleStep, hv, hr, kindStep, hfile, sendFired, bind, Except.bind, pure, Except.pure]
  case ref ty t => exact absurd rfl (hptr ty t)
  case nilPtr ty => simp [isEmpty] at hv
  case map ty n => simp [ruleStep, hv, hr, kindStep, pure, Except.pure]
  case other ty z => simp [ruleStep, hv, hr, kindStep, pure, Except.pure]

theorem ruleStep_ref_const (env : Env) (nested : Target → Except Fault (Option GoMap))
    (locale : String) (fields : List Field) (ty : String) (t : Target)
    (jsonTag formattedField : String) (seg seg2 : String) :
    ruleStep env nested locale fields (.ref ty t) jsonTag formattedField seg
      = ruleStep env nested locale fields (.ref ty t) jsonTag formattedField seg2 := by
  simp [ruleStep, isEmpty, kindStep]

theorem ruleLoop_remove (env : Env) (nested : Target → Except Fault (Option GoMap))
    (locale : String) (fields : List Field) (value : Value) (jsonTag formattedField : String)
    (pre post : List String) (seg : String)
    (h : ruleStep env nested locale fields value jsonTag formattedField seg = .ok none) :
    ruleLoop env nested locale fields value jsonTag formattedField (pre ++ seg :: post)
      = ruleLoop env nested locale fields value jsonTag formattedField (pre ++ post) := by
  induction pre with
  | nil => exact ruleLoop_cons_none _ _ _ _ _ _ _ _ _ h
  | cons a p ih => simp [ruleLoop, ih]

theorem ruleLoop_const_step (env : Env) (nested : Target → Except Fault (Option GoMap))
    (locale : String) (fields : List Field) (value : Value) (jsonTag formattedField : String)
    (hconst : ∀ s s2, ruleStep env nested locale fields value jsonTag formattedField s
      = ruleStep env nested locale fields value jsonTag formattedField s2)
    (a b : String) (l l2 : List String) :
    ruleLoop env nested locale fields value jsonTag formattedField (a :: l)
      = ruleLoop env nested locale fields value jsonTag formattedField (b :: l2) := by
  cases hx : ruleStep env nested locale fields value jsonTag formattedField a with
  | error e =>
    rw [ruleLoop_cons_error _ _ _ _ _ _ _ _ _ _ hx,
      ruleLoop_cons_error _ _ _ _ _ _ _ _ _ _ ((hconst b a).trans hx)]
  | ok sent =>
    cases sent with
    | some m =>
      rw [ruleLoop_cons_some _ _ _ _ _ _ _ _ _ _ hx,
        ruleLoop_cons_some _ _ _ _ _ _ _ _ _ _ ((hconst b a).trans hx)]
    | none =>
      have hall : ∀ (c : List String), ∀ s ∈ c,
          ruleStep env nested locale fields value jsonTag formattedField s = .ok none :=
        fun _ s _ => (hconst s a).trans hx
      have h1 := ruleLoop_skip env nested locale fields value jsonTag formattedField
        (a :: l) [] (hall _)
      have h2 := ruleLoop_skip env nested locale fields value jsonTag formattedField
        (b :: l2) [] (hall _)
      rw [List.append_nil] at h1 h2
      rw [h1, h2]

/-! ## Sequences of text -/

theorem setMessage_str (env : Env) (locale ruleKey custom msgKey field : String)
    (values : List String) (m : Message)
    (h : setMessage env locale ruleKey (.str custom) msgKey field values = .ok m) :
    ∃ s, m.V = .str s := by
  unfold setMessage at h
  by_cases hk : ruleKey = "empty"
  · simp [hk, pure, Except.pure] at h
    subst h; exact ⟨custom, rfl⟩
  · by_cases hn : (Msg.str custom).isNotEmptyString = true
    · simp [hk, hn, pure, Except.pure] at h
      subst h; exact ⟨custom, rfl⟩
    · simp [hk, hn] at h
      cases hr : render env locale ruleKey field values with
      | error e => simp [hr, bind, Except.bind] at h
      | ok s =>
        simp [hr, bind, Except.bind, pure, Except.pure] at h
        subst h; exact ⟨s, rfl⟩

theorem sendFired_str (env : Env) (locale custom jsonTag formattedField : String)
    (fired : Fired) (m : Message)
    (h : sendFired env locale (.str custom) jsonTag formattedField fired = .ok (some m)) :
    ∃ s, m.V = .str s := by
  unfold sendFired at h
  cases fired with
  | none => simp [pure, Except.pure] at h
  | some kv =>
    obtain ⟨ruleKey, values⟩ := kv
    simp only at h
    cases hs : setMessage env locale ruleKey (.str custom) jsonTag formattedField values with
    | error e => simp [hs, bind, Except.bind] at h
    | ok m0 =>
      simp [hs, bind, Except.bind, pure, Except.pure] at h
      subst h
      exact setMessage_str env locale ruleKey custom jsonTag formattedField values m0 hs

theorem sendFired_some_ne_none (env : Env) (locale : String) (customMsg : Msg)
    (jsonTag formattedField : String) (kv : String × List String) :
    sendFired env locale customMsg jsonTag formattedField (some kv) ≠ .ok none := by
  obtain ⟨ruleKey, values⟩ := kv
  unfold sendFired
  simp only
  cases hs : setMessage env locale ruleKey customMsg jsonTag formattedField values <;>
    simp [bind, Except.bind, pure, Except.pure]

theorem sendList_eq (env : Env) (locale jsonTag formattedField : String) (errMsgs : List Msg) :
    sendList env locale jsonTag formattedField errMsgs
      = .ok (match errMsgs with
        | [] => none
        | _ :: _ => some ⟨jsonTag, .list errMsgs⟩) := by
  cases errMsgs with
  | nil => rfl
  | cons x xs =>
    simp [sendList, setMessage, Msg.isNotEmptyString, bind, Except.bind, pure, Except.pure]

/-- The step of the loop for a non-empty sequence of text. -/
theorem ruleStep_strs (env : Env) (nested : Target → Except Fault (Option GoMap))
    (locale : String) (fields : List Field) (xs : List String) (jsonTag formattedField : String)
    (seg : String) (hne : xs ≠ []) :
    ruleStep env nested locale fields (.strs xs) jsonTag formattedField seg
      = (do let fired ← sliceDirective env (.strs xs) (env.getRuleAndMsg seg).1
            match fired with
            | some _ =>
              sendFired env locale (.str (env.getRuleAndMsg seg).2) jsonTag formattedField fired
            | none => do
              let errMsgs ← collectMsgs env locale (.str (env.getRuleAndMsg seg).2)
                formattedField
                (fun x => stringDirective env fields x (env.getRuleAndMsg seg).1) xs 1
              sendList env locale jsonTag formattedField errMsgs) := by
  simp [ruleStep, isEmpty, hne, kindStep, elementsStep]

/-- What a step on a sequence of text can be: no message when the loop over the
elements collects none, a list only as the collected messages of that loop. -/
theorem ruleStep_strs_cases (env : Env) (nested : Target → Except Fault (Option GoMap))
    (locale : String) (fields : List Field) (xs : List String) (jsonTag formattedField : String)
    (seg : String) (sent : Option Message)
    (h : ruleStep env nested locale fields (.strs xs) jsonTag formattedField seg = .ok sent) :
    (sent = none → xs ≠ [] →
      collectMsgs env locale (.str (env.getRuleAndMsg seg).2) formattedField
        (fun x => stringDirective env fields x (env.getRuleAndMsg seg).1) xs 1 = .ok []) ∧
    (∀ k msgs, sent = some ⟨k, .list msgs⟩ →
      xs ≠ [] ∧ msgs ≠ [] ∧
      collectMsgs env locale (.str (env.getRuleAndMsg seg).2) formattedField
        (fun x => stringDirective env fields x (env.getRuleAndMsg seg).1) xs 1 = .ok msgs) := by
  by_cases hne : xs = []
  · subst hne
    refine ⟨fun _ h0 => absurd rfl h0, ?_⟩
    intro k msgs hs
    subst hs
    exfalso
    unfold ruleStep at h
    simp only [isEmpty, List.length_nil, beq_self_eq_true, and_true, Bool.not_true,
      Bool.false_eq_true, if_false] at h
    split at h
    · simp only [isBoolKind, Bool.false_eq_true, if_false] at h
      cases hm : setMessage env locale "required" (.str (env.getRuleAndMsg seg).2) jsonTag
          formattedField [] with
      | error e => simp [hm, bind, Except.bind] at h
      | ok m0 =>
        simp [hm, bind, Except.bind, pure, Except.pure] at h
        obtain ⟨s, hs⟩ := setMessage_str env locale "required" _ jsonTag formattedField [] m0 hm
        rw [h] at hs
        simp at hs
    · simp [pure, Except.pure] at h
  · rw [ruleStep_strs env nested locale fields xs jsonTag formattedField seg hne] at h
    cases hsl : sliceDirective env (.strs xs) (env.getRuleAndMsg seg).1 with
    | error e => simp [hsl, bind, Except.bind] at h
    | ok fired =>
      simp only [hsl, bind, Except.bind] at h
      cases fired with
      | some kv =>
        simp only at h
        refine ⟨?_, ?_⟩
        · intro hs _
          subst hs
          exact absurd h (sendFired_some_ne_none env locale _ jsonTag formattedField kv)
        · intro k msgs hs
          subst hs
          obtain ⟨s, hs⟩ := sendFired_str env locale _ jsonTag formattedField (some kv) _ h
          simp at hs
      | none =>
        simp only at h
        cases hc : collectMsgs env locale (.str (env.getRuleAndMsg seg).2) formattedField
            (fun x => stringDirective env fields x (env.getRuleAndMsg seg).1) xs 1 with
        | error e => simp [hc] at h
        | ok l =>
          simp only [hc, sendList_eq] at h
          cases l with
          | nil =>
            simp at h
            subst h
            exact ⟨fun _ _ => rfl, fun k msgs hs => by simp at hs⟩
          | cons a rest =>
            simp at h
            subst h
            refine ⟨fun hs => by simp at hs, ?_⟩
            intro k msgs hs
            simp at hs
            obtain ⟨_, hl⟩ := hs
            subst hl
            exact ⟨hne, by simp, rfl⟩

/-- A list outcome of a text-sequence field is the list collected for one directive
`d` of the chain, the directives before `d` having ended without a message. -/
theorem ruleLoop_strs_list (env : Env) (nested : Target → Except Fault (Option GoMap))
    (locale : String) (fields : List Field) (xs : List String) (jsonTag formattedField : String)
    (chain : List String) (k : String) (msgs : List Msg)
    (h : ruleLoop env nested locale fields (.strs xs) jsonTag formattedField chain
      = .ok ⟨k, .list msgs⟩) :
    ∃ pre d post, chain = pre ++ d :: post ∧ xs ≠ [] ∧ msgs ≠ [] ∧
      (∀ s ∈ pre,
        collectMsgs env locale (.str (env.getRuleAndMsg s).2) formattedField
          (fun x => stringDirective env fields x (env.getRuleAndMsg s).1) xs 1 = .ok []) ∧
      collectMsgs env locale (.str (env.getRuleAndMsg d).2) formattedField
        (fun x => stringDirective env fields x (env.getRuleAndMsg d).1) xs 1 = .ok msgs := by
  induction chain with
  | nil =>
    rw [ruleLoop_nil] at h
    simp at h
  | cons seg rest ih =>
    cases hs : ruleStep env nested locale fields (.strs xs) jsonTag formattedField seg with
    | error e =>
      rw [ruleLoop_cons_error _ _ _ _ _ _ _ _ _ _ hs] at h
      simp at h
    | ok sent =>
      obtain ⟨hnone, hlist⟩ :=
        ruleStep_strs_cases env nested locale fields xs jsonTag formattedField seg sent hs
      cases sent with
      | none =>
        rw [ruleLoop_cons_none _ _ _ _ _ _ _ _ _ hs] at h
        obtain ⟨pre, d, post, hc, hne, hm, hpre, hd⟩ := ih h
        refine ⟨seg :: pre, d, post, by simp [hc], hne, hm, ?_, hd⟩
        intro s hmem
        rcases List.mem_cons.mp hmem with heq | hin
        · subst heq; exact hnone rfl hne
        · exact hpre s hin
      | some m =>
        rw [ruleLoop_cons_some _ _ _ _ _ _ _ _ _ _ hs] at h
        simp at h
        subst h
        obtain ⟨hne, hm, hd⟩ := hlist k msgs rfl
        exact ⟨[], seg, rest, rfl, hne, hm, by simp, hd⟩

/-- The loop over the elements collects one message for each element on which the
directive fires, and none for the others. -/
theorem collectMsgs_length {α : Type} (env : Env) (locale : String) (customMsg : Msg)
    (formattedField : String) (directive : α → Except Fault Fired) (xs : List α) (i : Nat)
    (msgs : List Msg)
    (h : collectMsgs env locale customMsg formattedField directive xs i = .ok msgs) :
    msgs.length = (xs.filter (fun x => match directive x with
      | .ok (some _) => true
      | _ => false)).length := by
  induction xs generalizing i msgs with
  | nil =>
    simp [collectMsgs, pure, Except.pure] at h
    subst h; rfl
  | cons x rest ih =>
    unfold collectMsgs at h
    cases hd : directive x with
    | error e => simp [hd, bind, Except.bind] at h
    | ok fired =>
      simp only [hd, bind, Except.bind] at h
      cases fired with
      | none =>
        simp only at h
        simp [List.filter, hd, ih (i + 1) msgs h]
      | some kv =>
        obtain ⟨ruleKey, values⟩ := kv
        simp only at h
        cases hg : generateMessage env locale ruleKey customMsg (indexedField formattedField i)
            values with
        | error e => simp [hg] at h
        | ok m =>
          simp only [hg] at h
          cases hr : collectMsgs env locale customMsg formattedField directive rest (i + 1) with
          | error e => simp [hr] at h
          | ok l =>
            simp [hr, pure, Except.pure] at h
            subst h
            simp [List.filter, hd, ih (i + 1) l hr]

/-- The messages collected by the loop over the elements are those of the positions at
which the directive fires, in increasing order of position. -/
theorem collectMsgs_order {α : Type} (env : Env) (locale : String) (customMsg : Msg)
    (formattedField : String) (directive : α → Except Fault Fired) (xs : List α) (i : Nat)
    (msgs : List Msg)
    (h : collectMsgs env locale customMsg formattedField directive xs i = .ok msgs) :
    ∃ idxs : List Nat, idxs.Pairwise (· < ·) ∧ (∀ j ∈ idxs, i ≤ j) ∧
      List.Forall₂ (fun j m => ∃ x ruleKey values, i ≤ j ∧ xs[j - i]? = some x ∧
        directive x = .ok (some (ruleKey, values)) ∧
        generateMessage env locale ruleKey customMsg (indexedField formattedField j) values
          = .ok m) idxs msgs := by
  induction xs generalizing i msgs with
  | nil =>
    simp [collectMsgs, pure, Except.pure] at h
    subst h
    exact ⟨[], List.Pairwise.nil, by simp, List.Forall₂.nil⟩
  | cons x rest ih =>
    have shift : ∀ (l : List Msg) (idxs : List Nat),
        List.Forall₂ (fun j m => ∃ y ruleKey values, i + 1 ≤ j ∧ rest[j - (i + 1)]? = some y ∧
          directive y = .ok (some (ruleKey, values)) ∧
          generateMessage env locale ruleKey customMsg (indexedField formattedField j) values
            = .ok m) idxs l →
        List.Forall₂ (fun j m => ∃ y ruleKey values, i ≤ j ∧ (x :: rest)[j - i]? = some y ∧
          directive y = .ok (some (ruleKey, values)) ∧
          generateMessage env locale ruleKey customMsg (indexedField formattedField j) values
            = .ok m) idxs l := by
      intro l idxs hf
      refine List.Forall₂.imp ?_ hf
      intro j m ⟨y, ruleKey, values, hj, hy, hd, hg⟩
      refine ⟨y, ruleKey, values, by omega, ?_, hd, hg⟩
      have hji : j - i = (j - (i + 1)) + 1 := by omega
      rw [hji, List.getElem?_cons_succ]
      exact hy
    unfold collectMsgs at h
    cases hd : directive x with
    | error e => simp [hd, bind, Except.bind] at h
    | ok fired =>
      simp only [hd, bind, Except.bind] at h
      cases fired with
      | none =>
        simp only at h
        obtain ⟨idxs, hp, hb, hf⟩ := ih (i + 1) msgs h
        exact ⟨idxs, hp, fun j hj => by have := hb j hj; omega, shift msgs idxs hf⟩
      | some kv =>
        obtain ⟨ruleKey, values⟩ := kv
        simp only at h
        cases hg : generateMessage env locale ruleKey customMsg (indexedField formattedField i)
            values with
        | error e => simp [hg] at h
        | ok m =>
          simp only [hg] at h
          cases hr : collectMsgs env locale customMsg formattedField directive rest (i + 1) with
          | error e => simp [hr] at h
          | ok l =>
            simp [hr, pure, Except.pure] at h
            subst h
            obtain ⟨idxs, hp, hb, hf⟩ := ih (i + 1) l hr
            refine ⟨i :: idxs, ?_, ?_, ?_⟩
            · exact List.Pairwise.cons (fun j hj => by have := hb j hj; omega) hp
            · intro j hj
              rcases List.mem_cons.mp hj with heq | hin
              · omega
              · have := hb j hin; omega
            · refine List.Forall₂.cons ?_ (shift l idxs hf)
              exact ⟨x, ruleKey, values, le_refl i, by simp, hd, hg⟩

/-! ## Decimal parameters -/

theorem decVal_append (xs ys : List Char) (a : Nat) :
    decVal (xs ++ ys) a = decVal ys (decVal xs a) := by
  induction xs generalizing a with
  | nil => rfl
  | cons x xs ih => simp [decVal, ih]

theorem decVal_ge (cs : List Char) (a : Nat) : a ≤ decVal cs a := by
  induction cs generalizing a with
  | nil => exact le_refl a
  | cons c cs ih =>
    have := ih (a * 10 + digitVal c)
    simp only [decVal]
    omega

theorem parseUintLoop_eq_decVal (cs : List Char) (a : Nat)
    (hd : ∀ c ∈ cs, c.isDigit = true) (hmax : decVal cs a ≤ maxUint64) :
    parseUintLoop cs a = decVal cs a := by
  induction cs generalizing a with
  | nil => rfl
  | cons c cs ih =>
    have hc : c.isDigit = true := hd c (List.mem_cons_self _ _)
    have hrest : ∀ x ∈ cs, x.isDigit = true := fun x hx => hd x (List.mem_cons_of_mem _ hx)
    simp only [decVal] at hmax
    have hge := decVal_ge cs (a * 10 + digitVal c)
    have hm : maxUint64 = 18446744073709551615 := by decide
    have h1 : ¬ (a ≥ maxUint64 / 10 + 1) := by
      rw [hm]; rw [hm] at hmax; omega
    have h2 : ¬ (a * 10 + digitVal c > maxUint64) := by omega
    simp only [parseUintLoop, hc, if_true, h1, h2, if_false, decVal]
    exact ih _ hrest hmax

theorem digitVal_digitChar (n : Nat) (h : n < 10) :
    digitVal (Nat.digitChar n) = n ∧ (Nat.digitChar n).isDigit = true := by
  interval_cases n <;> decide

theorem toDigitsCore_append (fuel n : Nat) (ds : List Char) :
    Nat.toDigitsCore 10 fuel n ds = Nat.toDigitsCore 10 fuel n [] ++ ds := by
  induction fuel generalizing n ds with
  | zero => simp [Nat.toDigitsCore]
  | succ fuel ih =>
    simp only [Nat.toDigitsCore]
    split
    · simp
    · rw [ih (n / 10) (Nat.digitChar (n % 10) :: ds), ih (n / 10) [Nat.digitChar (n % 10)]]
      simp

theorem toDigitsCore_spec (fuel n : Nat) (h : n < fuel) :
    decVal (Nat.toDigitsCore 10 fuel n []) 0 = n ∧
    (∀ c ∈ Nat.toDigitsCore 10 fuel n [], c.isDigit = true) ∧
    Nat.toDigitsCore 10 fuel n [] ≠ [] := by
  induction fuel generalizing n with
  | zero => omega
  | succ fuel ih =>
    simp only [Nat.toDigitsCore]
    have hmod : n % 10 < 10 := Nat.mod_lt _ (by decide)
    obtain ⟨hv, hdg⟩ := digitVal_digitChar (n % 10) hmod
    split
    · rename_i h0
      have hn : n % 10 = n := by omega
      refine ⟨?_, ?_, by simp⟩
      · simp only [decVal, hv]
        omega
      · intro c hc
        simp at hc
        rw [hc]; exact hdg
    · rename_i h0
      have hlt : n / 10 < fuel := by omega
      obtain ⟨h1, h2, h3⟩ := ih (n / 10) hlt
      rw [toDigitsCore_append]
      refine ⟨?_, ?_, by simp⟩
      · rw [decVal_append, h1]
        simp only [decVal, hv]
        omega
      · intro c hc
        rcases List.mem_append.mp hc with hin | hin
        · exact h2 c hin
        · simp at hin
          rw [hin]; exact hdg

theorem repr_data (n : Nat) : (Nat.repr n).data = Nat.toDigitsCore 10 (n + 1) n [] := rfl

theorem parseUint_repr (n : Nat) (h : n ≤ maxUint64) : parseUint (Nat.repr n) = n := by
  obtain ⟨h1, h2, h3⟩ := toDigitsCore_spec (n + 1) n (Nat.lt_succ_self n)
  unfold parseUint
  rw [repr_data]
  have hl := parseUintLoop_eq_decVal (Nat.toDigitsCore 10 (n + 1) n []) 0 h2 (by rw [h1]; exact h)
  rw [h1] at hl
  cases hc : Nat.toDigitsCore 10 (n + 1) n [] with
  | nil => exact absurd hc h3
  | cons c cs =>
    simp only
    rw [← hc]; exact hl
theorem digit_not_sign (c : Char) (h : c.isDigit = true) : c ≠ '+' ∧ c ≠ '-' := by
  constructor <;> (intro hc; subst hc; simp [Char.isDigit] at h)

theorem parseInt_digits (cs : List Char) (n : Nat) (hne : cs ≠ [])
    (hd : ∀ c ∈ cs, c.isDigit = true) (hv : decVal cs 0 = n) (hn : n < 2 ^ 63) :
    parseInt (String.mk cs) = (n : Int) := by
  cases cs with
  | nil => exact absurd rfl hne
  | cons c rest =>
    obtain ⟨hp, hm⟩ := digit_not_sign c (hd c (List.mem_cons_self _ _))
    have hl := parseUintLoop_eq_decVal (c :: rest) 0 hd
      (by rw [hv]; have : maxUint64 = 18446744073709551615 := by decide
          omega)
    rw [hv] at hl
    have h63 : ¬ (n ≥ 2 ^ 63) := by omega
    simp [parseInt, hp, hm, hl]
    intro h; omega

theorem parseInt_neg_digits (cs : List Char) (n : Nat) (hne : cs ≠ [])
    (hd : ∀ c ∈ cs, c.isDigit = true) (hv : decVal cs 0 = n) (hn : n ≤ 2 ^ 63) :
    parseInt (String.mk ('-' :: cs)) = -(n : Int) := by
  have hl := parseUintLoop_eq_decVal cs 0 hd
    (by rw [hv]; have : maxUint64 = 18446744073709551615 := by decide
        omega)
  rw [hv] at hl
  have h63 : ¬ (n > 2 ^ 63) := by omega
  cases cs with
  | nil => exact absurd rfl hne
  | cons c rest =>
    simp [parseInt, hl]
    intro h; omega

/-- Reading back the decimal rendering of a 64-bit signed integer gives the integer. -/
theorem parseInt_fmtInt (i : Int) (hlo : -(2 ^ 63 : Int) ≤ i) (hhi : i < 2 ^ 63) :
    parseInt (fmtInt i) = i := by
  cases i with
  | ofNat n =>
    obtain ⟨h1, h2, h3⟩ := toDigitsCore_spec (n + 1) n (Nat.lt_succ_self n)
    have hn : n < 2 ^ 63 := by
      have : (n : Int) < 2 ^ 63 := hhi
      exact_mod_cast this
    have := parseInt_digits (Nat.toDigitsCore 10 (n + 1) n []) n h3 h2 h1 hn
    simpa [fmtInt, Nat.repr, Nat.toDigits, List.asString] using this
  | negSucc n =>
    obtain ⟨h1, h2, h3⟩ := toDigitsCore_spec (n + 1 + 1) (n + 1) (Nat.lt_succ_self _)
    have hn : n + 1 ≤ 2 ^ 63 := by
      have : -(2 ^ 63 : Int) ≤ Int.negSucc n := hlo
      rw [Int.negSucc_eq] at this
      have h2 : ((n : Int) + 1) ≤ 2 ^ 63 := by omega
      exact_mod_cast h2
    have := parseInt_neg_digits (Nat.toDigitsCore 10 (n + 1 + 1) (n + 1) []) (n + 1) h3 h2 h1 hn
    have hs : fmtInt (Int.negSucc n)
        = String.mk ('-' :: Nat.toDigitsCore 10 (n + 1 + 1) (n + 1) []) := by
      simp [fmtInt, Nat.repr, Nat.toDigits, List.asString]
      rfl
    rw [hs, this, Int.negSucc_eq]
    push_cast
    ring

theorem parseUintLoop_syntax_error (cs : List Char) (a : Nat)
    (hbad : ∃ c ∈ cs, c.isDigit = false)
    (hmax : decVal (cs.takeWhile Char.isDigit) a ≤ maxUint64) :
    parseUintLoop cs a = 0 := by
  induction cs generalizing a with
  | nil => simp at hbad
  | cons c cs ih =>
    by_cases hc : c.isDigit = true
    · have hbad2 : ∃ x ∈ cs, x.isDigit = false := by
        obtain ⟨x, hx, hxd⟩ := hbad
        rcases List.mem_cons.mp hx with heq | hin
        · subst heq; rw [hc] at hxd; cases hxd
        · exact ⟨x, hin, hxd⟩
      simp only [List.takeWhile, hc, decVal] at hmax
      have hge := decVal_ge (cs.takeWhile Char.isDigit) (a * 10 + digitVal c)
      have hm : maxUint64 = 18446744073709551615 := by decide
      have h1 : ¬ (a ≥ maxUint64 / 10 + 1) := by
        rw [hm]; rw [hm] at hmax; omega
      have h2 : ¬ (a * 10 + digitVal c > maxUint64) := by omega
      simp only [parseUintLoop, hc, if_true, h1, h2, if_false]
      exact ih _ hbad2 hmax
    · simp [parseUintLoop, hc]

/-- A parameter that is not a decimal integer literal, and whose leading digits do not
overflow 64 bits, is read as 0. -/
theorem parseInt_malformed (p : String) (hlit : isDecimalLiteral p = false)
    (hov : decVal (leadingDigits p) 0 ≤ maxUint64) : parseInt p = 0 := by
  unfold isDecimalLiteral at hlit
  unfold leadingDigits at hov
  unfold unsignedPart at hlit hov
  unfold parseInt
  cases hp : p.data with
  | nil => rfl
  | cons c cs =>
    simp only [hp] at hlit hov
    simp only
    cases hr : (if c = '+' ∨ c = '-' then cs else c :: cs) with
    | nil => rfl
    | cons x xs =>
      rw [hr] at hlit hov
      have hbad : ∃ y ∈ x :: xs, y.isDigit = false := by
        simp only [List.isEmpty_cons, Bool.not_false, Bool.true_and] at hlit
        have : ¬ ((x :: xs).all Char.isDigit = true) := by simp [hlit]
        rw [List.all_eq_true] at this
        push_neg at this
        obtain ⟨y, hy, hyd⟩ := this
        exact ⟨y, hy, by simpa using hyd⟩
      have h0 := parseUintLoop_syntax_error (x :: xs) 0 hbad hov
      simp [h0]

/-! ## The locale tag -/

theorem getMessage_eq_lookup (env : Env) (locale rule : String) :
    getMessage env locale rule
      = lookupTemplate (if toLower locale = "fr" then FR else env.EN) rule := rfl

theorem toLower_eq_f (c : Char) : c.toLower = 'f' ↔ c = 'f' ∨ c = 'F' := by
  constructor
  · intro h
    unfold Char.toLower at h
    by_cases hc : c.toNat ≥ 65 ∧ c.toNat ≤ 90
    · right
      have h2 : Char.ofNat (c.toNat + 32) = 'f' := by simpa [hc] using h
      have hc2 := Char.ofNat_toNat c
      obtain ⟨h1, h3⟩ := hc
      generalize c.toNat = n at *
      interval_cases n <;>
        first
          | (exfalso; revert h2; decide)
          | (rw [← hc2])
    · left
      simpa [hc] using h
  · rintro (h | h) <;> subst h <;> decide

theorem toLower_eq_r (c : Char) : c.toLower = 'r' ↔ c = 'r' ∨ c = 'R' := by
  constructor
  · intro h
    unfold Char.toLower at h
    by_cases hc : c.toNat ≥ 65 ∧ c.toNat ≤ 90
    · right
      have h2 : Char.ofNat (c.toNat + 32) = 'r' := by simpa [hc] using h
      have hc2 := Char.ofNat_toNat c
      obtain ⟨h1, h3⟩ := hc
      generalize c.toNat = n at *
      interval_cases n <;>
        first
          | (exfalso; revert h2; decide)
          | (rw [← hc2])
    · left
      simpa [hc] using h
  · rintro (h | h) <;> subst h <;> decide

/-- Lower-casing gives `fr` exactly for the four spellings of the tag. -/
theorem toLower_eq_fr (locale : String) :
    toLower locale = "fr" ↔ locale ∈ ["fr", "FR", "Fr", "fR"] := by
  unfold toLower
  constructor
  · intro h
    have hd : locale.data.map Char.toLower = ['f', 'r'] := by
      have := congrArg String.data h
      simpa using this
    cases hl : locale.data with
    | nil => rw [hl] at hd; simp at hd
    | cons a t =>
      cases t with
      | nil => rw [hl] at hd; simp at hd
      | cons b t2 =>
        cases t2 with
        | cons x y => rw [hl] at hd; simp at hd
        | nil =>
          rw [hl] at hd
          simp only [List.map_cons, List.map_nil, List.cons.injEq, and_true] at hd
          obtain ⟨ha, hb⟩ := hd
          have hloc : locale = String.mk [a, b] := by
            cases locale; simp only at hl; rw [hl]
          rcases (toLower_eq_f a).mp ha with ha | ha <;>
            rcases (toLower_eq_r b).mp hb with hb | hb <;>
            subst ha <;> subst hb <;> rw [hloc] <;> decide
  · intro h
    simp only [List.mem_cons, List.mem_singleton, List.not_mem_nil, or_false] at h
    rcases h with h | h | h | h <;> subst h <;> decide

/-! ## Strings cut at a rune -/

theorem byteLen_append (a b : List Char) : byteLen (a ++ b) = byteLen a + byteLen b := by
  induction a with
  | nil => simp [byteLen]
  | cons x xs ih => simp [byteLen, ih, Nat.add_assoc]

theorem cutFirst_none (c : Char) (s : List Char) : cutFirst c s = none ↔ c ∉ s := by
  induction s with
  | nil => simp [cutFirst]
  | cons x xs ih =>
    unfold cutFirst
    by_cases hx : x = c
    · simp [hx]
    · cases hr : cutFirst c xs with
      | none =>
        have := ih.mp hr
        simp [hx, this, Ne.symm hx]
      | some p =>
        have hin : c ∈ xs := by
          by_contra hn
          rw [ih.mpr hn] at hr
          cases hr
        simp [hx, hin]

theorem cutFirst_append (c : Char) (a b : List Char) (h : c ∉ a) :
    cutFirst c (a ++ c :: b) = some (a, b) := by
  induction a with
  | nil => simp [cutFirst]
  | cons x xs ih =>
    have hx : x ≠ c := fun e => h (by simp [e])
    have hxs : c ∉ xs := fun e => h (List.mem_cons_of_mem _ e)
    simp [cutFirst, hx, ih hxs]

theorem cutFirst_some (c : Char) (s a b : List Char) (h : cutFirst c s = some (a, b)) :
    s = a ++ c :: b ∧ c ∉ a := by
  induction s generalizing a with
  | nil => simp [cutFirst] at h
  | cons x xs ih =>
    unfold cutFirst at h
    by_cases hx : x = c
    · simp [hx] at h
      obtain ⟨h1, h2⟩ := h
      subst h1 h2 hx
      simp
    · simp only [hx, if_false] at h
      cases hr : cutFirst c xs with
      | none => simp [hr] at h
      | some p =>
        obtain ⟨a0, b0⟩ := p
        simp [hr] at h
        obtain ⟨h1, h2⟩ := h
        subst h1 h2
        obtain ⟨hs, hn⟩ := ih a0 hr
        refine ⟨by simp [hs], ?_⟩
        intro hmem
        rcases List.mem_cons.mp hmem with heq | hin
        · exact hx heq.symm
        · exact hn hin

theorem cutLast_none (c : Char) (s : List Char) : cutLast c s = none ↔ c ∉ s := by
  unfold cutLast
  cases hr : cutFirst c s.reverse with
  | none =>
    have := (cutFirst_none c s.reverse).mp hr
    simp at this
    simp [this]
  | some p =>
    obtain ⟨a, b⟩ := p
    have := (cutFirst_some c s.reverse a b hr).1
    have hin : c ∈ s.reverse := by rw [this]; simp
    simp at hin
    simp [hin]

theorem cutLast_append (c : Char) (l d : List Char) (h : c ∉ d) :
    cutLast c (l ++ c :: d) = some (l, d) := by
  unfold cutLast
  have hrev : (l ++ c :: d).reverse = d.reverse ++ c :: l.reverse := by simp
  rw [hrev, cutFirst_append c d.reverse l.reverse (by simpa using h)]
  simp

theorem goLen_cut (s : String) (l d : List Char) (h : s.data = l ++ '@' :: d) :
    goLen s = byteLen l + 1 + byteLen d := by
  unfold goLen
  rw [h, byteLen_append]
  simp only [byteLen]
  have : ('@' : Char).utf8Size = 1 := by decide
  omega

theorem containsChar_iff (s : String) (c : Char) : containsChar s c = true ↔ c ∈ s.data := by
  simp [containsChar]
theorem isNotEmail_of_cut (env : Env) (s : String) (l d : List Char)
    (hs : s.data = l ++ '@' :: d) (hd : '@' ∉ d) :
    isNotEmail env s =
      (decide (goLen s < 6 ∨ goLen s > 254) ||
       decide ((byteLen l : Int) ≤ 0 ∨ (byteLen l : Int) > (goLen s : Int) - 3) ||
       decide (String.mk d ∈ ["localhost", "localhost.com", "example.com"]) ||
       decide (byteLen l > 64) || !env.parseAddress s) := by
  unfold isNotEmail
  rw [hs, cutLast_append '@' l d hd]
  by_cases h1 : goLen s < 6 ∨ goLen s > 254
  · simp only [if_pos h1, decide_eq_true h1]
    rfl
  · by_cases h2 : (byteLen l : Int) ≤ 0 ∨ (byteLen l : Int) > (goLen s : Int) - 3
    · simp only [if_neg h1, if_pos h2, decide_eq_false h1, decide_eq_true h2]
      rfl
    · by_cases h3 : String.mk d ∈ ["localhost", "localhost.com", "example.com"]
      · simp only [if_neg h1, if_neg h2, if_pos h3, decide_eq_false h1, decide_eq_false h2,
          decide_eq_true h3]
        rfl
      · by_cases h4 : byteLen l > 64
        · simp only [if_neg h1, if_neg h2, if_neg h3, if_pos h4, decide_eq_false h1,
            decide_eq_false h2, decide_eq_false h3, decide_eq_true h4]
          rfl
        · simp only [if_neg h1, if_neg h2, if_neg h3, if_neg h4, decide_eq_false h1,
            decide_eq_false h2, decide_eq_false h3, decide_eq_false h4]
          cases env.parseAddress s <;> rfl

theorem isNotEmail_no_at (env : Env) (s : String) (h : '@' ∉ s.data) :
    isNotEmail env s = true := by
  unfold isNotEmail
  rw [(cutLast_none '@' s.data).mpr h]
  by_cases h1 : goLen s < 6 ∨ goLen s > 254 <;> simp [h1]

/-! ## The phone patterns -/

theorem runExact_end (p : Char → Bool) (n : Nat) (s : List Char) :
    runExact p List.isEmpty n s = (decide (s.length = n) && s.all p) := by
  induction n generalizing s with
  | zero => cases s <;> simp [runExact]
  | succ n ih =>
    cases s with
    | nil => simp [runExact]
    | cons c cs =>
      simp only [runExact, ih, List.length_cons, List.all_cons]
      by_cases h : cs.length = n <;> simp [h]

theorem matchPhone_eq_re (s : List Char) : matchPhone s = matchWhole phoneRe s := by
  cases s with
  | nil => rfl
  | cons c t =>
    simp only [matchPhone, matchWhole, phoneRe, Re.run, Nat.sub_self]
    have : runUpTo Char.isDigit List.isEmpty 0 = List.isEmpty := by
      funext x; simp [runUpTo]
    rw [this, runExact_end]
    simp [Bool.and_assoc]

theorem matchPhoneWithCode_eq_re (s : List Char) :
    matchPhoneWithCode s = matchWhole phoneWithCodeRe s := by
  cases s with
  | nil => rfl
  | cons c t =>
    simp only [matchPhoneWithCode, matchWhole, phoneWithCodeRe, Re.run, Nat.sub_self]
    have : runUpTo Char.isDigit List.isEmpty 0 = List.isEmpty := by
      funext x; simp [runUpTo]
    rw [this, runExact_end]
    simp [Bool.and_assoc]
theorem isNotEmail_false_has_at (env : Env) (s : String) (h : isNotEmail env s = false) :
    containsChar s '@' = true := by
  rw [containsChar_iff]
  by_contra hn
  rw [isNotEmail_no_at env s hn] at h
  cases h

theorem isNotPhone_false_shape (s : String) (h : isNotPhone s = false) :
    containsChar s '@' = false ∧ startsWith s "+" = false := by
  have hp : matchPhone s.data = true := by simpa [isNotPhone] using h
  unfold matchPhone at hp
  cases hd : s.data with
  | nil => rw [hd] at hp; cases hp
  | cons c t =>
    rw [hd] at hp
    simp only [Bool.and_eq_true, decide_eq_true_eq, List.all_eq_true] at hp
    obtain ⟨⟨hc, _⟩, hdig⟩ := hp
    subst hc
    constructor
    · cases hcon : containsChar s '@' with
      | false => rfl
      | true =>
        have hin := (containsChar_iff s '@').mp hcon
        rw [hd] at hin
        rcases List.mem_cons.mp hin with heq | hin2
        · exact absurd heq (by decide)
        · exact absurd (hdig _ hin2) (by decide)
    · simp only [startsWith, hd]
      rfl

theorem isNotPhoneWithCode_false_shape (s : String) (h : isNotPhoneWithCode s = false) :
    containsChar s '@' = false ∧ startsWith s "+" = true := by
  have hp : matchPhoneWithCode s.data = true := by simpa [isNotPhoneWithCode] using h
  unfold matchPhoneWithCode at hp
  cases hd : s.data with
  | nil => rw [hd] at hp; cases hp
  | cons c t =>
    rw [hd] at hp
    simp only [Bool.and_eq_true, decide_eq_true_eq, List.all_eq_true] at hp
    obtain ⟨⟨hc, _⟩, hdig⟩ := hp
    subst hc
    constructor
    · cases hcon : containsChar s '@' with
      | false => rfl
      | true =>
        have hin := (containsChar_iff s '@').mp hcon
        rw [hd] at hin
        rcases List.mem_cons.mp hin with heq | hin2
        · exact absurd heq (by decide)
        · exact absurd (hdig _ hin2) (by decide)
    · simp [startsWith, hd]

/-! ## Unrecognised directives -/

theorem rule_ne_of_colon (rule n : String) (hn : containsChar n ':' = false)
    (h : directiveName rule ≠ n) : rule ≠ n := by
  intro e
  subst e
  apply h
  unfold directiveName splitN splitNChars
  have hc : cutFirst ':' rule.data = none := by
    rw [cutFirst_none]
    intro hin
    have := (containsChar_iff rule ':').mpr hin
    rw [hn] at this
    cases this
  simp [hc]

theorem stringDirective_unrecognised (env : Env) (fields : List Field) (s rule : String)
    (h : directiveName rule ∉ recognisedNames (.str s)) :
    stringDirective env fields s rule = .ok none := by
  simp only [recognisedNames, List.mem_cons, List.mem_singleton, List.not_mem_nil, or_false,
    not_or] at h
  obtain ⟨_, h1, h2, h3, h4, h5, h6, h7, h8, h9, h10, h11, g1, g2, g3, g4, g5, g6, g7, g8, g9⟩ := h
  have e1 := rule_ne_of_colon rule "string" (by decide) h1
  have e2 := rule_ne_of_colon rule "ascii" (by decide) h2
  have e3 := rule_ne_of_colon rule "alpha" (by decide) h3
  have e4 := rule_ne_of_colon rule "numeric" (by decide) h4
  have e5 := rule_ne_of_colon rule "alpha_numeric" (by decide) h5
  have e6 := rule_ne_of_colon rule "email" (by decide) h6
  have e7 := rule_ne_of_colon rule "phone" (by decide) h7
  have e8 := rule_ne_of_colon rule "phone_with_code" (by decide) h8
  have e9 := rule_ne_of_colon rule "username" (by decide) h9
  have e10 := rule_ne_of_colon rule "gh_card" (by decide) h10
  have e11 := rule_ne_of_colon rule "gh_gps" (by decide) h11
  unfold directiveName at g1 g2 g3 g4 g5 g6 g7 g8 g9
  unfold stringDirective
  simp only [e1, e2, e3, e4, e5, e6, e7, e8, e9, e10, e11, g1, g2, g3, g4, g5, g6, g7, g8, g9,
    if_false]
  split <;> rfl

theorem integerDirective_unrecognised (env : Env) (fields : List Field) (v : Value)
    (rule : String)
    (h : directiveName rule ∉ ["required", "int", "uint", "min", "max", "equal", "size", "from",
      "between", "same", "match"]) :
    integerDirective env fields v rule = .ok none := by
  simp only [List.mem_cons, List.mem_singleton, List.not_mem_nil, or_false, not_or] at h
  obtain ⟨_, h1, h2, g1, g2, g3, g4, g5, g6, g7, g8⟩ := h
  have e1 := rule_ne_of_colon rule "int" (by decide) h1
  have e2 := rule_ne_of_colon rule "uint" (by decide) h2
  unfold directiveName at g1 g2 g3 g4 g5 g6 g7 g8
  unfold integerDirective
  simp only [e1, e2, g1, g2, g3, g4, g5, g6, g7, g8, if_false]
  split <;> rfl

theorem floatDirective_unrecognised (env : Env) (fields : List Field) (v : Value)
    (rule : String)
    (h : directiveName rule ∉ ["required", "float", "min", "max", "equal", "size", "from",
      "between", "same", "match"]) :
    floatDirective env fields v rule = .ok none := by
  simp only [List.mem_cons, List.mem_singleton, List.not_mem_nil, or_false, not_or] at h
  obtain ⟨_, h1, g1, g2, g3, g4, g5, g6, g7, g8⟩ := h
  have e1 := rule_ne_of_colon rule "float" (by decide) h1
  unfold directiveName at g1 g2 g3 g4 g5 g6 g7 g8
  unfold floatDirective
  simp only [e1, g1, g2, g3, g4, g5, g6, g7, g8, if_false]
  split <;> rfl

theorem ruleStep_unrecognised (env : Env) (nested : Target → Except Fault (Option GoMap))
    (locale : String) (fields : List Field) (value : Value) (jsonTag formattedField : String)
    (seg : String) (hk : isScalar value = true ∨ isBoolKind value = true)
    (h : directiveName (env.getRuleAndMsg seg).1 ∉ recognisedNames value) :
    ruleStep env nested locale fields value jsonTag formattedField seg = .ok none := by
  have hreq : (env.getRuleAndMsg seg).1 ≠ "required" := by
    apply rule_ne_of_colon _ _ (by decide)
    intro e
    apply h
    rw [e]
    cases value <;> simp [recognisedNames]
  by_cases he : isEmpty value = true
  · exact ruleStep_empty_other env nested locale fields value _ _ seg he hreq
  · have he0 : isEmpty value = false := by simpa using he
    cases value <;> simp [isScalar, isBoolKind] at hk
    · rename_i s
      simp [ruleStep, he0, hreq, kindStep, stringDirective_unrecognised env fields s _ h,
        sendFired, bind, Except.bind, pure, Except.pure]
    · rename_i k i
      simp [ruleStep, he0, hreq, kindStep,
        integerDirective_unrecognised env fields (.int k i) _ h,
        sendFired, bind, Except.bind, pure, Except.pure]
    · rename_i k n
      simp [ruleStep, he0, hreq, kindStep,
        integerDirective_unrecognised env fields (.uint k n) _ h,
        sendFired, bind, Except.bind, pure, Except.pure]
    · rename_i k x
      simp [ruleStep, he0, hreq, kindStep,
        floatDirective_unrecognised env fields (.float k x) _ h,
        sendFired, bind, Except.bind, pure, Except.pure]
    · simp [ruleStep, he0, hreq, kindStep, pure, Except.pure]

/-! ## Directives with parameters -/

theorem getTagAndValue_first (pre post : List Field) (a : Field) (tag : String)
    (ha : a.json = some tag) (hpre : ∀ f ∈ pre, f.json ≠ some tag) :
    getTagAndValue (pre ++ a :: post) tag = (tag, some a.value) := by
  induction pre with
  | nil =>
    simp [getTagAndValue, ha]
  | cons f rest ih =>
    have hf := hpre f (List.mem_cons_self _ _)
    have hrest : ∀ g ∈ rest, g.json ≠ some tag :=
      fun g hg => hpre g (List.mem_cons_of_mem _ hg)
    simp only [List.cons_append, getTagAndValue]
    cases hj : f.json with
    | none => simp [ih hrest]
    | some t =>
      have : t ≠ tag := fun e => hf (by rw [hj, e])
      simp [this, ih hrest]

theorem splitN_prefixed (name arg : String) (hn : ':' ∉ name.data) :
    splitN (name ++ ":" ++ arg) ':' 2 = [name, arg] := by
  unfold splitN splitNChars
  have hd : (name ++ ":" ++ arg).data = name.data ++ ':' :: arg.data := by
    simp [String.data_append]
  rw [hd, cutFirst_append ':' name.data arg.data hn]
  simp [splitNChars]

theorem containsChar_prefixed (name arg : String) :
    containsChar (name ++ ":" ++ arg) ':' = true := by
  rw [containsChar_iff]
  simp [String.data_append]

theorem directiveName_prefixed (name arg : String) (hn : ':' ∉ name.data) :
    directiveName (name ++ ":" ++ arg) = name := by
  unfold directiveName
  rw [splitN_prefixed name arg hn]
  rfl

theorem rule_ne_of_contains (rule n : String) (hc : containsChar rule ':' = true)
    (hn : containsChar n ':' = false) : rule ≠ n := by
  intro e
  rw [e, hn] at hc
  cases hc

/-- The rule switch of a text value on a directive `name:arg`, as far as the cases of
`switch rule` go: none of them applies. -/
theorem stringDirective_prefixed (env : Env) (fields : List Field) (s name arg : String)
    (hn : ':' ∉ name.data) :
    stringDirective env fields s (name ++ ":" ++ arg) =
      (if name = "min" then pure (fireIf (isNotMin env (.str s) arg) "min.string" [arg])
       else if name = "max" then pure (fireIf (isNotMax env (.str s) arg) "max.string" [arg])
       else if name = "equal" then
         pure (fireIf (isNotEqual env (.str s) arg) "equal.string" [arg])
       else if name = "size" then
         pure (fireIf (isNotSize env (.str s) arg) "size.string" [arg])
       else if name = "from" then do
         let hi ← upperBound arg
         pure (fireIf (isNotFrom env (.str s) (lowerBound arg) hi) "from.string"
           [lowerBound arg, hi])
       else if name = "between" then do
         let hi ← upperBound arg
         pure (fireIf (isNotBetween env (.str s) (lowerBound arg) hi) "between.string"
           [lowerBound arg, hi])
       else if name = "same" then
         pure (fireIf (isNotSame (some (.str s)) (getTagAndValue fields arg).2) "same"
           [(getTagAndValue fields arg).1])
       else if name = "match" then
         pure (fireIf (isNotSame (some (.str s)) (getTagAndValue fields arg).2) "match" [])
       else if name = "unique" then
         match splitN arg '.' 2 with
         | [table, column] => do
           let taken ← env.isNotUnique s column table
           pure (fireIf taken "unique" [])
         | _ => pure none
       else pure none) := by
  have hc := containsChar_prefixed name arg
  have hs := splitN_prefixed name arg hn
  have e1 := rule_ne_of_contains _ "string" hc (by decide)
  have e2 := rule_ne_of_contains _ "ascii" hc (by decide)
  have e3 := rule_ne_of_contains _ "alpha" hc (by decide)
  have e4 := rule_ne_of_contains _ "numeric" hc (by decide)
  have e5 := rule_ne_of_contains _ "alpha_numeric" hc (by decide)
  have e6 := rule_ne_of_contains _ "email" hc (by decide)
  have e7 := rule_ne_of_contains _ "phone" hc (by decide)
  have e8 := rule_ne_of_contains _ "phone_with_code" hc (by decide)
  have e9 := rule_ne_of_contains _ "username" hc (by decide)
  have e10 := rule_ne_of_contains _ "gh_card" hc (by decide)
  have e11 := rule_ne_of_contains _ "gh_gps" hc (by decide)
  unfold stringDirective
  simp only [e1, e2, e3, e4, e5, e6, e7, e8, e9, e10, e11, if_false, hc, if_true, hs,
    List.getD_cons_zero, List.getD_cons_succ]
/-- The rule switch of an integer value on a directive `name:arg`. -/
theorem integerDirective_prefixed (env : Env) (fields : List Field) (v : Value)
    (name arg : String) (hn : ':' ∉ name.data) :
    integerDirective env fields v (name ++ ":" ++ arg) =
      (if name = "min" then pure (fireIf (isNotMin env v arg) "min.numeric" [arg])
       else if name = "max" then pure (fireIf (isNotMax env v arg) "max.numeric" [arg])
       else if name = "equal" then pure (fireIf (isNotEqual env v arg) "equal.numeric" [arg])
       else if name = "size" then pure (fireIf (isNotSize env v arg) "size.numeric" [arg])
       else if name = "from" then do
         let hi ← upperBound arg
         pure (fireIf (isNotFrom env v (lowerBound arg) hi) "from.numeric"
           [lowerBound arg, hi])
       else if name = "between" then do
         let hi ← upperBound arg
         pure (fireIf (isNotBetween env v (lowerBound arg) hi) "between.numeric"
           [lowerBound arg, hi])
       else if name = "same" then
         pure (fireIf (isNotSame (some v) (getTagAndValue fields arg).2) "same"
           [(getTagAndValue fields arg).1])
       else if name = "match" then
         pure (fireIf (isNotSame (some v) (getTagAndValue fields arg).2) "match" [])
       else pure none) := by
  have hc := containsChar_prefixed name arg
  have hs := splitN_prefixed name arg hn
  have e1 := rule_ne_of_contains _ "int" hc (by decide)
  have e2 := rule_ne_of_contains _ "uint" hc (by decide)
  unfold integerDirective
  simp only [e1, e2, if_false, hc, if_true, hs, List.getD_cons_zero, List.getD_cons_succ]

/-- The rule switch of a float value on a directive `name:arg`. -/
theorem floatDirective_prefixed (env : Env) (fields : List Field) (v : Value)
    (name arg : String) (hn : ':' ∉ name.data) :
    floatDirective env fields v (name ++ ":" ++ arg) =
      (if name = "min" then pure (fireIf (isNotMin env v arg) "min.numeric" [arg])
       else if name = "max" then pure (fireIf (isNotMax env v arg) "max.numeric" [arg])
       else if name = "equal" then pure (fireIf (isNotEqual env v arg) "equal.numeric" [arg])
       else if name = "size" then pure (fireIf (isNotSize env v arg) "size.numeric" [arg])
       else if name = "from" then do
         let hi ← upperBound arg
         pure (fireIf (isNotFrom env v (lowerBound arg) hi) "from.numeric"
           [lowerBound arg, hi])
       else if name = "between" then do
         let hi ← upperBound arg
         pure (fireIf (isNotBetween env v (lowerBound arg) hi) "between.numeric"
           [lowerBound arg, hi])
       else if name = "same" then
         pure (fireIf (isNotSame (some v) (getTagAndValue fields arg).2) "same"
           [(getTagAndValue fields arg).1])
       else if name = "match" then
         pure (fireIf (isNotSame (some v) (getTagAndValue fields arg).2) "match" [])
       else pure none) := by
  have hc := containsChar_prefixed name arg
  have hs := splitN_prefixed name arg hn
  have e1 := rule_ne_of_contains _ "float" hc (by decide)
  unfold floatDirective
  simp only [e1, if_false, hc, if_true, hs, List.getD_cons_zero, List.getD_cons_succ]

theorem upperBound_no_comma (arg : String) (h : ',' ∉ arg.data) :
    upperBound arg = .error Fault.indexOutOfRange := by
  unfold upperBound splitN splitNChars
  rw [(cutFirst_none ',' arg.data).mpr h]
  rfl

/-! ## The patterns of `uint` and `ascii` -/

theorem runStar_isEmpty (p : Char → Bool) (s : List Char) :
    runStar p List.isEmpty s = s.all p := by
  induction s with
  | nil => rfl
  | cons c cs ih => simp [runStar, ih]

theorem runStar_any (p : Char → Bool) (s : List Char) :
    runStar p (fun _ => true) s = true := by
  cases s <;> simp [runStar]

theorem matchUint_eq_re (s : List Char) : matchUint s = matchWhole uintRe s := by
  cases s with
  | nil => rfl
  | cons c t =>
    cases t with
    | nil => simp [matchUint, matchWhole, uintRe, Re.run]
    | cons d r =>
      simp [matchUint, matchWhole, uintRe, Re.run, runStar_isEmpty, Bool.and_assoc]

theorem matchASCII_eq_re (s : List Char) : matchASCII s = matchAnywhere asciiRe s := by
  induction s with
  | nil => rfl
  | cons c cs ih =>
    have e : asciiRe.run (c :: cs) (fun _ => true) = decide (c.toNat ≤ 0x7F) := by
      simp [asciiRe, Re.run, runStar_any]
    simp only [matchAnywhere]
    rw [e, ← ih]
    simp [matchASCII]

theorem digitChar_ne_zero (n : Nat) (h1 : 1 ≤ n) (h2 : n < 10) : Nat.digitChar n ≠ '0' := by
  interval_cases n <;> decide

/-- The decimal rendering of a positive number starts with a digit other than `0` and
has a second digit exactly from 10 on. -/
theorem toDigitsCore_head (fuel n : Nat) (h : n < fuel) (h1 : 1 ≤ n) :
    ∃ c t, Nat.toDigitsCore 10 fuel n [] = c :: t ∧ c ≠ '0' ∧ (t = [] ↔ n < 10) := by
  induction fuel generalizing n with
  | zero => omega
  | succ fuel ih =>
    simp only [Nat.toDigitsCore]
    split
    · rename_i h0
      have hn : n < 10 := by omega
      have hm : n % 10 = n := by omega
      rw [hm]
      exact ⟨Nat.digitChar n, [], rfl, digitChar_ne_zero n h1 hn, by simp [hn]⟩
    · rename_i h0
      have hq : 1 ≤ n / 10 := by omega
      have hlt : n / 10 < fuel := by omega
      obtain ⟨c, t, e, hc, _⟩ := ih (n / 10) hlt hq
      rw [toDigitsCore_append, e]
      refine ⟨c, t ++ [Nat.digitChar (n % 10)], rfl, hc, ?_⟩
      constructor
      · intro ht; simp at ht
      · intro hn; omega

theorem matchUint_repr (n : Nat) : matchUint (Nat.repr n).data = decide (10 ≤ n) := by
  rw [repr_data]
  obtain ⟨_, hd, _⟩ := toDigitsCore_spec (n + 1) n (Nat.lt_succ_self n)
  by_cases h0 : n = 0
  · subst h0; rfl
  · obtain ⟨c, t, e, hc, ht⟩ := toDigitsCore_head (n + 1) n (Nat.lt_succ_self n) (by omega)
    rw [e] at hd ⊢
    cases t with
    | nil =>
      have : n < 10 := ht.mp rfl
      simp [matchUint]
      omega
    | cons d r =>
      have hn : ¬ n < 10 := fun hlt => by
        have := ht.mpr hlt
        cases this
      have hcd := hd c (by simp)
      have hdd := hd d (by simp)
      have hrd : ∀ x ∈ r, x.isDigit = true := fun x hx => hd x (by simp [hx])
      have hall : r.all Char.isDigit = true := List.all_eq_true.mpr hrd
      have hge : 10 ≤ n := by omega
      simp only [matchUint, hcd, hdd, hall, hge, decide_True, Bool.and_true, Bool.true_and]
      simp [hc]

theorem isNotUint_int (k : IntKind) (i : Int) : isNotUint (.int k i) = decide (i < 10) := by
  cases i with
  | ofNat n =>
    simp only [isNotUint, sprintfD, fmtInt, matchUint_repr]
    have e : Int.ofNat n = (n : Int) := rfl
    rw [e]
    by_cases h : 10 ≤ n
    · have : ¬ ((n : Int) < 10) := by omega
      simp [h, this]
    · have : (n : Int) < 10 := by omega
      simp [h, this]
  | negSucc n =>
    have hneg : Int.negSucc n < 10 := by
      have := Int.negSucc_lt_zero n
      omega
    have hd : ("-" ++ Nat.repr (n + 1)).data = '-' :: (Nat.repr (n + 1)).data := rfl
    simp only [isNotUint, sprintfD, fmtInt, hd, hneg, decide_True]
    cases (Nat.repr (n + 1)).data with
    | nil => rfl
    | cons d r => simp [matchUint]

theorem isNotUint_uint (k : UintKind) (n : Nat) :
    isNotUint (.uint k n) = decide (n < 10) := by
  simp only [isNotUint, sprintfD, matchUint_repr]
  by_cases h : 10 ≤ n
  · have : ¬ n < 10 := by omega
    simp [h, this]
  · have : n < 10 := by omega
    simp [h, this]

/-! ## The sends of a field goroutine -/

theorem setMessageCh_eq (env : Env) (locale ruleKey : String) (customMsg : Msg)
    (msgKey field : String) (values : List String) (ch : List Message) :
    setMessageCh env locale ruleKey customMsg msgKey field values ch
      = (match setMessage env locale ruleKey customMsg msgKey field values with
         | .ok m => .ok (some (), ch ++ [m])
         | .error e => .error e) := by
  unfold setMessageCh setMessage
  by_cases h1 : ruleKey = "empty"
  · simp [h1, Chan.send, pure, Except.pure]
  · by_cases h2 : customMsg.isNotEmptyString = true
    · simp [h1, h2, Chan.send, pure, Except.pure]
    · simp only [h1, h2, if_false]
      unfold render
      match values with
      | [] =>
        cases hg : getMessage env locale ruleKey <;>
          simp [hg, bind, Chan.andThen, Chan.call, Chan.send, Except.bind, pure, Except.pure]
      | [a] =>
        cases hg : getMessage env locale ruleKey <;>
          simp [hg, bind, Chan.andThen, Chan.call, Chan.send, Except.bind, pure, Except.pure]
      | a :: b :: rest =>
        cases hg : getMessage env locale ruleKey <;>
          simp [hg, bind, Chan.andThen, Chan.call, Chan.send, Except.bind, pure, Except.pure]

/-- A `setMessage` followed by its `return`. -/
theorem send_ret_eq (env : Env) (locale ruleKey : String) (customMsg : Msg)
    (msgKey field : String) (values : List String) :
    (do setMessageCh env locale ruleKey customMsg msgKey field values
        Chan.ret : Chan Unit)
      = afterStep (sendFired env locale customMsg msgKey field (some (ruleKey, values))) := by
  funext ch
  show Chan.andThen _ _ ch = _
  unfold Chan.andThen
  rw [setMessageCh_eq]
  unfold afterStep sendFired
  cases hs : setMessage env locale ruleKey customMsg msgKey field values <;>
    simp [hs, Chan.ret, bind, Except.bind, pure, Except.pure]

theorem afterStep_ite {c : Prop} [Decidable c] (a b : Chan Unit)
    (d e : Except Fault Fired) (g : Fired → Except Fault (Option Message))
    (ha : a = afterStep (d >>= g)) (hb : b = afterStep (e >>= g)) :
    (if c then a else b) = afterStep ((if c then d else e) >>= g) := by
  split
  · exact ha
  · exact hb

theorem afterStep_fire (env : Env) (locale : String) (customMsg : Msg)
    (jsonTag formattedField : String) (violated : Bool) (ruleKey : String)
    (values : List String) :
    (if violated = true then
        (do setMessageCh env locale ruleKey customMsg jsonTag formattedField values
            Chan.ret : Chan Unit)
      else pure ())
      = afterStep ((pure (fireIf violated ruleKey values) : Except Fault Fired) >>=
          sendFired env locale customMsg jsonTag formattedField) := by
  cases violated
  · funext ch
    simp [fireIf, afterStep, sendFired, bind, Except.bind, pure, Except.pure]
  · simp only [if_true, fireIf]
    rw [send_ret_eq]
    rfl

theorem afterStep_none (g : Fired → Except Fault (Option Message))
    (hg : g none = pure none) :
    (pure () : Chan Unit) = afterStep ((pure none : Except Fault Fired) >>= g) := by
  funext ch
  simp [afterStep, bind, Except.bind, pure, Except.pure, hg]

theorem afterStep_call {α : Type} (x : Except Fault α) (k : α → Chan Unit)
    (f : α → Except Fault Fired) (g : Fired → Except Fault (Option Message))
    (h : ∀ a, k a = afterStep (f a >>= g)) :
    (Chan.call x >>= k) = afterStep ((x >>= f) >>= g) := by
  funext ch
  show Chan.andThen _ _ ch = _
  cases x with
  | error e => simp [Chan.andThen, Chan.call, afterStep, bind, Except.bind]
  | ok a =>
    simp only [Chan.andThen, Chan.call, bind, Except.bind]
    rw [h a]
    rfl

theorem afterStep_throw (e : Fault) (g : Fired → Except Fault (Option Message)) :
    (Chan.call (throw e) : Chan Unit) = afterStep ((throw e : Except Fault Fired) >>= g) := by
  funext ch
  rfl

theorem sendFired_none (env : Env) (locale : String) (customMsg : Msg)
    (jsonTag formattedField : String) :
    sendFired env locale customMsg jsonTag formattedField none = pure none := rfl

theorem stringDirectiveCh_eq (env : Env) (locale : String) (fields : List Field)
    (customMsg : Msg) (jsonTag formattedField : String) (value rule : String) :
    stringDirectiveCh env locale fields customMsg jsonTag formattedField value rule
      = afterStep (stringDirective env fields value rule >>=
          sendFired env locale customMsg jsonTag formattedField) := by
  unfold stringDirectiveCh stringDirective
  dsimp only
  repeat' apply afterStep_ite
  all_goals first
    | exact afterStep_fire _ _ _ _ _ _ _ _
    | exact afterStep_none _ rfl
    | (apply afterStep_call; intro a; exact afterStep_fire _ _ _ _ _ _ _ _)
    | (split
       · apply afterStep_call; intro a; exact afterStep_fire _ _ _ _ _ _ _ _
       · exact afterStep_none _ rfl)

theorem integerDirectiveCh_eq (env : Env) (locale : String) (fields : List Field)
    (customMsg : Msg) (jsonTag formattedField : String) (value : Value) (rule : String) :
    integerDirectiveCh env locale fields customMsg jsonTag formattedField value rule
      = afterStep (integerDirective env fields value rule >>=
          sendFired env locale customMsg jsonTag formattedField) := by
  unfold integerDirectiveCh integerDirective
  dsimp only
  repeat' apply afterStep_ite
  all_goals first
    | exact afterStep_fire _ _ _ _ _ _ _ _
    | exact afterStep_none _ rfl
    | (apply afterStep_call; intro a; exact afterStep_fire _ _ _ _ _ _ _ _)

theorem floatDirectiveCh_eq (env : Env) (locale : String) (fields : List Field)
    (customMsg : Msg) (jsonTag formattedField : String) (value : Value) (rule : String) :
    floatDirectiveCh env locale fields customMsg jsonTag formattedField value rule
      = afterStep (floatDirective env fields value rule >>=
          sendFired env locale customMsg jsonTag formattedField) := by
  unfold floatDirectiveCh floatDirective
  dsimp only
  repeat' apply afterStep_ite
  all_goals first
    | exact afterStep_fire _ _ _ _ _ _ _ _
    | exact afterStep_none _ rfl
    | (apply afterStep_call; intro a; exact afterStep_fire _ _ _ _ _ _ _ _)

theorem fileSizeDirectiveCh_eq (env : Env) (locale : String) (customMsg : Msg)
    (jsonTag formattedField : String) (fh : FileHeader) (arg : String) :
    fileSizeDirectiveCh env locale customMsg jsonTag formattedField fh arg
      = afterStep (fileSizeDirective fh arg >>=
          sendFired env locale customMsg jsonTag formattedField) := by
  unfold fileSizeDirectiveCh fileSizeDirective
  cases matchFileSize arg.data with
  | none => exact afterStep_throw _ _
  | some r =>
    obtain ⟨size, symbol⟩ := r
    dsimp only
    repeat' apply afterStep_ite
    all_goals first
      | exact afterStep_fire _ _ _ _ _ _ _ _
      | exact afterStep_none _ rfl

theorem fileDirectiveCh_eq (env : Env) (locale : String) (customMsg : Msg)
    (jsonTag formattedField : String) (fh : FileHeader) (rule : String) :
    fileDirectiveCh env locale customMsg jsonTag formattedField fh rule
      = afterStep (fileDirective env fh rule >>=
          sendFired env locale customMsg jsonTag formattedField) := by
  unfold fileDirectiveCh fileDirective
  dsimp only
  repeat' apply afterStep_ite
  all_goals first
    | exact fileSizeDirectiveCh_eq _ _ _ _ _ _ _
    | exact afterStep_none _ rfl
    | (apply afterStep_call; intro a; exact afterStep_fire _ _ _ _ _ _ _ _)

theorem sliceDirectiveCh_eq (env : Env) (locale : String) (customMsg : Msg)
    (jsonTag formattedField : String) (value : Value) (rule : String) :
    sliceDirectiveCh env locale customMsg jsonTag formattedField value rule
      = afterStep (sliceDirective env value rule >>=
          sendFired env locale customMsg jsonTag formattedField) := by
  unfold sliceDirectiveCh sliceDirective
  dsimp only
  repeat' apply afterStep_ite
  all_goals first
    | exact afterStep_none _ rfl
    | (split
       · rw [send_ret_eq]; rfl
       · exact afterStep_throw _ _)

theorem afterStep_call_step {α : Type} (x : Except Fault α) (k : α → Chan Unit)
    (f : α → Except Fault (Option Message))
    (h : ∀ a, k a = afterStep (f a)) :
    (Chan.call x >>= k) = afterStep (x >>= f) := by
  funext ch
  show Chan.andThen _ _ ch = _
  cases x with
  | error e => simp [Chan.andThen, Chan.call, afterStep, bind, Except.bind]
  | ok a =>
    simp only [Chan.andThen, Chan.call, bind, Except.bind]
    rw [h a]

theorem sendListCh_eq (env : Env) (locale : String) (jsonTag formattedField : String)
    (errMsgs : List Msg) :
    sendListCh env locale jsonTag formattedField errMsgs
      = afterStep (sendList env locale jsonTag formattedField errMsgs) := by
  cases errMsgs with
  | nil => funext ch; rfl
  | cons x xs =>
    unfold sendListCh sendList
    dsimp only
    rw [send_ret_eq]
    rfl

theorem sendMapCh_eq (env : Env) (locale : String) (jsonTag formattedField : String)
    (m : GoMap) :
    (do setMessageCh env locale "" (.map m) jsonTag formattedField []
        Chan.ret : Chan Unit)
      = afterStep (do
          let sent ← setMessage env locale "" (.map m) jsonTag formattedField []
          pure (some sent)) := by
  rw [send_ret_eq]
  rfl

theorem elementsStepCh_eq (env : Env) (nested : Target → Except Fault (Option GoMap))
    (locale : String) (fields : List Field) (value : Value) (jsonTag formattedField : String)
    (rule : String) (customMsg : Msg) :
    elementsStepCh env nested locale fields value jsonTag formattedField rule customMsg
      = afterStep
          (elementsStep env nested locale fields value jsonTag formattedField rule customMsg) := by
  unfold elementsStepCh elementsStep
  cases value
  case strs xs => exact afterStep_call_step _ _ _ (fun a => sendListCh_eq _ _ _ _ a)
  case ints k xs => exact afterStep_call_step _ _ _ (fun a => sendListCh_eq _ _ _ _ a)
  case uints k xs => exact afterStep_call_step _ _ _ (fun a => sendListCh_eq _ _ _ _ a)
  case floats k xs => exact afterStep_call_step _ _ _ (fun a => sendListCh_eq _ _ _ _ a)
  case files xs => exact afterStep_call_step _ _ _ (fun a => sendListCh_eq _ _ _ _ a)
  case refs ty ts =>
    apply afterStep_call_step
    intro err
    cases err with
    | nil => funext ch; rfl
    | cons kv rest => exact sendMapCh_eq _ _ _ _ _
  all_goals (funext ch; rfl)

theorem nestedStepCh_eq (env : Env) (nested : Target → Except Fault (Option GoMap))
    (locale : String) (jsonTag formattedField : String) (t : Target) :
    nestedStepCh env nested locale jsonTag formattedField t
      = afterStep (do
          let msg ← nested t
          match msg with
          | some m => do
            let sent ← setMessage env locale "" (.map m) jsonTag formattedField []
            pure (some sent)
          | none => pure none) := by
  unfold nestedStepCh
  apply afterStep_call_step
  intro msg
  cases msg with
  | none => funext ch; rfl
  | some m => exact sendMapCh_eq _ _ _ _ _

/-- The length directives of a sequence followed by the switch on its element kind. -/
theorem sliceThenElements_eq (d : Except Fault Fired) (g : Fired → Except Fault (Option Message))
    (e : Except Fault (Option Message)) (hg : g none = pure none)
    (hs : ∀ kv, g (some kv) ≠ .ok none) :
    ((afterStep (d >>= g) >>= fun _ => afterStep e) : Chan Unit)
      = afterStep (do
          let fired ← d
          match fired with
          | some _ => g fired
          | none => e) := by
  funext ch
  show Chan.andThen _ _ ch = _
  cases d with
  | error err => simp [Chan.andThen, afterStep, bind, Except.bind]
  | ok fired =>
    cases fired with
    | none =>
      simp [Chan.andThen, afterStep, bind, Except.bind, hg, pure, Except.pure]
    | some kv =>
      simp only [Chan.andThen, afterStep, bind, Except.bind]
      cases hk : g (some kv) with
      | error err => rfl
      | ok r =>
        cases r with
        | none => exact absurd hk (hs kv)
        | some m => rfl

theorem kindStepCh_eq (env : Env) (nested : Target → Except Fault (Option GoMap))
    (locale : String) (fields : List Field) (value : Value) (jsonTag formattedField : String)
    (rule : String) (customMsg : Msg) :
    kindStepCh env nested locale fields value jsonTag formattedField rule customMsg
      = afterStep
          (kindStep env nested locale fields value jsonTag formattedField rule customMsg) := by
  have seqs : ∀ v : Value,
      ((do sliceDirectiveCh env locale customMsg jsonTag formattedField v rule
           elementsStepCh env nested locale fields v jsonTag formattedField rule customMsg) :
          Chan Unit)
        = afterStep (do
            let fired ← sliceDirective env v rule
            match fired with
            | some _ => sendFired env locale customMsg jsonTag formattedField fired
            | none =>
              elementsStep env nested locale fields v jsonTag formattedField rule customMsg) := by
    intro v
    rw [sliceDirectiveCh_eq, elementsStepCh_eq]
    exact sliceThenElements_eq _ _ _ rfl
      (fun kv => sendFired_some_ne_none env locale customMsg jsonTag formattedField kv)
  unfold kindStepCh kindStep
  cases value
  case str s => exact stringDirectiveCh_eq _ _ _ _ _ _ _ _
  case int k i => exact integerDirectiveCh_eq _ _ _ _ _ _ _ _
  case uint k n => exact integerDirectiveCh_eq _ _ _ _ _ _ _ _
  case float k x => exact floatDirectiveCh_eq _ _ _ _ _ _ _ _
  case bool b => funext ch; rfl
  case strs xs => exact seqs _
  case ints k xs => exact seqs _
  case uints k xs => exact seqs _
  case floats k xs => exact seqs _
  case files xs => exact seqs _
  case refs ty ts => exact seqs _
  case seq ty n => exact seqs _
  case file fh => exact fileDirectiveCh_eq _ _ _ _ _ _ _
  case ref ty t => exact nestedStepCh_eq _ _ _ _ _ _
  case nilPtr ty => exact nestedStepCh_eq _ _ _ _ _ _
  case map ty n => funext ch; rfl
  case other ty z => funext ch; rfl

theorem ruleStepCh_eq (env : Env) (nested : Target → Except Fault (Option GoMap))
    (locale : String) (fields : List Field) (value : Value) (jsonTag formattedField : String)
    (ruleOrMsg : String) :
    ruleStepCh env nested locale fields value jsonTag formattedField ruleOrMsg
      = afterStep
          (ruleStep env nested locale fields value jsonTag formattedField ruleOrMsg) := by
  unfold ruleStepCh ruleStep
  dsimp only
  funext ch
  by_cases hr : (env.getRuleAndMsg ruleOrMsg).1 = "required" ∧ isEmpty value = true
  · have he : isEmpty value = true := hr.2
    simp only [hr, and_self, if_true, he, Bool.not_true, Bool.false_eq_true, if_false]
    by_cases hb : isBoolKind value = true
    · simp only [hb, if_true, bind, Chan.andThen, setMessageCh_eq, afterStep]
      cases hs : setMessage env locale "bool" (Msg.str (env.getRuleAndMsg ruleOrMsg).2)
          jsonTag formattedField [] <;>
        simp [hs, Chan.ret, Except.bind, pure, Except.pure]
    · simp only [hb, if_false, bind, Chan.andThen, setMessageCh_eq, afterStep, pure]
      cases hs : setMessage env locale "required" (Msg.str (env.getRuleAndMsg ruleOrMsg).2)
          jsonTag formattedField [] <;>
        simp [hs, Chan.andThen, setMessageCh_eq, Chan.ret, Except.bind, pure, Except.pure]
  · simp only [hr, if_false]
    by_cases he : isEmpty value = true
    · simp only [he, Bool.not_true, Bool.false_eq_true, if_false]
      rfl
    · have he2 : isEmpty value = false := by simpa using he
      simp only [he2, Bool.not_false, if_true]
      rw [← kindStepCh_eq]
      rfl

theorem ruleLoopCh_after (env : Env) (nested : Target → Except Fault (Option GoMap))
    (locale : String) (fields : List Field) (value : Value) (jsonTag formattedField : String)
    (rules : List String) (ch : List Message) :
    (ruleLoopCh env nested locale fields value jsonTag formattedField rules).after ch
      = (ruleLoop env nested locale fields value jsonTag formattedField rules >>=
          fun m => pure (ch ++ [m])) := by
  induction rules with
  | nil =>
    unfold Chan.after ruleLoopCh ruleLoop
    rw [setMessageCh_eq]
    cases hs : setMessage env locale "empty" (.str "") jsonTag formattedField [] <;>
      simp [hs, bind, Except.bind, pure, Except.pure]
  | cons r rest ih =>
    unfold Chan.after at ih ⊢
    unfold ruleLoopCh ruleLoop
    simp only [bind, Chan.andThen, ruleStepCh_eq, afterStep]
    cases hs : ruleStep env nested locale fields value jsonTag formattedField r with
    | error e => simp [Except.bind]
    | ok sent =>
      cases sent with
      | none =>
        simp only [bind, Except.bind] at ih ⊢
        exact ih
      | some m => simp [Except.bind, pure, Except.pure]

theorem runFieldsCh_eq (env : Env) (nested : Target → Except Fault (Option GoMap))
    (locale : String) (fields : List Field) (fs : List Field) (ch : List Message) :
    runFieldsCh env nested locale fields fs ch
      = (runFields env nested locale fields fs >>= fun ms => pure (ch ++ ms)) := by
  induction fs generalizing ch with
  | nil => simp [runFieldsCh, runFields, pure, Except.pure, bind, Except.bind]
  | cons f rest ih =>
    unfold runFieldsCh runFields
    have h := ruleLoopCh_after env nested locale fields f.value (tagGet f.json)
      (env.formatFieldName (tagGet f.json)) (split (tagGet f.validate) '|') ch
    unfold validateStructCh
    rw [h]
    unfold validateStruct
    cases hv : ruleLoop env nested locale fields f.value (tagGet f.json)
        (env.formatFieldName (tagGet f.json)) (split (tagGet f.validate) '|') with
    | error e => simp [bind, Except.bind]
    | ok m =>
      simp only [bind, Except.bind, pure, Except.pure]
      rw [ih (ch ++ [m])]
      cases hr : runFields env nested locale fields rest with
      | error e => simp [bind, Except.bind]
      | ok ms => simp [bind, Except.bind, pure, Except.pure]

/-! ## The key of a message -/

theorem sendFired_K (env : Env) (locale : String) (customMsg : Msg)
    (jsonTag formattedField : String) (fired : Fired) (m : Message)
    (h : sendFired env locale customMsg jsonTag formattedField fired = .ok (some m)) :
    m.K = jsonTag := by
  unfold sendFired at h
  cases fired with
  | none => simp [pure, Except.pure] at h
  | some kv =>
    obtain ⟨ruleKey, values⟩ := kv
    simp only at h
    cases hs : setMessage env locale ruleKey customMsg jsonTag formattedField values with
    | error e => simp [hs, bind, Except.bind] at h
    | ok m0 =>
      simp [hs, bind, Except.bind, pure, Except.pure] at h
      subst h
      exact setMessage_K env locale ruleKey customMsg jsonTag formattedField values m0 hs

theorem sendList_K (env : Env) (locale : String) (jsonTag formattedField : String)
    (errMsgs : List Msg) (m : Message)
    (h : sendList env locale jsonTag formattedField errMsgs = .ok (some m)) :
    m.K = jsonTag := by
  unfold sendList at h
  cases errMsgs with
  | nil => simp [pure, Except.pure] at h
  | cons x xs =>
    simp only at h
    cases hs : setMessage env locale "" (.list (x :: xs)) jsonTag formattedField [] with
    | error e => simp [hs, bind, Except.bind] at h
    | ok m0 =>
      simp [hs, bind, Except.bind, pure, Except.pure] at h
      subst h
      exact setMessage_K env locale "" (.list (x :: xs)) jsonTag formattedField [] m0 hs

theorem sendMap_K (env : Env) (locale : String) (jsonTag formattedField : String)
    (kvs : GoMap) (m : Message)
    (h : (do let sent ← setMessage env locale "" (.map kvs) jsonTag formattedField []
             pure (some sent) : Except Fault (Option Message)) = .ok (some m)) :
    m.K = jsonTag := by
  cases hs : setMessage env locale "" (.map kvs) jsonTag formattedField [] with
  | error e => simp [hs, bind, Except.bind] at h
  | ok m0 =>
    simp [hs, bind, Except.bind, pure, Except.pure] at h
    subst h
    exact setMessage_K env locale "" (.map kvs) jsonTag formattedField [] m0 hs

theorem elementsStep_K (env : Env) (nested : Target → Except Fault (Option GoMap))
    (locale : String) (fields : List Field) (value : Value) (jsonTag formattedField : String)
    (rule : String) (customMsg : Msg) (m : Message)
    (h : elementsStep env nested locale fields value jsonTag formattedField rule customMsg
      = .ok (some m)) :
    m.K = jsonTag := by
  unfold elementsStep at h
  cases value <;> simp only [pure, Except.pure] at h <;> try (simp at h)
  case strs xs =>
    cases hc : collectMsgs env locale customMsg formattedField
      (fun x => stringDirective env fields x rule) xs 1 with
    | error e => simp [hc, bind, Except.bind] at h
    | ok l =>
      simp only [hc, bind, Except.bind] at h
      exact sendList_K env locale jsonTag formattedField l m h
  case ints k xs =>
    cases hc : collectMsgs env locale customMsg formattedField
      (fun _ => integerElemDirective env fields (.ints k xs) rule) xs 1 with
    | error e => simp [hc, bind, Except.bind] at h
    | ok l =>
      simp only [hc, bind, Except.bind] at h
      exact sendList_K env locale jsonTag formattedField l m h
  case uints k xs =>
    cases hc : collectMsgs env locale customMsg formattedField
      (fun _ => integerElemDirective env fields (.uints k xs) rule) xs 1 with
    | error e => simp [hc, bind, Except.bind] at h
    | ok l =>
      simp only [hc, bind, Except.bind] at h
      exact sendList_K env locale jsonTag formattedField l m h
  case floats k xs =>
    cases hc : collectMsgs env locale customMsg formattedField
      (fun _ => floatElemDirective env fields (.floats k xs) rule) xs 1 with
    | error e => simp [hc, bind, Except.bind] at h
    | ok l =>
      simp only [hc, bind, Except.bind] at h
      exact sendList_K env locale jsonTag formattedField l m h
  case files xs =>
    cases hc : collectMsgs env locale customMsg formattedField
      (fun fh => fileDirective env fh rule) xs 1 with
    | error e => simp [hc, bind, Except.bind] at h
    | ok l =>
      simp only [hc, bind, Except.bind] at h
      exact sendList_K env locale jsonTag formattedField l m h
  case refs ty ts =>
    cases hc : collectNested nested jsonTag ts 0 [] with
    | error e => simp [hc, bind, Except.bind] at h
    | ok err =>
      simp only [hc, bind, Except.bind] at h
      cases err with
      | nil => simp at h
      | cons kv rest =>
        simp only at h
        exact sendMap_K env locale jsonTag formattedField (kv :: rest) m h

theorem kindStep_K (env : Env) (nested : Target → Except Fault (Option GoMap))
    (locale : String) (fields : List Field) (value : Value) (jsonTag formattedField : String)
    (rule : String) (customMsg : Msg) (m : Message)
    (h : kindStep env nested locale fields value jsonTag formattedField rule customMsg
      = .ok (some m)) :
    m.K = jsonTag := by
  have scalar : ∀ (d : Except Fault Fired),
      (do let fired ← d
          sendFired env locale customMsg jsonTag formattedField fired) = .ok (some m) →
      m.K = jsonTag := by
    intro d hd
    cases hx : d with
    | error e => simp [hx, bind, Except.bind] at hd
    | ok fired =>
      simp only [hx, bind, Except.bind] at hd
      exact sendFired_K env locale customMsg jsonTag formattedField fired m hd
  have seqs : ∀ (v : Value),
      (do let fired ← sliceDirective env v rule
          match fired with
          | some _ => sendFired env locale customMsg jsonTag formattedField fired
          | none => elementsStep env nested locale fields v jsonTag formattedField rule customMsg)
        = .ok (some m) →
      m.K = jsonTag := by
    intro v hd
    cases hx : sliceDirective env v rule with
    | error e => simp [hx, bind, Except.bind] at hd
    | ok fired =>
      simp only [hx, bind, Except.bind] at hd
      cases fired with
      | none =>
        exact elementsStep_K env nested locale fields v jsonTag formattedField rule
          customMsg m hd
      | some kv =>
        exact sendFired_K env locale customMsg jsonTag formattedField (some kv) m hd
  have nest : ∀ (t : Target),
      (do let msg ← nested t
          match msg with
          | some m0 => do
            let sent ← setMessage env locale "" (.map m0) jsonTag formattedField []
            pure (some sent)
          | none => pure none) = .ok (some m) →
      m.K = jsonTag := by
    intro t hd
    cases hx : nested t with
    | error e => simp [hx, bind, Except.bind] at hd
    | ok r =>
      simp only [hx, bind, Except.bind] at hd
      cases r with
      | none => simp [pure, Except.pure] at hd
      | some m0 => exact sendMap_K env locale jsonTag formattedField m0 m hd
  unfold kindStep at h
  cases value
  case str s => exact scalar _ h
  case int k i => exact scalar _ h
  case uint k n => exact scalar _ h
  case float k x => exact scalar _ h
  case bool b => simp [pure, Except.pure] at h
  case strs xs => exact seqs _ h
  case ints k xs => exact seqs _ h
  case uints k xs => exact seqs _ h
  case floats k xs => exact seqs _ h
  case files xs => exact seqs _ h
  case refs ty ts => exact seqs _ h
  case seq ty n => exact seqs _ h
  case file fh => exact scalar _ h
  case ref ty t => exact nest _ h
  case nilPtr ty => exact nest _ h
  case map ty n => simp [pure, Except.pure] at h
  case other ty z => simp [pure, Except.pure] at h

theorem ruleStep_K (env : Env) (nested : Target → Except Fault (Option GoMap))
    (locale : String) (fields : List Field) (value : Value) (jsonTag formattedField : String)
    (ruleOrMsg : String) (m : Message)
    (h : ruleStep env nested locale fields value jsonTag formattedField ruleOrMsg
      = .ok (some m)) :
    m.K = jsonTag := by
  unfold ruleStep at h
  have send : ∀ (key : String),
      (do let m0 ← setMessage env locale key (Msg.str (env.getRuleAndMsg ruleOrMsg).2)
            jsonTag formattedField []
          pure (some m0) : Except Fault (Option Message)) = .ok (some m) →
      m.K = jsonTag := by
    intro key hd
    cases hs : setMessage env locale key (Msg.str (env.getRuleAndMsg ruleOrMsg).2)
        jsonTag formattedField [] with
    | error e => simp [hs, bind, Except.bind] at hd
    | ok m0 =>
      simp [hs, bind, Except.bind, pure, Except.pure] at hd
      subst hd
      exact setMessage_K env locale key (Msg.str (env.getRuleAndMsg ruleOrMsg).2) jsonTag
        formattedField [] m0 hs
  simp only at h
  split at h
  · split at h
    · exact send _ h
    · exact send _ h
  · split at h
    · exact kindStep_K env nested locale fields value jsonTag formattedField
        (env.getRuleAndMsg ruleOrMsg).1 (Msg.str (env.getRuleAndMsg ruleOrMsg).2) m h
    · simp [pure, Except.pure] at h

theorem ruleLoop_K (env : Env) (nested : Target → Except Fault (Option GoMap))
    (locale : String) (fields : List Field) (value : Value) (jsonTag formattedField : String)
    (chain : List String) (m : Message)
    (h : ruleLoop env nested locale fields value jsonTag formattedField chain = .ok m) :
    m.K = jsonTag := by
  induction chain with
  | nil =>
    unfold ruleLoop at h
    exact setMessage_K env locale "empty" (.str "") jsonTag formattedField [] m h
  | cons seg rest ih =>
    unfold ruleLoop at h
    cases hs : ruleStep env nested locale fields value jsonTag formattedField seg with
    | error e => simp [hs, bind, Except.bind] at h
    | ok sent =>
      simp only [hs, bind, Except.bind] at h
      cases sent with
      | none => exact ih h
      | some m0 =>
        simp [pure, Except.pure] at h
        subst h
        exact ruleStep_K env nested locale fields value jsonTag formattedField seg m0 hs

theorem runFields_K (env : Env) (nested : Target → Except Fault (Option GoMap))
    (locale : String) (fields : List Field) (fs : List Field) (msgs : List Message)
    (h : runFields env nested locale fields fs = .ok msgs) :
    msgs.map Message.K = fs.map (fun f => tagGet f.json) := by
  induction fs generalizing msgs with
  | nil =>
    unfold runFields at h
    simp [pure, Except.pure] at h
    subst h
    rfl
  | cons f rest ih =>
    unfold runFields at h
    cases hv : validateStruct env nested locale fields f with
    | error e => simp [hv, bind, Except.bind] at h
    | ok m0 =>
      cases hr : runFields env nested locale fields rest with
      | error e => simp [hv, hr, bind, Except.bind] at h
      | ok ms =>
        simp [hv, hr, bind, Except.bind, pure, Except.pure] at h
        subst h
        have hk : m0.K = tagGet f.json := ruleLoop_K env nested locale fields _ _ _ _ m0 hv
        simp [hk, ih ms hr]

/-! ## The fold over the received messages -/

theorem mapSet_fresh (m : GoMap) (k : String) (v : Msg) (h : k ∉ m.map Prod.fst) :
    mapSet m k v = m ++ [(k, v)] := by
  induction m with
  | nil => rfl
  | cons kv rest ih =>
    obtain ⟨k0, v0⟩ := kv
    have h0 : k0 ≠ k := fun e => h (by simp [e])
    have hr : k ∉ rest.map Prod.fst := fun hin => h (by simp at hin ⊢; exact Or.inr hin)
    simp [mapSet, h0, ih hr]

theorem mapGet_mem (l : GoMap) (k : String) (v : Msg) (hn : (l.map Prod.fst).Nodup) :
    mapGet l k = some v ↔ (k, v) ∈ l := by
  induction l with
  | nil => simp [mapGet]
  | cons kv rest ih =>
    obtain ⟨k0, v0⟩ := kv
    simp only [List.map_cons, List.nodup_cons] at hn
    obtain ⟨hk0, hrest⟩ := hn
    by_cases h0 : k0 = k
    · subst h0
      simp only [mapGet, if_true, List.mem_cons, Option.some.injEq, Prod.mk.injEq, true_and]
      constructor
      · intro e; exact Or.inl e.symm
      · rintro (e | hin)
        · exact e.symm
        · exact absurd (List.mem_map_of_mem Prod.fst hin) hk0
    · simp only [mapGet, if_neg h0, List.mem_cons, Prod.mk.injEq]
      rw [ih hrest]
      constructor
      · intro hin; exact Or.inr hin
      · rintro (⟨e, _⟩ | hin)
        · exact absurd e.symm h0
        · exact hin

theorem mapGet_perm (a b : GoMap) (hp : a.Perm b) (hn : (b.map Prod.fst).Nodup) (k : String) :
    mapGet a k = mapGet b k := by
  have hna : (a.map Prod.fst).Nodup := (List.Perm.nodup_iff (hp.map Prod.fst)).mpr hn
  apply Option.ext
  intro v
  simp only [Option.mem_def]
  rw [mapGet_mem a k v hna, mapGet_mem b k v hn]
  exact hp.mem_iff

/-- The fold over messages with pairwise distinct keys that are not yet in the maps
appends one entry per message to `errMsg` and one per nil message to `noErrMsg`. -/
theorem foldMessages_fresh (msgs : List Message) (errMsg noErrMsg : GoMap)
    (hn : (msgs.map Message.K).Nodup)
    (h1 : ∀ x ∈ msgs, x.K ∉ errMsg.map Prod.fst)
    (h2 : ∀ x ∈ msgs, x.K ∉ noErrMsg.map Prod.fst) :
    foldMessages msgs (errMsg, noErrMsg)
      = (errMsg ++ msgs.map (fun x => (x.K, x.V)),
         noErrMsg ++ (msgs.filter (fun x => x.V.isNil)).map (fun x => (x.K, x.V))) := by
  induction msgs generalizing errMsg noErrMsg with
  | nil => simp [foldMessages]
  | cons msg rest ih =>
    simp only [List.map_cons, List.nodup_cons] at hn
    obtain ⟨hk, hrest⟩ := hn
    have hne : ∀ x ∈ rest, x.K ≠ msg.K := fun x hx e =>
      hk (e ▸ List.mem_map_of_mem Message.K hx)
    have e1 := mapSet_fresh errMsg msg.K msg.V (h1 msg (List.mem_cons_self _ _))
    have e2 := mapSet_fresh noErrMsg msg.K msg.V (h2 msg (List.mem_cons_self _ _))
    have h1r : ∀ x ∈ rest, x.K ∉ (errMsg ++ [(msg.K, msg.V)]).map Prod.fst := by
      intro x hx hin
      simp only [List.map_append, List.map_cons, List.map_nil, List.mem_append,
        List.mem_singleton] at hin
      rcases hin with hin | hin
      · exact h1 x (List.mem_cons_of_mem _ hx) hin
      · exact hne x hx hin
    unfold foldMessages
    rw [e1]
    cases hv : msg.V.isNil with
    | false =>
      have h2r : ∀ x ∈ rest, x.K ∉ noErrMsg.map Prod.fst :=
        fun x hx => h2 x (List.mem_cons_of_mem _ hx)
      simp only [Bool.false_eq_true, if_false]
      rw [ih _ _ hrest h1r h2r]
      simp [List.filter_cons, hv]
    | true =>
      have h2r : ∀ x ∈ rest, x.K ∉ (noErrMsg ++ [(msg.K, msg.V)]).map Prod.fst := by
        intro x hx hin
        simp only [List.map_append, List.map_cons, List.map_nil, List.mem_append,
          List.mem_singleton] at hin
        rcases hin with hin | hin
        · exact h2 x (List.mem_cons_of_mem _ hx) hin
        · exact hne x hx hin
      simp only [if_true]
      rw [e2, ih _ _ hrest h1r h2r]
      simp [List.filter_cons, hv]

theorem foldMessages_distinct (msgs : List Message) (hn : (msgs.map Message.K).Nodup) :
    foldMessages msgs ([], [])
      = (msgs.map (fun x => (x.K, x.V)),
         (msgs.filter (fun x => x.V.isNil)).map (fun x => (x.K, x.V))) := by
  rw [foldMessages_fresh msgs [] [] hn (by simp) (by simp)]
  simp

theorem keys_nodup_filter (msgs : List Message) (p : Message → Bool)
    (hn : (msgs.map Message.K).Nodup) :
    (((msgs.filter p).map (fun x => (x.K, x.V))).map Prod.fst).Nodup := by
  have e : ((msgs.filter p).map (fun x => (x.K, x.V))).map Prod.fst
      = (msgs.filter p).map Message.K := by
    simp [List.map_map, Function.comp_def]
  rw [e]
  exact List.Nodup.sublist ((List.filter_sublist msgs).map Message.K) hn

/-! ## The length limits of a sequence -/

theorem splitN_slice (name arg : String) (hn : ':' ∉ name.data) :
    splitN ("slice:" ++ name ++ ":" ++ arg) ':' 3 = ["slice", name, arg] := by
  unfold splitN splitNChars
  have hd : ("slice:" ++ name ++ ":" ++ arg).data
      = "slice".data ++ ':' :: (name.data ++ ':' :: arg.data) := by
    simp [String.data_append]
  rw [hd, cutFirst_append ':' "slice".data _ (by decide)]
  simp only [splitNChars]
  rw [cutFirst_append ':' name.data arg.data hn]
  simp [splitNChars]

theorem isNotMin_len (env : Env) (v : Value) (len : Nat) (p : String)
    (hv : valueLen v = some len) :
    isNotMin env v p = !(decide ((len : Int) ≥ atoi p)) := by
  cases v <;> simp [valueLen] at hv <;> simp [isNotMin, valueLen, hv]

theorem isNotMax_len (env : Env) (v : Value) (len : Nat) (p : String)
    (hv : valueLen v = some len) :
    isNotMax env v p = !(decide ((len : Int) ≤ atoi p)) := by
  cases v <;> simp [valueLen] at hv <;> simp [isNotMax, valueLen, hv]

/-- The length directives of a sequence hand the name of the limit, not its value, to
the predicate. -/
theorem sliceDirective_min_max (env : Env) (v : Value) (arg : String) :
    sliceDirective env v ("slice:min:" ++ arg)
      = pure (fireIf (isNotMin env v "min") "min.slice" [arg]) ∧
    sliceDirective env v ("slice:max:" ++ arg)
      = pure (fireIf (isNotMax env v "max") "max.slice" [arg]) := by
  have h1 : "slice:min:" ++ arg = "slice:" ++ "min" ++ ":" ++ arg := rfl
  have h2 : "slice:max:" ++ arg = "slice:" ++ "max" ++ ":" ++ arg := rfl
  have s1 := splitN_slice "min" arg (by decide)
  have s2 := splitN_slice "max" arg (by decide)
  have p1 : startsWith ("slice:" ++ "min" ++ ":" ++ arg) "slice" = true := rfl
  have p2 : startsWith ("slice:" ++ "max" ++ ":" ++ arg) "slice" = true := rfl
  have c1 : containsChar ("slice:" ++ "min" ++ ":" ++ arg) ':' = true := by
    rw [containsChar_iff]; simp [String.data_append]
  have c2 : containsChar ("slice:" ++ "max" ++ ":" ++ arg) ':' = true := by
    rw [containsChar_iff]; simp [String.data_append]
  constructor
  · rw [h1]
    unfold sliceDirective
    simp only [p1, c1, s1, Bool.and_self, if_true, List.drop_succ_cons, List.drop_zero,
      List.getD_cons_zero]
    cases isNotMin env v "min" <;> simp [fireIf]
  · rw [h2]
    unfold sliceDirective
    simp only [p2, c2, s2, Bool.and_self, if_true, List.drop_succ_cons, List.drop_zero,
      List.getD_cons_zero]
    cases isNotMax env v "max" <;> simp [fireIf]

/-! ## The rule keys of the dispatcher -/

theorem pure_fire (b : Bool) (k key : String) (a values : List String)
    (h : (pure (fireIf b k a) : Except Fault Fired) = .ok (some (key, values))) :
    key = k ∧ values = a := by
  cases b <;> simp [fireIf, pure, Except.pure] at h
  exact ⟨h.1.symm, h.2.symm⟩

theorem bind_fire {α : Type} (x : Except Fault α) (f : α → Bool) (k key : String)
    (a : α → List String) (values : List String)
    (h : (x >>= fun y => (pure (fireIf (f y) k (a y)) : Except Fault Fired))
      = .ok (some (key, values))) :
    key = k ∧ ∃ y, values = a y := by
  cases x with
  | error e => simp [bind, Except.bind] at h
  | ok y =>
    simp only [bind, Except.bind] at h
    obtain ⟨h1, h2⟩ := pure_fire _ _ _ _ _ h
    exact ⟨h1, y, h2⟩

theorem ite_imp {α : Type} {c : Prop} [Decidable c] (a b r : α) (P : Prop)
    (ha : a = r → P) (hb : b = r → P) : (if c then a else b) = r → P := by
  intro h
  split at h
  · exact ha h
  · exact hb h

theorem stringDirective_keys (env : Env) (fields : List Field) (s : String) (rule key : String)
    (values : List String)
    (h : stringDirective env fields s rule = .ok (some (key, values))) :
    (key, values.length) ∈ dispatcherKeys := by
  revert h
  unfold stringDirective
  dsimp only
  repeat' apply ite_imp
  all_goals intro h
  all_goals try (split at h)
  all_goals first
    | (obtain ⟨rfl, rfl⟩ := pure_fire _ _ _ _ _ h; simp [dispatcherKeys])
    | (obtain ⟨rfl, y, rfl⟩ := bind_fire _ _ _ _ _ _ h; simp [dispatcherKeys])
    | (cases h)

theorem integerDirective_keys (env : Env) (fields : List Field) (v : Value) (rule key : String)
    (values : List String)
    (h : integerDirective env fields v rule = .ok (some (key, values))) :
    (key, values.length) ∈ dispatcherKeys := by
  revert h
  unfold integerDirective
  dsimp only
  repeat' apply ite_imp
  all_goals intro h
  all_goals first
    | (obtain ⟨rfl, rfl⟩ := pure_fire _ _ _ _ _ h; simp [dispatcherKeys])
    | (obtain ⟨rfl, y, rfl⟩ := bind_fire _ _ _ _ _ _ h; simp [dispatcherKeys])
    | (cases h)

theorem floatDirective_keys (env : Env) (fields : List Field) (v : Value) (rule key : String)
    (values : List String)
    (h : floatDirective env fields v rule = .ok (some (key, values))) :
    (key, values.length) ∈ dispatcherKeys := by
  revert h
  unfold floatDirective
  dsimp only
  repeat' apply ite_imp
  all_goals intro h
  all_goals first
    | (obtain ⟨rfl, rfl⟩ := pure_fire _ _ _ _ _ h; simp [dispatcherKeys])
    | (obtain ⟨rfl, y, rfl⟩ := bind_fire _ _ _ _ _ _ h; simp [dispatcherKeys])
    | (cases h)

theorem integerElemDirective_keys (env : Env) (fields : List Field) (v : Value) (rule key : String)
    (values : List String)
    (h : integerElemDirective env fields v rule = .ok (some (key, values))) :
    (key, values.length) ∈ dispatcherKeys := by
  revert h
  unfold integerElemDirective
  dsimp only
  repeat' apply ite_imp
  all_goals intro h
  all_goals first
    | (obtain ⟨rfl, rfl⟩ := pure_fire _ _ _ _ _ h; simp [dispatcherKeys])
    | (obtain ⟨rfl, y, rfl⟩ := bind_fire _ _ _ _ _ _ h; simp [dispatcherKeys])
    | (cases h)

theorem floatElemDirective_keys (env : Env) (fields : List Field) (v : Value) (rule key : String)
    (values : List String)
    (h : floatElemDirective env fields v rule = .ok (some (key, values))) :
    (key, values.length) ∈ dispatcherKeys := by
  revert h
  unfold floatElemDirective
  dsimp only
  repeat' apply ite_imp
  all_goals intro h
  all_goals first
    | (obtain ⟨rfl, rfl⟩ := pure_fire _ _ _ _ _ h; simp [dispatcherKeys])
    | (obtain ⟨rfl, y, rfl⟩ := bind_fire _ _ _ _ _ _ h; simp [dispatcherKeys])
    | (cases h)

theorem fileSizeDirective_keys (fh : FileHeader) (arg key : String) (values : List String)
    (h : fileSizeDirective fh arg = .ok (some (key, values))) :
    (key, values.length) ∈ dispatcherKeys := by
  revert h
  unfold fileSizeDirective
  cases matchFileSize arg.data with
  | none => intro h; cases h
  | some r =>
    obtain ⟨size, symbol⟩ := r
    dsimp only
    repeat' apply ite_imp
    all_goals intro h
    all_goals first
      | (obtain ⟨rfl, rfl⟩ := pure_fire _ _ _ _ _ h; simp [dispatcherKeys])
      | (cases h)

theorem fileDirective_keys (env : Env) (fh : FileHeader) (rule key : String)
    (values : List String)
    (h : fileDirective env fh rule = .ok (some (key, values))) :
    (key, values.length) ∈ dispatcherKeys := by
  revert h
  unfold fileDirective
  dsimp only
  repeat' apply ite_imp
  all_goals intro h
  all_goals first
    | (obtain ⟨rfl, y, rfl⟩ := bind_fire _ (fun b => b) _ _ _ _ h; simp [dispatcherKeys])
    | (exact fileSizeDirective_keys _ _ _ _ h)
    | (cases h)

theorem sliceDirective_keys (env : Env) (v : Value) (rule key : String)
    (values : List String)
    (h : sliceDirective env v rule = .ok (some (key, values))) :
    (key, values.length) ∈ dispatcherKeys := by
  revert h
  unfold sliceDirective
  dsimp only
  repeat' apply ite_imp
  all_goals intro h
  all_goals try (split at h)
  all_goals first
    | (simp only [pure, Except.pure, Except.ok.injEq, Option.some.injEq, Prod.mk.injEq] at h
       obtain ⟨rfl, rfl⟩ := h
       simp [dispatcherKeys])
    | (cases h)
theorem dispatcherKeys_arity : dispatcherKeys.all (fun kn => arityOK FR kn.1 kn.2) = true := by
  decide

theorem getMessage_fr (env : Env) (rule : String) :
    getMessage env "fr" rule = lookupTemplate FR rule := by
  rw [getMessage_eq_lookup]
  have : toLower "fr" = "fr" := by decide
  rw [if_pos this]

theorem dispatcherKeys_template (env : Env) (key : String) (n : Nat)
    (h : (key, n) ∈ dispatcherKeys) :
    ∃ t, getMessage env "fr" key = .ok t ∧ t ≠ "" ∧ placeholders t.data = n + 1 := by
  have hall := List.all_eq_true.mp dispatcherKeys_arity (key, n) h
  rw [getMessage_fr]
  unfold arityOK at hall
  cases hl : lookupTemplate FR key with
  | error e => simp [hl] at hall
  | ok t =>
    simp [hl] at hall
    exact ⟨t, rfl, hall.1, hall.2⟩

theorem dispatcherKeys_le_two (key : String) (n : Nat) (h : (key, n) ∈ dispatcherKeys) :
    n ≤ 2 := by
  have hall : dispatcherKeys.all (fun kn => decide (kn.2 ≤ 2)) = true := by decide
  simpa using List.all_eq_true.mp hall (key, n) h

/-! ## The claims -/

/-- C1 (code defect). The claim says a record whose fields all pass gives the nil
result. In the code a record with at least one field never gives the nil result from
`structValidator`, nor from `Validate`, whatever its fields: the pass message carries
the empty string, which the nil test of `structValidator` does not count as a pass. -/
theorem C1_structValidator_never_nil (env : Env)
    (nested : Target → Except Fault (Option GoMap)) (locale : String) (fields : List Field)
    (hne : fields ≠ []) :
    structValidator env nested locale fields ≠ .ok none ∧
    Validate env nested locale (.struct fields) ≠ .ok none := by
  suffices hs : structValidator env nested locale fields ≠ .ok none from ⟨hs, hs⟩
  intro h
  unfold structValidator at h
  split at h
  · cases hr : runFields env nested locale fields fields with
    | error e => simp [hr, bind, Except.bind] at h
    | ok msgs =>
      simp only [hr, bind, Except.bind, pure, Except.pure] at h
      obtain ⟨hl, hn⟩ := runFields_V_not_nil env nested locale fields fields msgs hr
      have hmsgs : msgs ≠ [] := by
        intro h0
        rw [h0] at hl
        exact hne (List.length_eq_zero.mp hl.symm)
      obtain ⟨h2, h1⟩ := foldMessages_not_nil msgs [] [] hn
      have h1 := h1 (Or.inl hmsgs)
      unfold assemble at h
      simp only [h2] at h
      have hlen : (foldMessages msgs ([], [])).1.length ≠ 0 := by
        intro h0
        exact h1 (List.length_eq_zero.mp h0)
      simp [hlen] at h
  · simp [throw, throwThe, MonadExceptOf.throw] at h

/-- C1 at a concrete record: one text field `name = "x"` with the chain `required`
passes, and the result is the map with `name` bound to the empty string, not nil. -/
theorem C1_structValidator_never_nil_witness :
    [Field.mk (some "name") (some "required") (.str "x")] ≠ [] ∧
    (structValidator exampleEnv noNested "fr"
        [Field.mk (some "name") (some "required") (.str "x")] ≠ .ok none ∧
      Validate exampleEnv noNested "fr"
        (.struct [Field.mk (some "name") (some "required") (.str "x")]) ≠ .ok none) ∧
    structValidator exampleEnv noNested "fr"
      [Field.mk (some "name") (some "required") (.str "x")]
      = .ok (some [("name", Msg.str "")]) :=
  ⟨by simp,
   C1_structValidator_never_nil exampleEnv noNested "fr" _ (by simp),
   rfl⟩

/-- C2 (code defect). The claim says a passing field is bound to null in the result
map. For the record `name = ""` (chain `required`, fails) and `nick = "bob"` (chain
`alpha`, passes) the map binds `nick` to the empty string, which is not null. -/
theorem C2_passing_field_bound_to_empty_string :
    structValidator exampleEnv noNested "fr"
      [Field.mk (some "name") (some "required") (.str ""),
       Field.mk (some "nick") (some "alpha") (.str "bob")]
      = .ok (some [("name", Msg.str "Le champ name est requis."), ("nick", Msg.str "")]) ∧
    (Msg.str "").isNil = false :=
  ⟨rfl, rfl⟩

/-- C3. First failure wins for a non-empty scalar field (text, integer, float): when
the directives before `d` in the chain are not violated and `d` is, the outcome is the
message of `d` (its rule key, its custom message, its arguments), whatever directives
follow `d` and whether the value violates them or not. -/
theorem C3_first_failure_wins (env : Env)
    (nested : Target → Except Fault (Option GoMap)) (locale : String) (fields : List Field)
    (f : Field) (pre post : List String) (d ruleKey : String) (values : List String)
    (hs : isScalar f.value = true) (hv : isEmpty f.value = false)
    (hchain : split (tagGet f.validate) '|' = pre ++ d :: post)
    (hpre : ∀ s ∈ pre, scalarDirective env fields f.value (env.getRuleAndMsg s).1 = .ok none)
    (hd : scalarDirective env fields f.value (env.getRuleAndMsg d).1
      = .ok (some (ruleKey, values))) :
    validateStruct env nested locale fields f
      = setMessage env locale ruleKey (.str (env.getRuleAndMsg d).2) (tagGet f.json)
          (env.formatFieldName (tagGet f.json)) values := by
  unfold validateStruct
  rw [hchain, ruleLoop_skip]
  · cases hm : setMessage env locale ruleKey (.str (env.getRuleAndMsg d).2) (tagGet f.json)
        (env.formatFieldName (tagGet f.json)) values with
    | error e =>
      apply ruleLoop_cons_error
      rw [ruleStep_scalar _ _ _ _ _ _ _ _ hs hv, hd]
      simp [sendFired, hm, bind, Except.bind]
    | ok m =>
      apply ruleLoop_cons_some
      rw [ruleStep_scalar _ _ _ _ _ _ _ _ hs hv, hd]
      simp [sendFired, hm, bind, Except.bind, pure, Except.pure]
  · intro s hs0
    rw [ruleStep_scalar _ _ _ _ _ _ _ _ hs hv, hpre s hs0]
    simp [sendFired, bind, Except.bind, pure, Except.pure]

/-- C3 at a chain of two violated directives: the integer 15 with `min:18|max:10`
violates both, and the outcome is the message of `min:18`. -/
theorem C3_first_failure_wins_witness :
    scalarDirective exampleEnv [] (.int .int 15) "max:10"
      = .ok (some ("max.numeric", ["10"])) ∧
    validateStruct exampleEnv noNested "fr" []
      (Field.mk (some "age") (some "min:18|max:10") (.int .int 15))
      = .ok ⟨"age", .str "Le champ age doit être d'au moins 18"⟩ :=
  ⟨rfl,
   C3_first_failure_wins exampleEnv noNested "fr" []
     (Field.mk (some "age") (some "min:18|max:10") (.int .int 15))
     [] ["max:10"] "min:18" "min.numeric" ["18"] rfl rfl rfl (by simp) rfl⟩

/-- C4. A field whose value is empty and whose chain has a directive named `required`,
none of them with a custom message, gets the rendered `required` template, and the
rendered `bool` template when the field is boolean; under the locale `fr` these are
the two French templates filled with the field name. -/
theorem C4_required_on_empty (env : Env)
    (nested : Target → Except Fault (Option GoMap)) (locale : String) (fields : List Field)
    (f : Field) (hv : isEmpty f.value = true)
    (hreq : ∃ seg ∈ split (tagGet f.validate) '|', (env.getRuleAndMsg seg).1 = "required")
    (hmsg : ∀ seg ∈ split (tagGet f.validate) '|',
      (env.getRuleAndMsg seg).1 = "required" → (env.getRuleAndMsg seg).2 = "") :
    validateStruct env nested locale fields f
      = (do let t ← getMessage env locale (if isBoolKind f.value then "bool" else "required")
            pure ⟨tagGet f.json, .str (sprintf t [env.formatFieldName (tagGet f.json)])⟩) ∧
    (toLower locale = "fr" →
      validateStruct env nested locale fields f
        = .ok ⟨tagGet f.json, .str (sprintf
            (if isBoolKind f.value then "Le champ %s doit être vrai."
             else "Le champ %s est requis.") [env.formatFieldName (tagGet f.json)])⟩) := by
  obtain ⟨pre, seg, post, hc, hs, hp⟩ := exists_first_required env _ hreq
  have hcustom : (env.getRuleAndMsg seg).2 = "" := by
    apply hmsg seg _ hs
    rw [hc]; simp
  have hval : validateStruct env nested locale fields f
      = (do let t ← getMessage env locale (if isBoolKind f.value then "bool" else "required")
            pure ⟨tagGet f.json, .str (sprintf t [env.formatFieldName (tagGet f.json)])⟩) := by
    unfold validateStruct
    rw [hc, ruleLoop_required_empty _ _ _ _ _ _ _ _ _ _ hv hs hp, hcustom]
    by_cases hb : isBoolKind f.value = true
    · simp only [hb, if_true]
      cases hg : getMessage env locale "bool" <;>
        simp [setMessage, Msg.isNotEmptyString, render, hg, bind, Except.bind, pure, Except.pure]
    · simp only [hb]
      cases hg : getMessage env locale "required" <;>
        simp [setMessage, Msg.isNotEmptyString, render, hg, bind, Except.bind, pure, Except.pure]
  refine ⟨hval, ?_⟩
  intro hfr
  rw [hval]
  by_cases hb : isBoolKind f.value = true
  · simp only [hb, if_true]
    have hg : getMessage env locale "bool" = .ok "Le champ %s doit être vrai." := by
      unfold getMessage
      simp only [hfr, if_true]
      rfl
    simp [hg, bind, Except.bind, pure, Except.pure]
  · simp only [hb]
    have hg : getMessage env locale "required" = .ok "Le champ %s est requis." := by
      unfold getMessage
      simp only [hfr, if_true]
      rfl
    simp [hg, bind, Except.bind, pure, Except.pure]

/-- C4 at two concrete fields under the locale `fr`: an empty text and the boolean
`false`, both with the chain `email|required`. -/
theorem C4_required_on_empty_witness :
    (validateStruct exampleEnv noNested "fr" []
        (Field.mk (some "name") (some "email|required") (.str ""))
      = .ok ⟨"name", .str "Le champ name est requis."⟩) ∧
    (validateStruct exampleEnv noNested "fr" []
        (Field.mk (some "terms") (some "email|required") (.bool false))
      = .ok ⟨"terms", .str "Le champ terms doit être vrai."⟩) :=
  ⟨(C4_required_on_empty exampleEnv noNested "fr" []
      (Field.mk (some "name") (some "email|required") (.str "")) rfl
      ⟨"required", by decide, rfl⟩ (fun _ _ _ => rfl)).2 rfl,
   (C4_required_on_empty exampleEnv noNested "fr" []
      (Field.mk (some "terms") (some "email|required") (.bool false)) rfl
      ⟨"required", by decide, rfl⟩ (fun _ _ _ => rfl)).2 rfl⟩

/-- C5 as stated fails. A non-empty sequence of two nested records, each with an empty
required `name`, and the directives `slice:max:1` and `required`: with `required`
second the outcome is the `max.slice` message, with `required` first it is the nested
result, because the directive `required` itself runs the nested validation. -/
theorem C5_required_position_counterexample :
    validateStruct exampleEnv (validateDepth exampleEnv "fr" 0) "fr" []
      (Field.mk (some "items") (some "slice:max:1|required")
        (.refs "[]*Item" [.struct [Field.mk (some "name") (some "required") (.str "")],
                          .struct [Field.mk (some "name") (some "required") (.str "")]]))
      = .ok ⟨"items", .str "Le champ items ne doit pas contenir plus de 1 éléments."⟩ ∧
    validateStruct exampleEnv (validateDepth exampleEnv "fr" 0) "fr" []
      (Field.mk (some "items") (some "required|slice:max:1")
        (.refs "[]*Item" [.struct [Field.mk (some "name") (some "required") (.str "")],
                          .struct [Field.mk (some "name") (some "required") (.str "")]]))
      = .ok ⟨"items", .map
          [("items.0", .map [("name", .str "Le champ name est requis.")]),
           ("items.1", .map [("name", .str "Le champ name est requis.")])]⟩ ∧
    validateStruct exampleEnv (validateDepth exampleEnv "fr" 0) "fr" []
      (Field.mk (some "items") (some "slice:max:1|required")
        (.refs "[]*Item" [.struct [Field.mk (some "name") (some "required") (.str "")],
                          .struct [Field.mk (some "name") (some "required") (.str "")]]))
      ≠ validateStruct exampleEnv (validateDepth exampleEnv "fr" 0) "fr" []
      (Field.mk (some "items") (some "required|slice:max:1")
        (.refs "[]*Item" [.struct [Field.mk (some "name") (some "required") (.str "")],
                          .struct [Field.mk (some "name") (some "required") (.str "")]])) := by
  refine ⟨rfl, rfl, ?_⟩
  intro h
  have h1 : validateStruct exampleEnv (validateDepth exampleEnv "fr" 0) "fr" []
      (Field.mk (some "items") (some "slice:max:1|required")
        (.refs "[]*Item" [.struct [Field.mk (some "name") (some "required") (.str "")],
                          .struct [Field.mk (some "name") (some "required") (.str "")]]))
      = .ok ⟨"items", .str "Le champ items ne doit pas contenir plus de 1 éléments."⟩ := rfl
  have h2 : validateStruct exampleEnv (validateDepth exampleEnv "fr" 0) "fr" []
      (Field.mk (some "items") (some "required|slice:max:1")
        (.refs "[]*Item" [.struct [Field.mk (some "name") (some "required") (.str "")],
                          .struct [Field.mk (some "name") (some "required") (.str "")]]))
      = .ok ⟨"items", .map
          [("items.0", .map [("name", .str "Le champ name est requis.")]),
           ("items.1", .map [("name", .str "Le champ name est requis.")])]⟩ := rfl
  rw [h1, h2] at h
  simp at h

/-- C5, amended. For every field value other than a non-empty sequence of nested
records and every chain with exactly one directive named `required`, moving that
directive to any other position leaves the outcome of the field unchanged. -/
theorem C5_required_position_free (env : Env)
    (nested : Target → Except Fault (Option GoMap)) (locale : String) (fields : List Field)
    (f g : Field) (pre post pre2 post2 : List String) (r : String)
    (hjson : g.json = f.json) (hvalue : g.value = f.value)
    (hf : split (tagGet f.validate) '|' = pre ++ r :: post)
    (hg : split (tagGet g.validate) '|' = pre2 ++ r :: post2)
    (hmove : pre2 ++ post2 = pre ++ post)
    (hr : (env.getRuleAndMsg r).1 = "required")
    (hone : ∀ s ∈ pre ++ post, (env.getRuleAndMsg s).1 ≠ "required")
    (hv : isNestedSeq f.value = true → isEmpty f.value = true) :
    validateStruct env nested locale fields g = validateStruct env nested locale fields f := by
  unfold validateStruct
  rw [hjson, hvalue, hf, hg]
  have hpre : ∀ s ∈ pre, (env.getRuleAndMsg s).1 ≠ "required" :=
    fun s hs => hone s (List.mem_append_left _ hs)
  have hpre2 : ∀ s ∈ pre2, (env.getRuleAndMsg s).1 ≠ "required" := by
    intro s hs
    apply hone s
    rw [← hmove]
    exact List.mem_append_left _ hs
  by_cases he : isEmpty f.value = true
  · rw [ruleLoop_required_empty _ _ _ _ _ _ _ _ _ _ he hr hpre,
      ruleLoop_required_empty _ _ _ _ _ _ _ _ _ _ he hr hpre2]
  · have he0 : isEmpty f.value = false := by simpa using he
    by_cases hptr : ∃ ty t, f.value = .ref ty t
    · obtain ⟨ty, t, hval⟩ := hptr
      rw [hval]
      have hconst := ruleStep_ref_const env nested locale fields ty t (tagGet f.json)
        (env.formatFieldName (tagGet f.json))
      cases pre2 with
      | nil =>
        cases pre with
        | nil => exact ruleLoop_const_step _ _ _ _ _ _ _ hconst _ _ _ _
        | cons a p => exact ruleLoop_const_step _ _ _ _ _ _ _ hconst _ _ _ _
      | cons b q =>
        cases pre with
        | nil => exact ruleLoop_const_step _ _ _ _ _ _ _ hconst _ _ _ _
        | cons a p => exact ruleLoop_const_step _ _ _ _ _ _ _ hconst _ _ _ _
    · have hseq : isNestedSeq f.value = false := by
        cases hs : isNestedSeq f.value with
        | false => rfl
        | true => exact absurd (hv hs) he
      have hnone := ruleStep_required_nonempty env nested locale fields f.value (tagGet f.json)
        (env.formatFieldName (tagGet f.json)) r he0 hr hseq
        (fun ty t hval => hptr ⟨ty, t, hval⟩)
      rw [ruleLoop_remove _ _ _ _ _ _ _ _ _ _ hnone, ruleLoop_remove _ _ _ _ _ _ _ _ _ _ hnone,
        hmove]

/-- C5 at a concrete field: the empty text with `required` last and with `required`
first gets the same outcome. -/
theorem C5_required_position_free_witness :
    validateStruct exampleEnv noNested "fr" []
        (Field.mk (some "email") (some "required|email|min:3") (.str ""))
      = validateStruct exampleEnv noNested "fr" []
        (Field.mk (some "email") (some "email|min:3|required") (.str "")) :=
  C5_required_position_free exampleEnv noNested "fr" []
    (Field.mk (some "email") (some "email|min:3|required") (.str ""))
    (Field.mk (some "email") (some "required|email|min:3") (.str ""))
    ["email", "min:3"] [] [] ["email", "min:3"] "required"
    rfl rfl rfl rfl rfl rfl (by decide) (by decide)

/-- C6. A field whose value is empty and whose chain has no directive named `required`
gets the pass message, whatever the other directives are. -/
theorem C6_empty_optional_passes (env : Env)
    (nested : Target → Except Fault (Option GoMap)) (locale : String) (fields : List Field)
    (f : Field) (hv : isEmpty f.value = true)
    (hr : ∀ seg ∈ split (tagGet f.validate) '|', (env.getRuleAndMsg seg).1 ≠ "required") :
    validateStruct env nested locale fields f = .ok ⟨tagGet f.json, .str ""⟩ := by
  unfold validateStruct
  have h := ruleLoop_skip env nested locale fields f.value (tagGet f.json)
    (env.formatFieldName (tagGet f.json)) (split (tagGet f.validate) '|') []
    (fun s hs => ruleStep_empty_other env nested locale fields f.value _ _ s hv (hr s hs))
  rw [List.append_nil] at h
  rw [h, ruleLoop_nil]

/-- C6 at the scenario of the specification: the empty text with the chain `email`. -/
theorem C6_empty_optional_passes_witness :
    validateStruct exampleEnv noNested "fr" []
      (Field.mk (some "email") (some "email") (.str "")) = .ok ⟨"email", .str ""⟩ :=
  C6_empty_optional_passes exampleEnv noNested "fr" []
    (Field.mk (some "email") (some "email") (.str "")) rfl (by decide)

/-- C7 as stated fails. The text sequence `["ab1", "ab"]` with the chain `alpha|min:3`:
both elements violate a directive of the chain (`ab1` is not alphabetic, `ab` is
shorter than 3), and the list outcome holds one message, that of `ab1` for `alpha`;
`ab`, which passes `alpha` and violates `min:3`, is not reported. -/
theorem C7_sequence_count_counterexample :
    validateStruct exampleEnv noNested "fr" []
      (Field.mk (some "tags") (some "alpha|min:3") (.strs ["ab1", "ab"]))
      = .ok ⟨"tags", .list [.str "Le champ tags (1) ne peut contenir que des lettres."]⟩ ∧
    (["ab1", "ab"].filter (elemViolatesSome exampleEnv [] ["alpha", "min:3"])).length = 2 ∧
    [Msg.str "Le champ tags (1) ne peut contenir que des lettres."].length
      ≠ (["ab1", "ab"].filter (elemViolatesSome exampleEnv [] ["alpha", "min:3"])).length :=
  ⟨rfl, rfl, by decide⟩

/-- C7, amended. For every sequence-of-text field whose outcome is a list, the number
of messages equals the number of elements that violate the first directive, in chain
order, that some element violates; no element violates a directive before it, and the
elements that violate only a later directive are not counted. -/
theorem C7_sequence_count_first_violated_directive (env : Env)
    (nested : Target → Except Fault (Option GoMap)) (locale : String) (fields : List Field)
    (json validate : Option String) (xs : List String) (k : String) (msgs : List Msg)
    (h : validateStruct env nested locale fields (Field.mk json validate (.strs xs))
      = .ok ⟨k, .list msgs⟩) :
    ∃ pre d post, split (tagGet validate) '|' = pre ++ d :: post ∧
      (∀ s ∈ pre, ∀ x ∈ xs, elemViolates env fields (env.getRuleAndMsg s).1 x = false) ∧
      (∃ x ∈ xs, elemViolates env fields (env.getRuleAndMsg d).1 x = true) ∧
      msgs.length = (xs.filter (elemViolates env fields (env.getRuleAndMsg d).1)).length := by
  unfold validateStruct at h
  obtain ⟨pre, d, post, hc, _, hm, hpre, hd⟩ :=
    ruleLoop_strs_list env nested locale fields xs _ _ _ k msgs h
  have hlen := collectMsgs_length env locale _ _ _ xs 1 msgs hd
  have hlen2 : msgs.length = (xs.filter (elemViolates env fields (env.getRuleAndMsg d).1)).length :=
    hlen
  refine ⟨pre, d, post, hc, ?_, ?_, hlen2⟩
  · intro s hs x hx
    have h0 := collectMsgs_length env locale _ _ _ xs 1 [] (hpre s hs)
    have h1 : (xs.filter (elemViolates env fields (env.getRuleAndMsg s).1)).length = 0 :=
      h0.symm
    have h2 := List.length_eq_zero.mp h1
    have h3 := (List.filter_eq_nil_iff.mp h2) x hx
    simpa using h3
  · have hpos : 0 < (xs.filter (elemViolates env fields (env.getRuleAndMsg d).1)).length := by
      rw [← hlen2]
      exact List.length_pos.mpr hm
    obtain ⟨x, hx⟩ := List.exists_mem_of_length_pos hpos
    have hx2 := List.mem_filter.mp hx
    exact ⟨x, hx2.1, hx2.2⟩

/-- C7, amended, at the sequence `["ab1", "ab", "c2"]` with the chain `alpha|min:3`: the
two messages are those of the two elements that are not alphabetic. -/
theorem C7_sequence_count_first_violated_directive_witness :
    ∃ pre d post, split (tagGet (some "alpha|min:3")) '|' = pre ++ d :: post ∧
      (∀ s ∈ pre, ∀ x ∈ ["ab1", "ab", "c2"],
        elemViolates exampleEnv [] (exampleEnv.getRuleAndMsg s).1 x = false) ∧
      (∃ x ∈ ["ab1", "ab", "c2"],
        elemViolates exampleEnv [] (exampleEnv.getRuleAndMsg d).1 x = true) ∧
      [Msg.str "Le champ tags (1) ne peut contenir que des lettres.",
       Msg.str "Le champ tags (3) ne peut contenir que des lettres."].length
        = (["ab1", "ab", "c2"].filter
            (elemViolates exampleEnv [] (exampleEnv.getRuleAndMsg d).1)).length :=
  C7_sequence_count_first_violated_directive exampleEnv noNested "fr" []
    (some "tags") (some "alpha|min:3") ["ab1", "ab", "c2"] "tags"
    [.str "Le champ tags (1) ne peut contenir que des lettres.",
     .str "Le champ tags (3) ne peut contenir que des lettres."] rfl

/-- C8 (code defect). The claim says an integer element gets a message exactly when
it is itself below the bound. The loop of the code hands the whole sequence to the
predicate, which compares its length: for `[1, 100]` and `min:5` both elements are
reported (the length 2 is below 5), for `[1, 2, 3, 4, 5, 6]` none is (the length is 6). -/
theorem C8_integer_elements_judged_by_length :
    validateStruct exampleEnv noNested "fr" []
      (Field.mk (some "nums") (some "min:5") (.ints .int [1, 100]))
      = .ok ⟨"nums", .list [.str "Le champ nums (1) doit être d'au moins 5",
                            .str "Le champ nums (2) doit être d'au moins 5"]⟩ ∧
    validateStruct exampleEnv noNested "fr" []
      (Field.mk (some "nums") (some "min:5") (.ints .int [1, 2, 3, 4, 5, 6]))
      = .ok ⟨"nums", .str ""⟩ :=
  ⟨rfl, rfl⟩

/-- C9. For every sequence-of-text field whose outcome is a list, the messages are
those of one directive of the chain at strictly increasing positions of the sequence:
each message reports the element at its position, and a message that comes earlier in
the list reports an element of smaller index. -/
theorem C9_sequence_messages_in_index_order (env : Env)
    (nested : Target → Except Fault (Option GoMap)) (locale : String) (fields : List Field)
    (json validate : Option String) (xs : List String) (k : String) (msgs : List Msg)
    (h : validateStruct env nested locale fields (Field.mk json validate (.strs xs))
      = .ok ⟨k, .list msgs⟩) :
    ∃ d ∈ split (tagGet validate) '|', ∃ idxs : List Nat,
      idxs.Pairwise (· < ·) ∧
      List.Forall₂ (reportsElement env locale fields (env.getRuleAndMsg d).1
        (.str (env.getRuleAndMsg d).2) (env.formatFieldName (tagGet json)) xs) idxs msgs := by
  unfold validateStruct at h
  obtain ⟨pre, d, post, hc, _, _, _, hd⟩ :=
    ruleLoop_strs_list env nested locale fields xs _ _ _ k msgs h
  obtain ⟨idxs, hp, _, hf⟩ := collectMsgs_order env locale _ _ _ xs 1 msgs hd
  refine ⟨d, by simp [Field.validate] at hc; simp [hc], idxs, hp, ?_⟩
  refine List.Forall₂.imp ?_ hf
  intro j m ⟨x, ruleKey, values, hj, hx, hdir, hg⟩
  exact ⟨x, ruleKey, values, hj, hx, hdir, hg⟩

/-- C9 at the sequence `["ab1", "ab", "c2"]` with the chain `alpha`: the messages of
the positions 1 and 3, in this order. -/
theorem C9_sequence_messages_in_index_order_witness :
    ∃ d ∈ split (tagGet (some "alpha")) '|', ∃ idxs : List Nat,
      idxs.Pairwise (· < ·) ∧
      List.Forall₂ (reportsElement exampleEnv "fr" [] (exampleEnv.getRuleAndMsg d).1
        (.str (exampleEnv.getRuleAndMsg d).2) (exampleEnv.formatFieldName (tagGet (some "tags")))
        ["ab1", "ab", "c2"]) idxs
        [.str "Le champ tags (1) ne peut contenir que des lettres.",
         .str "Le champ tags (3) ne peut contenir que des lettres."] :=
  C9_sequence_messages_in_index_order exampleEnv noNested "fr" []
    (some "tags") (some "alpha") ["ab1", "ab", "c2"] "tags"
    [.str "Le champ tags (1) ne peut contenir que des lettres.",
     .str "Le champ tags (3) ne peut contenir que des lettres."] rfl

/-- C11. `getMessage` selects the table by the lower-cased locale tag, with a default:
for the four spellings `fr`, `FR`, `Fr`, `fR` the template is looked up in the French
table, for every other tag, the empty tag included, in the English table; two tags
that are equal after lower-casing give the same template. -/
theorem C11_locale_case_insensitive (env : Env) (locale rule : String) :
    (locale ∈ ["fr", "FR", "Fr", "fR"] →
      getMessage env locale rule = lookupTemplate FR rule) ∧
    (locale ∉ ["fr", "FR", "Fr", "fR"] →
      getMessage env locale rule = lookupTemplate env.EN rule) ∧
    getMessage env "" rule = lookupTemplate env.EN rule ∧
    (∀ other : String, toLower other = toLower locale →
      getMessage env other rule = getMessage env locale rule) := by
  refine ⟨?_, ?_, rfl, ?_⟩
  · intro h
    rw [getMessage_eq_lookup, if_pos ((toLower_eq_fr locale).mpr h)]
  · intro h
    rw [getMessage_eq_lookup, if_neg (fun hfr => h ((toLower_eq_fr locale).mp hfr))]
  · intro other h
    rw [getMessage_eq_lookup, getMessage_eq_lookup, h]

/-- C11 at the tags `Fr` and `de` for the key `min.numeric`. -/
theorem C11_locale_case_insensitive_witness :
    getMessage exampleEnv "Fr" "min.numeric" = .ok "Le champ %s doit être d'au moins %s" ∧
    getMessage exampleEnv "de" "min.numeric" = lookupTemplate exampleEnv.EN "min.numeric" ∧
    getMessage exampleEnv "FR" "required" = getMessage exampleEnv "fr" "required" :=
  ⟨(C11_locale_case_insensitive exampleEnv "Fr" "min.numeric").1 (by decide),
   (C11_locale_case_insensitive exampleEnv "de" "min.numeric").2.1 (by decide),
   (C11_locale_case_insensitive exampleEnv "fr" "required").2.2.2 "FR" (by decide)⟩

/-- C12. The scenario of the specification: an integer field `age = 15` with the chain
`required|min:18` under the locale `fr`, its name shown as `age`, fails with the French
`min.numeric` template filled with `age` and `18`. The two segments carry no custom
message. -/
theorem C12_age_below_minimum (env : Env) (nested : Target → Except Fault (Option GoMap))
    (fields : List Field) (k : IntKind)
    (hreq : env.getRuleAndMsg "required" = ("required", ""))
    (hmin : env.getRuleAndMsg "min:18" = ("min:18", ""))
    (hname : env.formatFieldName "age" = "age") :
    validateStruct env nested "fr" fields
        (Field.mk (some "age") (some "required|min:18") (.int k 15))
      = .ok ⟨"age", .str "Le champ age doit être d'au moins 18"⟩ ∧
    lookupTemplate FR "min.numeric" = .ok "Le champ %s doit être d'au moins %s" ∧
    sprintf "Le champ %s doit être d'au moins %s" ["age", "18"]
      = "Le champ age doit être d'au moins 18" := by
  refine ⟨?_, rfl, by decide⟩
  have hsplit : split "required|min:18" '|' = ["required"] ++ "min:18" :: [] := by decide
  show ruleLoop env nested "fr" fields (.int k 15) "age" (env.formatFieldName "age")
    (split "required|min:18" '|') = _
  rw [hsplit, hname, ruleLoop_skip]
  · apply ruleLoop_cons_some
    rw [ruleStep_scalar env nested "fr" fields (.int k 15) "age" "age" "min:18" rfl rfl, hmin]
    rfl
  · intro s hs
    simp only [List.mem_singleton] at hs
    subst hs
    exact ruleStep_required_nonempty env nested "fr" fields _ _ _ "required" rfl
      (by rw [hreq]) rfl (fun _ _ h => by cases h)

/-- C12 with the example helpers, at the level of the record: the error map binds
`age` to the French message. -/
theorem C12_age_below_minimum_witness :
    exampleEnv.getRuleAndMsg "required" = ("required", "") ∧
    exampleEnv.getRuleAndMsg "min:18" = ("min:18", "") ∧
    exampleEnv.formatFieldName "age" = "age" ∧
    validateStruct exampleEnv noNested "fr" []
        (Field.mk (some "age") (some "required|min:18") (.int .int 15))
      = .ok ⟨"age", .str "Le champ age doit être d'au moins 18"⟩ ∧
    structValidator exampleEnv noNested "fr"
        [Field.mk (some "age") (some "required|min:18") (.int .int 15)]
      = .ok (some [("age", .str "Le champ age doit être d'au moins 18")]) :=
  ⟨rfl, rfl, rfl,
   (C12_age_below_minimum exampleEnv noNested [] .int rfl rfl rfl).1,
   rfl⟩

/-- C13. `isNotEmail` reports a violation for every string shorter than 6 or longer
than 254 bytes, without `@`, with its last `@` at position 0, with more than 64 bytes
before its last `@`, or whose part after the last `@` is `localhost`, `localhost.com`
or `example.com`. In particular `a@example.com` under `required|email` (segments
without custom message) gets the email message. -/
theorem C13_email_violations (env : Env) (s : String) :
    (goLen s < 6 → isNotEmail env s = true) ∧
    (goLen s > 254 → isNotEmail env s = true) ∧
    ('@' ∉ s.data → isNotEmail env s = true) ∧
    (∀ l d : List Char, s.data = l ++ '@' :: d → '@' ∉ d →
      (byteLen l = 0 ∨ byteLen l > 64 ∨
        String.mk d ∈ ["localhost", "localhost.com", "example.com"]) →
      isNotEmail env s = true) ∧
    (∀ (nested : Target → Except Fault (Option GoMap)) (locale : String) (fields : List Field)
      (json : String),
      env.getRuleAndMsg "required" = ("required", "") →
      env.getRuleAndMsg "email" = ("email", "") →
      validateStruct env nested locale fields
          (Field.mk (some json) (some "required|email") (.str "a@example.com"))
        = setMessage env locale "email" (.str "") json (env.formatFieldName json) []) := by
  refine ⟨?_, ?_, isNotEmail_no_at env s, ?_, ?_⟩
  · intro h
    simp [isNotEmail, h]
  · intro h
    simp [isNotEmail, h]
  · intro l d hs hd h
    rw [isNotEmail_of_cut env s l d hs hd]
    rcases h with h | h | h
    · simp [h]
    · simp [h]
    · rw [decide_eq_true h]
      simp
  · intro nested locale fields json hreq hmail
    have hsplit : split "required|email" '|' = ["required"] ++ "email" :: [] := by decide
    show ruleLoop env nested locale fields (.str "a@example.com") json
      (env.formatFieldName json) (split "required|email" '|') = _
    rw [hsplit, ruleLoop_skip]
    · cases hm : setMessage env locale "email" (.str "") json (env.formatFieldName json) [] with
      | error e =>
        apply ruleLoop_cons_error
        rw [ruleStep_scalar env nested locale fields (.str "a@example.com") _ _ "email" rfl rfl,
          hmail]
        show (do let m ← setMessage env locale "email" (.str "") json
                   (env.formatFieldName json) []
                 pure (some m) : Except Fault (Option Message)) = _
        rw [hm]; rfl
      | ok m =>
        apply ruleLoop_cons_some
        rw [ruleStep_scalar env nested locale fields (.str "a@example.com") _ _ "email" rfl rfl,
          hmail]
        show (do let m ← setMessage env locale "email" (.str "") json
                   (env.formatFieldName json) []
                 pure (some m) : Except Fault (Option Message)) = _
        rw [hm]; rfl
    · intro r hr
      simp only [List.mem_singleton] at hr
      subst hr
      exact ruleStep_required_nonempty env nested locale fields _ _ _ "required" rfl
        (by rw [hreq]) rfl (fun _ _ h => by cases h)

/-- C13 at the scenario of the specification under the locale `fr`. -/
theorem C13_email_violations_witness :
    isNotEmail exampleEnv "a@example.com" = true ∧
    validateStruct exampleEnv noNested "fr" []
        (Field.mk (some "email") (some "required|email") (.str "a@example.com"))
      = .ok ⟨"email", .str "Le champ email doit être une adresse email valide."⟩ :=
  ⟨(C13_email_violations exampleEnv "a@example.com").2.2.2.1 "a".data "example.com".data
      (by decide) (by decide) (Or.inr (Or.inr (by decide))),
   (C13_email_violations exampleEnv "a@example.com").2.2.2.2 noNested "fr" [] "email" rfl rfl⟩
/-- C14 as stated fails. In `john@io` two bytes follow the last `@`, fewer than three,
and `isNotEmail` reports no violation when `mail.ParseAddress` accepts the
address. -/
theorem C14_email_domain_counterexample :
    "john@io".data = "john".data ++ '@' :: "io".data ∧ '@' ∉ "io".data ∧
    byteLen "io".data = 2 ∧
    exampleEnv.parseAddress "john@io" = true ∧
    isNotEmail exampleEnv "john@io" = false :=
  ⟨by decide, by decide, by decide, rfl, by decide⟩

/-- C14, amended. `isNotEmail` requires at least 2 bytes after the last `@`: every
string in which fewer than 2 bytes follow the last `@` is a violation; with 2 bytes or
more after it, a length of 6 to 254 bytes, 1 to 64 bytes before it and a part after it
that is not a placeholder domain, the verdict is that of `mail.ParseAddress`. -/
theorem C14_email_domain_two_bytes (env : Env) (s : String) (l d : List Char)
    (hs : s.data = l ++ '@' :: d) (hd : '@' ∉ d) :
    (byteLen d < 2 → isNotEmail env s = true) ∧
    (2 ≤ byteLen d → 6 ≤ goLen s → goLen s ≤ 254 → 1 ≤ byteLen l → byteLen l ≤ 64 →
      String.mk d ∉ ["localhost", "localhost.com", "example.com"] →
      isNotEmail env s = !env.parseAddress s) := by
  have hlen := goLen_cut s l d hs
  rw [isNotEmail_of_cut env s l d hs hd]
  constructor
  · intro h
    have h2 : (byteLen l : Int) ≤ 0 ∨ (byteLen l : Int) > (goLen s : Int) - 3 := by
      right; omega
    rw [decide_eq_true h2]
    simp
  · intro h2 h6 h254 h1 h64 hdeny
    have e1 : ¬ (goLen s < 6 ∨ goLen s > 254) := by omega
    have e2 : ¬ ((byteLen l : Int) ≤ 0 ∨ (byteLen l : Int) > (goLen s : Int) - 3) := by omega
    have e4 : ¬ (byteLen l > 64) := by omega
    rw [decide_eq_false e1, decide_eq_false e2, decide_eq_false hdeny, decide_eq_false e4]
    rfl

/-- C14, amended, at `john@i`, where one byte follows the `@`. -/
theorem C14_email_domain_two_bytes_witness :
    "john@i".data = "john".data ++ '@' :: "i".data ∧ '@' ∉ "i".data ∧
    byteLen "i".data < 2 ∧ isNotEmail exampleEnv "john@i" = true :=
  ⟨by decide, by decide, by decide,
   (C14_email_domain_two_bytes exampleEnv "john@i" "john".data "i".data (by decide)
      (by decide)).1 (by decide)⟩

/-- C15. `isNotPhone` is the negation of a match of `^0\d{9}$` and accepts a string iff
it consists of exactly 10 ASCII decimal digits the first of which is `0`;
`isNotPhoneWithCode` is the negation of a match of `^\+\d{12}$` and accepts a string
iff it is `+` followed by exactly 12 ASCII decimal digits. Every other string is a
violation. -/
theorem C15_phone_shapes (s : String) :
    isNotPhone s = !matchWhole phoneRe s.data ∧
    isNotPhoneWithCode s = !matchWhole phoneWithCodeRe s.data ∧
    (isNotPhone s = false ↔
      s.data.length = 10 ∧ s.data.head? = some '0' ∧ ∀ c ∈ s.data, c.isDigit = true) ∧
    (isNotPhoneWithCode s = false ↔
      ∃ t, s.data = '+' :: t ∧ t.length = 12 ∧ ∀ c ∈ t, c.isDigit = true) := by
  refine ⟨?_, ?_, ?_, ?_⟩
  · simp [isNotPhone, matchPhone_eq_re]
  · simp [isNotPhoneWithCode, matchPhoneWithCode_eq_re]
  · have hp : isNotPhone s = false ↔ matchPhone s.data = true := by simp [isNotPhone]
    rw [hp]
    unfold matchPhone
    cases h : s.data with
    | nil => simp
    | cons c t =>
      simp only [Bool.and_eq_true, decide_eq_true_eq, List.all_eq_true,
        List.length_cons, List.head?_cons, Option.some.injEq, List.mem_cons]
      constructor
      · rintro ⟨⟨hc, hl⟩, hd⟩
        refine ⟨by omega, hc, ?_⟩
        rintro x (hx | hx)
        · subst hx; subst hc; decide
        · exact hd x hx
      · rintro ⟨hl, hc, hd⟩
        exact ⟨⟨hc, by omega⟩, fun x hx => hd x (Or.inr hx)⟩
  · have hp : isNotPhoneWithCode s = false ↔ matchPhoneWithCode s.data = true := by
      simp [isNotPhoneWithCode]
    rw [hp]
    unfold matchPhoneWithCode
    cases h : s.data with
    | nil => simp
    | cons c t =>
      simp only [Bool.and_eq_true, decide_eq_true_eq, List.all_eq_true,
        List.cons.injEq]
      constructor
      · rintro ⟨⟨hc, hl⟩, hd⟩
        exact ⟨t, ⟨hc, rfl⟩, hl, hd⟩
      · rintro ⟨t2, ⟨hc, ht⟩, hl, hd⟩
        subst ht
        exact ⟨⟨hc, hl⟩, hd⟩

/-- C15 at concrete numbers: a local number and one with a country code are accepted,
a local number with a leading blank or a trailing digit is not. -/
theorem C15_phone_shapes_witness :
    isNotPhone "0241234567" = false ∧
    isNotPhone " 0241234567" = true ∧
    isNotPhone "02412345678" = true ∧
    isNotPhoneWithCode "+233241234567" = false ∧
    isNotPhoneWithCode "+233241234567 " = true :=
  ⟨(C15_phone_shapes "0241234567").2.2.1.mpr (by decide),
   by decide, by decide,
   (C15_phone_shapes "+233241234567").2.2.2.mpr ⟨"233241234567".data, by decide⟩,
   by decide⟩
/-- C16. `isNotUsername` is `isNotEmail` when the string contains `@`, otherwise
`isNotPhoneWithCode` when it starts with `+`, otherwise `isNotPhone`; consequently a
string is accepted as a username iff at least one of the three accepts it. -/
theorem C16_username_delegates (env : Env) (s : String) :
    (containsChar s '@' = true → isNotUsername env s = isNotEmail env s) ∧
    (containsChar s '@' = false → startsWith s "+" = true →
      isNotUsername env s = isNotPhoneWithCode s) ∧
    (containsChar s '@' = false → startsWith s "+" = false →
      isNotUsername env s = isNotPhone s) ∧
    (isNotUsername env s = false ↔
      isNotEmail env s = false ∨ isNotPhoneWithCode s = false ∨ isNotPhone s = false) := by
  have d1 : containsChar s '@' = true → isNotUsername env s = isNotEmail env s := by
    intro h; simp [isNotUsername, h]
  have d2 : containsChar s '@' = false → startsWith s "+" = true →
      isNotUsername env s = isNotPhoneWithCode s := by
    intro h1 h2; simp [isNotUsername, h1, h2]
  have d3 : containsChar s '@' = false → startsWith s "+" = false →
      isNotUsername env s = isNotPhone s := by
    intro h1 h2; simp [isNotUsername, h1, h2]
  refine ⟨d1, d2, d3, ?_⟩
  constructor
  · intro h
    cases hat : containsChar s '@' with
    | true => rw [d1 hat] at h; exact Or.inl h
    | false =>
      cases hplus : startsWith s "+" with
      | true => rw [d2 hat hplus] at h; exact Or.inr (Or.inl h)
      | false => rw [d3 hat hplus] at h; exact Or.inr (Or.inr h)
  · rintro (h | h | h)
    · rw [d1 (isNotEmail_false_has_at env s h)]; exact h
    · obtain ⟨h1, h2⟩ := isNotPhoneWithCode_false_shape s h
      rw [d2 h1 h2]; exact h
    · obtain ⟨h1, h2⟩ := isNotPhone_false_shape s h
      rw [d3 h1 h2]; exact h

/-- C16 at three usernames: a local number, a number with a country code, and an
address of a placeholder domain, which neither of the three accepts. -/
theorem C16_username_delegates_witness :
    isNotUsername exampleEnv "0241234567" = false ∧
    isNotUsername exampleEnv "+233241234567" = false ∧
    isNotUsername exampleEnv "a@example.com" = true :=
  ⟨(C16_username_delegates exampleEnv "0241234567").2.2.2.mpr (Or.inr (Or.inr (by decide))),
   (C16_username_delegates exampleEnv "+233241234567").2.2.2.mpr (Or.inr (Or.inl (by decide))),
   by decide⟩

/-- C17. `between` has exclusive bounds. For decimal integer parameters `lo` and `hi`
(64-bit, as `strconv` reads them), a signed integer value, and likewise the byte length
of a text value, passes iff it lies strictly between them; a value equal to a bound is
a violation, and when `hi ≤ lo + 1` every value is a violation. -/
theorem C17_between_exclusive (env : Env) (k : IntKind) (v lo hi : Int) (s : String)
    (hlo : -(2 ^ 63 : Int) ≤ lo ∧ lo < 2 ^ 63) (hhi : -(2 ^ 63 : Int) ≤ hi ∧ hi < 2 ^ 63) :
    (isNotBetween env (.int k v) (fmtInt lo) (fmtInt hi) = false ↔ lo < v ∧ v < hi) ∧
    (isNotBetween env (.str s) (fmtInt lo) (fmtInt hi) = false
      ↔ lo < (goLen s : Int) ∧ (goLen s : Int) < hi) ∧
    isNotBetween env (.int k lo) (fmtInt lo) (fmtInt hi) = true ∧
    isNotBetween env (.int k hi) (fmtInt lo) (fmtInt hi) = true ∧
    (hi ≤ lo + 1 →
      isNotBetween env (.int k v) (fmtInt lo) (fmtInt hi) = true ∧
      isNotBetween env (.str s) (fmtInt lo) (fmtInt hi) = true) := by
  have h1 := parseInt_fmtInt lo hlo.1 hlo.2
  have h2 := parseInt_fmtInt hi hhi.1 hhi.2
  refine ⟨?_, ?_, ?_, ?_, ?_⟩
  · simp [isNotBetween, h1, h2]
  · simp [isNotBetween, valueLen, atoi, h1, h2]
  · simp [isNotBetween, h1, h2]
  · simp [isNotBetween, h1, h2]
  · intro h
    constructor
    · simp [isNotBetween, h1, h2]
      omega
    · simp [isNotBetween, valueLen, atoi, h1, h2]
      omega

/-- C17 at `between:1,10`: 5 passes, 1 and 10 are violations, and so is a text of
length 10. -/
theorem C17_between_exclusive_witness :
    isNotBetween exampleEnv (.int .int 5) "1" "10" = false ∧
    isNotBetween exampleEnv (.int .int 1) "1" "10" = true ∧
    isNotBetween exampleEnv (.int .int 10) "1" "10" = true ∧
    isNotBetween exampleEnv (.str "0123456789") "1" "10" = true :=
  have h := C17_between_exclusive exampleEnv .int 5 1 10 "0123456789"
    (by decide) (by decide)
  ⟨h.1.mpr (by decide), h.2.2.1, h.2.2.2.1, by
    have h2 := h.2.1
    cases hb : isNotBetween exampleEnv (.str "0123456789") (fmtInt 1) (fmtInt 10) with
    | true => exact hb
    | false =>
      have := h2.mp hb
      exact absurd this.2 (by decide)⟩

/-- C18. `from` has inclusive bounds and is the conjunction of `min` and `max`: for
every value and all parameter strings, `isNotFrom` is `isNotMin` of the lower bound or
`isNotMax` of the upper bound; hence every text, sequence, signed or unsigned integer
value accepted by `between:lo,hi` is accepted by `from:lo,hi`. -/
theorem C18_from_is_min_and_max (env : Env) (v : Value) (lo hi : String) :
    isNotFrom env v lo hi = (isNotMin env v lo || isNotMax env v hi) ∧
    ((∀ k x, v ≠ .float k x) → isNotBetween env v lo hi = false →
      isNotFrom env v lo hi = false) := by
  constructor
  · cases v <;> simp [isNotFrom, isNotMin, isNotMax, valueLen, Bool.not_and]
  · intro hf hb
    cases v <;>
      simp [isNotFrom, isNotBetween, valueLen] at hb ⊢ <;>
      first
        | omega
        | (rename_i k x; exact absurd rfl (hf k x))

/-- C18 at `from:1,10` and `between:1,10`: the integer 5 is accepted by both, the bound
10 by `from` only. -/
theorem C18_from_is_min_and_max_witness :
    isNotFrom exampleEnv (.int .int 5) "1" "10" = false ∧
    isNotFrom exampleEnv (.int .int 10) "1" "10" = false ∧
    isNotBetween exampleEnv (.int .int 10) "1" "10" = true :=
  ⟨(C18_from_is_min_and_max exampleEnv (.int .int 5) "1" "10").2
      (fun _ _ h => by cases h) (by decide),
   by decide, by decide⟩

/-- C19 as stated fails for an unsigned value and a parameter that carries a sign:
`strconv.ParseUint` rejects the sign and returns 0. The unsigned value 0 does not
violate `max:-1` although 0 > -1, and the unsigned value 3 does not violate `min:+5`
although 3 < 5, which the signed value 3 does. -/
theorem C19_unsigned_signed_parameter_counterexample :
    fmtInt (-1) = "-1" ∧ parseInt "-1" = -1 ∧ parseUint "-1" = 0 ∧
    isNotMax exampleEnv (.uint .uint 0) "-1" = false ∧ ((0 : Int) > -1) ∧
    parseInt "+5" = 5 ∧ parseUint "+5" = 0 ∧
    isNotMin exampleEnv (.uint .uint 3) "+5" = false ∧ ((3 : Int) < 5) ∧
    isNotMin exampleEnv (.int .int 3) "+5" = true :=
  ⟨by decide, by decide, by decide, by decide, by decide, by decide, by decide, by decide,
   by decide, by decide⟩

/-- C19, amended. `min` and `max` are polymorphic over the type class. For a decimal
integer parameter `n` (64-bit, as `strconv` reads it) a text value violates `min` iff its
byte length is below `n` and `max` iff it is above `n`; a signed integer value violates
them iff the value itself is below, respectively above, `n`; an unsigned value does so
for a parameter `m` written without a sign; a length or value equal to the parameter
violates neither. For an unsigned value a parameter `p` that starts with a sign, or with
any rune that is not a digit, is read as 0: `min` is never violated and `max` is
violated iff the value is not 0. -/
theorem C19_min_max_by_type_class (env : Env) (s : String) (k : IntKind) (v n : Int)
    (ku : UintKind) (u m : Nat)
    (hn : -(2 ^ 63 : Int) ≤ n ∧ n < 2 ^ 63) (hm : m ≤ maxUint64) :
    (isNotMin env (.str s) (fmtInt n) = true ↔ (goLen s : Int) < n) ∧
    (isNotMax env (.str s) (fmtInt n) = true ↔ (goLen s : Int) > n) ∧
    (isNotMin env (.int k v) (fmtInt n) = true ↔ v < n) ∧
    (isNotMax env (.int k v) (fmtInt n) = true ↔ v > n) ∧
    (isNotMin env (.uint ku u) (Nat.repr m) = true ↔ u < m) ∧
    (isNotMax env (.uint ku u) (Nat.repr m) = true ↔ u > m) ∧
    isNotMin env (.int k n) (fmtInt n) = false ∧
    isNotMax env (.int k n) (fmtInt n) = false ∧
    isNotMin env (.uint ku m) (Nat.repr m) = false ∧
    isNotMax env (.uint ku m) (Nat.repr m) = false ∧
    ((goLen s : Int) = n →
      isNotMin env (.str s) (fmtInt n) = false ∧ isNotMax env (.str s) (fmtInt n) = false) ∧
    (∀ (p : String) (c : Char) (cs : List Char), p.data = c :: cs → c.isDigit = false →
      parseUint p = 0 ∧ isNotMin env (.uint ku u) p = false ∧
      (isNotMax env (.uint ku u) p = true ↔ 0 < u)) := by
  have h1 := parseInt_fmtInt n hn.1 hn.2
  have h2 := parseUint_repr m hm
  have h3 : ∀ (p : String) (c : Char) (cs : List Char), p.data = c :: cs →
      c.isDigit = false → parseUint p = 0 := by
    intro p c cs hp hc
    simp [parseUint, hp, parseUintLoop, hc]
  refine ⟨?_, ?_, ?_, ?_, ?_, ?_, ?_, ?_, ?_, ?_, ?_, ?_⟩
  · simp [isNotMin, valueLen, atoi, h1]
  · simp [isNotMax, valueLen, atoi, h1]
  · simp [isNotMin, h1]
  · simp [isNotMax, h1]
  · simp [isNotMin, h2]
  · simp [isNotMax, h2]
  · simp [isNotMin, h1]
  · simp [isNotMax, h1]
  · simp [isNotMin, h2]
  · simp [isNotMax, h2]
  · intro h
    simp [isNotMin, isNotMax, valueLen, atoi, h1]
    omega
  · intro p c cs hp hc
    have h0 := h3 p c cs hp hc
    refine ⟨h0, ?_, ?_⟩
    · simp [isNotMin, h0]
    · simp [isNotMax, h0]
      omega

/-- C19, amended, at the parameter 3: the text `ab` violates `min:3` and not `max:3`,
the text `abc` neither; the integer 15 violates `min:18`, and 18 does not; the unsigned
value 7 does not violate `min:-1` and violates `max:-1`. -/
theorem C19_min_max_by_type_class_witness :
    isNotMin exampleEnv (.str "ab") "3" = true ∧
    isNotMax exampleEnv (.str "ab") "3" = false ∧
    isNotMin exampleEnv (.str "abc") "3" = false ∧
    isNotMin exampleEnv (.int .int 15) "18" = true ∧
    isNotMin exampleEnv (.int .int 18) "18" = false ∧
    isNotMin exampleEnv (.uint .uint 7) "-1" = false ∧
    isNotMax exampleEnv (.uint .uint 7) "-1" = true :=
  ⟨(C19_min_max_by_type_class exampleEnv "ab" .int 0 3 .uint 0 0 (by decide) (by decide)).1.mpr
      (by decide),
   by decide, by decide, by decide,
   (C19_min_max_by_type_class exampleEnv "" .int 0 18 .uint 0 0 (by decide)
      (by decide)).2.2.2.2.2.2.1,
   ((C19_min_max_by_type_class exampleEnv "" .int 0 0 .uint 7 0 (by decide)
      (by decide)).2.2.2.2.2.2.2.2.2.2.2 "-1" '-' ['1'] rfl (by decide)).2.1,
   by decide⟩

/-- C20 as stated fails. The parameter `99999999999999999999x` is not a decimal integer
literal, yet `strconv` reports the overflow of its twenty digits before it reaches the
`x` and returns the largest value: the integer 5 violates `min` with this parameter
and does not with the parameter `0`. -/
theorem C20_malformed_parameter_counterexample :
    isDecimalLiteral "99999999999999999999x" = false ∧
    parseInt "99999999999999999999x" = 2 ^ 63 - 1 ∧
    isNotMin exampleEnv (.int .int 5) "99999999999999999999x" = true ∧
    isNotMin exampleEnv (.int .int 5) "0" = false :=
  ⟨by decide, by decide, by decide, by decide⟩

/-- C20, amended. A parameter that is not a decimal integer literal and whose leading
digits, after an optional sign, denote a number below 2^64 is treated as zero: for
every text or signed integer value, `isNotMin`, `isNotMax`, `isNotEqual` and
`isNotSize` return what they return with the parameter `0`. -/
theorem C20_malformed_parameter_is_zero (env : Env) (p s : String) (k : IntKind) (v : Int)
    (hlit : isDecimalLiteral p = false) (hov : decVal (leadingDigits p) 0 ≤ maxUint64) :
    (isNotMin env (.str s) p = isNotMin env (.str s) "0" ∧
     isNotMax env (.str s) p = isNotMax env (.str s) "0" ∧
     isNotEqual env (.str s) p = isNotEqual env (.str s) "0" ∧
     isNotSize env (.str s) p = isNotSize env (.str s) "0") ∧
    (isNotMin env (.int k v) p = isNotMin env (.int k v) "0" ∧
     isNotMax env (.int k v) p = isNotMax env (.int k v) "0" ∧
     isNotEqual env (.int k v) p = isNotEqual env (.int k v) "0" ∧
     isNotSize env (.int k v) p = isNotSize env (.int k v) "0") := by
  have h0 : parseInt p = 0 := parseInt_malformed p hlit hov
  have hz : parseInt "0" = 0 := by decide
  simp [isNotMin, isNotMax, isNotEqual, isNotSize, valueLen, atoi, h0, hz]

/-- C20, amended, at the parameters `abc`, the empty string and `1x`. -/
theorem C20_malformed_parameter_is_zero_witness :
    isNotMin exampleEnv (.int .int 5) "abc" = isNotMin exampleEnv (.int .int 5) "0" ∧
    isNotMax exampleEnv (.str "ab") "" = isNotMax exampleEnv (.str "ab") "0" ∧
    isNotEqual exampleEnv (.int .int 5) "1x" = isNotEqual exampleEnv (.int .int 5) "0" :=
  ⟨(C20_malformed_parameter_is_zero exampleEnv "abc" "" .int 5 (by decide) (by decide)).2.1,
   (C20_malformed_parameter_is_zero exampleEnv "" "ab" .int 5 (by decide) (by decide)).1.2.1,
   (C20_malformed_parameter_is_zero exampleEnv "1x" "" .int 5 (by decide) (by decide)).2.2.2.1⟩

/-- C21. Unrecognised directive names are ignored. For every scalar field value (text,
integer, float, boolean) and every chain, inserting at any position a directive whose
name has no case for the kind of the field leaves the outcome of the field unchanged;
a chain made only of such directives yields the pass outcome, never a fault. -/
theorem C21_unrecognised_directive_ignored (env : Env)
    (nested : Target → Except Fault (Option GoMap)) (locale : String) (fields : List Field)
    (f g : Field) (pre post : List String) (r : String)
    (hk : isScalar f.value = true ∨ isBoolKind f.value = true)
    (hjson : g.json = f.json) (hvalue : g.value = f.value)
    (hf : split (tagGet f.validate) '|' = pre ++ post)
    (hg : split (tagGet g.validate) '|' = pre ++ r :: post)
    (hr : directiveName (env.getRuleAndMsg r).1 ∉ recognisedNames f.value) :
    validateStruct env nested locale fields g = validateStruct env nested locale fields f ∧
    ((∀ s ∈ split (tagGet f.validate) '|',
        directiveName (env.getRuleAndMsg s).1 ∉ recognisedNames f.value) →
      validateStruct env nested locale fields f = .ok ⟨tagGet f.json, .str ""⟩) := by
  constructor
  · unfold validateStruct
    rw [hjson, hvalue, hf, hg]
    exact ruleLoop_remove env nested locale fields f.value _ _ pre post r
      (ruleStep_unrecognised env nested locale fields f.value _ _ r hk hr)
  · intro hall
    unfold validateStruct
    have h := ruleLoop_skip env nested locale fields f.value (tagGet f.json)
      (env.formatFieldName (tagGet f.json)) (split (tagGet f.validate) '|') []
      (fun s hs => ruleStep_unrecognised env nested locale fields f.value _ _ s hk (hall s hs))
    rw [List.append_nil] at h
    rw [h, ruleLoop_nil]

/-- C21 at the text `abc`: the directive `colour:red` inserted between `alpha` and
`min:5` changes nothing, and the chain `colour:red|uint` passes. -/
theorem C21_unrecognised_directive_ignored_witness :
    validateStruct exampleEnv noNested "fr" []
        (Field.mk (some "name") (some "alpha|colour:red|min:5") (.str "abc"))
      = validateStruct exampleEnv noNested "fr" []
        (Field.mk (some "name") (some "alpha|min:5") (.str "abc")) ∧
    validateStruct exampleEnv noNested "fr" []
        (Field.mk (some "name") (some "colour:red|uint") (.str "abc"))
      = .ok ⟨"name", .str ""⟩ :=
  ⟨(C21_unrecognised_directive_ignored exampleEnv noNested "fr" []
      (Field.mk (some "name") (some "alpha|min:5") (.str "abc"))
      (Field.mk (some "name") (some "alpha|colour:red|min:5") (.str "abc"))
      ["alpha"] ["min:5"] "colour:red" (Or.inl rfl) rfl rfl rfl rfl (by decide)).1,
   (C21_unrecognised_directive_ignored exampleEnv noNested "fr" []
      (Field.mk (some "name") (some "colour:red|uint") (.str "abc"))
      (Field.mk (some "name") (some "x|colour:red|uint") (.str "abc"))
      [] ["colour:red", "uint"] "x" (Or.inl rfl) rfl rfl rfl rfl (by decide)).2 (by decide)⟩

/-- C22. Cross-field comparison of text. In a record where the wire name `a` resolves
to the text field A (no earlier field carries that name), the directives `same:a` and
`match:a` on a text value of B fire iff the whitespace-trimmed values of A and B
differ; with equal trimmed values neither of them fires. -/
theorem C22_same_compares_trimmed_text (env : Env) (fields pre post : List Field)
    (a : String) (ra : Option String) (va vb : String)
    (hrec : fields = pre ++ Field.mk (some a) ra (.str va) :: post)
    (hfirst : ∀ f ∈ pre, f.json ≠ some a) :
    stringDirective env fields vb ("same:" ++ a)
      = .ok (if trimSpace vb = trimSpace va then none else some ("same", [a])) ∧
    stringDirective env fields vb ("match:" ++ a)
      = .ok (if trimSpace vb = trimSpace va then none else some ("match", [])) := by
  have hget : getTagAndValue fields a = (a, some (.str va)) := by
    rw [hrec]
    exact getTagAndValue_first pre post (Field.mk (some a) ra (.str va)) a rfl hfirst
  have h1 : "same:" ++ a = "same" ++ ":" ++ a := rfl
  have h2 : "match:" ++ a = "match" ++ ":" ++ a := rfl
  constructor
  · rw [h1, stringDirective_prefixed env fields vb "same" a (by decide), hget]
    by_cases he : trimSpace vb = trimSpace va <;>
      simp [he, isNotSame, valueString, fireIf, pure, Except.pure]
  · rw [h2, stringDirective_prefixed env fields vb "match" a (by decide), hget]
    by_cases he : trimSpace vb = trimSpace va <;>
      simp [he, isNotSame, valueString, fireIf, pure, Except.pure]

/-- C22 at the scenario of the specification: `password_confirm` carries
`same:password`; with values equal up to surrounding blanks both fields pass, with
different values the second one reports the `same` message. -/
theorem C22_same_compares_trimmed_text_witness :
    stringDirective exampleEnv
        [Field.mk (some "password") (some "required") (.str "secret "),
         Field.mk (some "password_confirm") (some "same:password") (.str " secret")]
        " secret" "same:password" = .ok none ∧
    runFields exampleEnv noNested "fr"
        [Field.mk (some "password") (some "required") (.str "secret "),
         Field.mk (some "password_confirm") (some "same:password") (.str " secret")]
        [Field.mk (some "password") (some "required") (.str "secret "),
         Field.mk (some "password_confirm") (some "same:password") (.str " secret")]
      = .ok [⟨"password", .str ""⟩, ⟨"password_confirm", .str ""⟩] ∧
    validateStruct exampleEnv noNested "fr"
        [Field.mk (some "password") (some "required") (.str "secret"),
         Field.mk (some "password_confirm") (some "same:password") (.str "other")]
        (Field.mk (some "password_confirm") (some "same:password") (.str "other"))
      = .ok ⟨"password_confirm",
          .str "Les champs password_confirm et password doivent correspondre."⟩ :=
  ⟨(C22_same_compares_trimmed_text exampleEnv _ [] 
      [Field.mk (some "password_confirm") (some "same:password") (.str " secret")]
      "password" (some "required") "secret " " secret" rfl (by simp)).1,
   rfl, rfl⟩

/-- C23. Cross-field comparison of integers. In a record where the wire name `a`
resolves to an integer field A, the directive `same:a` (and `match:a`) on an integer
value of B of the same type never fires, whatever the two numbers are: `isNotSame`
compares `reflect.Value.String()`, which is `<T Value>` for every value of a non-string
type `T`, not the decimal rendering. -/
theorem C23_same_on_integers_compares_type_names (env : Env)
    (fields pre post : List Field) (a : String) (ra : Option String) (k : IntKind)
    (va vb : Int)
    (hrec : fields = pre ++ Field.mk (some a) ra (.int k va) :: post)
    (hfirst : ∀ f ∈ pre, f.json ≠ some a) :
    integerDirective env fields (.int k vb) ("same:" ++ a) = .ok none ∧
    integerDirective env fields (.int k vb) ("match:" ++ a) = .ok none := by
  have hget : getTagAndValue fields a = (a, some (.int k va)) := by
    rw [hrec]
    exact getTagAndValue_first pre post (Field.mk (some a) ra (.int k va)) a rfl hfirst
  have h1 : "same:" ++ a = "same" ++ ":" ++ a := rfl
  have h2 : "match:" ++ a = "match" ++ ":" ++ a := rfl
  constructor
  · rw [h1, integerDirective_prefixed env fields _ "same" a (by decide), hget]
    simp [isNotSame, valueString, typeString, fireIf, pure, Except.pure]
  · rw [h2, integerDirective_prefixed env fields _ "match" a (by decide), hget]
    simp [isNotSame, valueString, typeString, fireIf, pure, Except.pure]

/-- C23 at A = 5 and B = 7 of type `int`, B carrying `same:a`: the directive does not
fire and B passes although the numbers differ; with A of type `int` and B of type
`int64` both holding 5 the directive fires although the numbers are equal. -/
theorem C23_same_on_integers_compares_type_names_witness :
    (integerDirective exampleEnv
        [Field.mk (some "a") (some "required") (.int .int 5),
         Field.mk (some "b") (some "same:a") (.int .int 7)]
        (.int .int 7) "same:a" = .ok none ∧
     integerDirective exampleEnv
        [Field.mk (some "a") (some "required") (.int .int 5),
         Field.mk (some "b") (some "same:a") (.int .int 7)]
        (.int .int 7) "match:a" = .ok none) ∧
    fmtInt 5 ≠ fmtInt 7 ∧
    validateStruct exampleEnv noNested "fr"
        [Field.mk (some "a") (some "required") (.int .int 5),
         Field.mk (some "b") (some "same:a") (.int .int 7)]
        (Field.mk (some "b") (some "same:a") (.int .int 7))
      = .ok ⟨"b", .str ""⟩ ∧
    validateStruct exampleEnv noNested "fr"
        [Field.mk (some "a") (some "required") (.int .int 5),
         Field.mk (some "b") (some "same:a") (.int .int64 5)]
        (Field.mk (some "b") (some "same:a") (.int .int64 5))
      = .ok ⟨"b", .str "Les champs b et a doivent correspondre."⟩ :=
  ⟨C23_same_on_integers_compares_type_names exampleEnv _ []
      [Field.mk (some "b") (some "same:a") (.int .int 7)]
      "a" (some "required") .int 5 7 rfl (by simp),
   by decide, rfl, rfl⟩

/-- C24, as stated, fails from right to left of the equivalence: the record with the
single field `Count *int` carrying both annotations, `Count` pointing to an integer,
ends in the fault of `Validate` on a pointer to something that is neither a record nor
a map, although no annotation is missing. -/
theorem C24_fault_only_from_annotations_counterexample :
    (∀ f ∈ [Field.mk (some "count") (some "required") (.ref "*int" .otherPtr)],
      hasTags f = true) ∧
    structValidator exampleEnv (validateDepth exampleEnv "fr" 0) "fr"
      [Field.mk (some "count") (some "required") (.ref "*int" .otherPtr)]
      = .error Fault.notStructOrMap :=
  ⟨by decide, rfl⟩

/-- C24, amended. A field without the `json` or the `validate` annotation makes
`structValidator` end in the fault "json or validate tag missing"; when every field
carries both, the check of the annotations raises nothing and the run is that of the
field tasks followed by the assembly (a run that can still end in a fault of another
origin); and whenever `structValidator` returns a result every field carries both
annotations, so a missing annotation is never an entry of the result map. -/
theorem C24_missing_annotation_is_fatal (env : Env)
    (nested : Target → Except Fault (Option GoMap)) (locale : String)
    (fields : List Field) :
    ((∃ f ∈ fields, hasTags f = false) →
      structValidator env nested locale fields = .error Fault.missingTag) ∧
    ((∀ f ∈ fields, hasTags f = true) →
      structValidator env nested locale fields
        = (runFields env nested locale fields fields >>= fun msgs => pure (assemble msgs))) ∧
    (∀ r, structValidator env nested locale fields = .ok r →
      ∀ f ∈ fields, hasTags f = true) := by
  refine ⟨?_, ?_, ?_⟩
  · rintro ⟨f, hf, ht⟩
    have : fields.all hasTags = false := by
      rw [List.all_eq_false]
      exact ⟨f, hf, by simp [ht]⟩
    simp [structValidator, this, throw, throwThe, MonadExceptOf.throw]
  · intro h
    have : fields.all hasTags = true := List.all_eq_true.mpr h
    simp [structValidator, this]
  · intro r hr
    by_cases h : fields.all hasTags = true
    · exact List.all_eq_true.mp h
    · simp [structValidator, h, throw, throwThe, MonadExceptOf.throw] at hr

/-- C24 at three records: a field without the `json` annotation and a field without
the `validate` annotation are fatal; a record whose fields carry both is validated. -/
theorem C24_missing_annotation_is_fatal_witness :
    structValidator exampleEnv noNested "fr"
      [Field.mk (some "name") (some "required") (.str "Ama"),
       Field.mk none (some "required") (.str "x")] = .error Fault.missingTag ∧
    structValidator exampleEnv noNested "fr"
      [Field.mk (some "name") none (.str "Ama")] = .error Fault.missingTag ∧
    structValidator exampleEnv noNested "fr"
      [Field.mk (some "name") (some "required") (.str "")]
      = .ok (some [("name", .str "Le champ name est requis.")]) ∧
    (∀ f ∈ [Field.mk (some "name") (some "required") (.str "")], hasTags f = true) :=
  ⟨(C24_missing_annotation_is_fatal exampleEnv noNested "fr" _).1
      ⟨Field.mk none (some "required") (.str "x"), by simp, rfl⟩,
   (C24_missing_annotation_is_fatal exampleEnv noNested "fr" _).1
      ⟨Field.mk (some "name") none (.str "Ama"), by simp, rfl⟩,
   rfl,
   (C24_missing_annotation_is_fatal exampleEnv noNested "fr" _).2.2 _ rfl⟩

/-- C25. The `uint` rule. The pattern of `isNotUint`, `^[1-9]\d+$`, asks for a second
digit: on an integer value, signed or unsigned, `isNotUint` reports a violation iff the
value is below 10, so the directive fires on the negative values and on 0 to 9 alike;
the field `n` holding 5 and carrying `uint` is reported as not being a positive
integer. -/
theorem C25_uint_fires_below_ten :
    (∀ s, matchUint s = matchWhole uintRe s) ∧
    (∀ (k : IntKind) (i : Int), isNotUint (.int k i) = true ↔ i < 10) ∧
    (∀ (k : UintKind) (n : Nat), isNotUint (.uint k n) = true ↔ n < 10) ∧
    validateStruct exampleEnv noNested "fr"
      [Field.mk (some "n") (some "uint") (.int .int 5)]
      (Field.mk (some "n") (some "uint") (.int .int 5))
      = .ok ⟨"n", .str "Le champ n doit être un entier positif."⟩ ∧
    validateStruct exampleEnv noNested "fr"
      [Field.mk (some "n") (some "uint") (.int .int 15)]
      (Field.mk (some "n") (some "uint") (.int .int 15))
      = .ok ⟨"n", .str ""⟩ := by
  refine ⟨matchUint_eq_re, ?_, ?_, rfl, rfl⟩
  · intro k i
    rw [isNotUint_int]
    simp
  · intro k n
    rw [isNotUint_uint]
    simp

/-- C26. The `ascii` rule. The pattern of `isNotASCII`, `[\x00-\x7F]+`, is not
anchored: it matches as soon as one rune of the text is ASCII, so `isNotASCII` reports
a violation iff no rune of the text is ASCII. A text mixing ASCII and other runes, such
as `héllo`, passes the rule; only a text without any ASCII rune is reported. -/
theorem C26_ascii_accepts_one_ascii_rune :
    (∀ s, matchASCII s = matchAnywhere asciiRe s) ∧
    (∀ s : String, isNotASCII s = true ↔ ∀ c ∈ s.data, 0x7F < c.toNat) ∧
    (0x7F < 'é'.toNat ∧ 'é' ∈ "héllo".data ∧ isNotASCII "héllo" = false) ∧
    validateStruct exampleEnv noNested "fr"
      [Field.mk (some "name") (some "ascii") (.str "héllo")]
      (Field.mk (some "name") (some "ascii") (.str "héllo"))
      = .ok ⟨"name", .str ""⟩ ∧
    validateStruct exampleEnv noNested "fr"
      [Field.mk (some "name") (some "ascii") (.str "éé")]
      (Field.mk (some "name") (some "ascii") (.str "éé"))
      = .ok ⟨"name", .str "Le champ name doit être une chaîne de caractères."⟩ := by
  refine ⟨matchASCII_eq_re, ?_, ⟨by decide, by decide, by decide⟩, rfl, rfl⟩
  intro s
  simp [isNotASCII, matchASCII]

/-- C27. Bounds without a comma. For a parameter string `p` that holds no comma, the
directives `from:p` and `between:p` end in the fault of an index out of range on a
text, an integer and a float value alike: the dispatcher reads `minMax[1]` of
`strings.SplitN(p, ",", 2)`, which has a single element. -/
theorem C27_bounds_without_comma_fault (env : Env) (fields : List Field) (p : String)
    (h : ',' ∉ p.data) :
    (∀ s, stringDirective env fields s ("from:" ++ p) = .error Fault.indexOutOfRange ∧
          stringDirective env fields s ("between:" ++ p) = .error Fault.indexOutOfRange) ∧
    (∀ v, integerDirective env fields v ("from:" ++ p) = .error Fault.indexOutOfRange ∧
          integerDirective env fields v ("between:" ++ p) = .error Fault.indexOutOfRange) ∧
    (∀ v, floatDirective env fields v ("from:" ++ p) = .error Fault.indexOutOfRange ∧
          floatDirective env fields v ("between:" ++ p) = .error Fault.indexOutOfRange) := by
  have h1 : "from:" ++ p = "from" ++ ":" ++ p := rfl
  have h2 : "between:" ++ p = "between" ++ ":" ++ p := rfl
  have hu := upperBound_no_comma p h
  refine ⟨fun s => ⟨?_, ?_⟩, fun v => ⟨?_, ?_⟩, fun v => ⟨?_, ?_⟩⟩
  · rw [h1, stringDirective_prefixed env fields s "from" p (by decide), hu]; rfl
  · rw [h2, stringDirective_prefixed env fields s "between" p (by decide), hu]; rfl
  · rw [h1, integerDirective_prefixed env fields v "from" p (by decide), hu]; rfl
  · rw [h2, integerDirective_prefixed env fields v "between" p (by decide), hu]; rfl
  · rw [h1, floatDirective_prefixed env fields v "from" p (by decide), hu]; rfl
  · rw [h2, floatDirective_prefixed env fields v "between" p (by decide), hu]; rfl

/-- C27 at the parameters of the claim: `from:5` on the text `abc` and `between:` on
the integer 7 end the field task, and with it the validation of the record, in the
fault of an index out of range. -/
theorem C27_bounds_without_comma_fault_witness :
    ',' ∉ "5".data ∧
    stringDirective exampleEnv [] "abc" "from:5" = .error Fault.indexOutOfRange ∧
    validateStruct exampleEnv noNested "fr"
      [Field.mk (some "name") (some "from:5") (.str "abc")]
      (Field.mk (some "name") (some "from:5") (.str "abc"))
      = .error Fault.indexOutOfRange ∧
    validateStruct exampleEnv noNested "fr"
      [Field.mk (some "age") (some "between:") (.int .int 7)]
      (Field.mk (some "age") (some "between:") (.int .int 7))
      = .error Fault.indexOutOfRange ∧
    structValidator exampleEnv noNested "fr"
      [Field.mk (some "name") (some "from:5") (.str "abc")]
      = .error Fault.indexOutOfRange ∧
    validateStruct exampleEnv noNested "fr"
      [Field.mk (some "name") (some "from:2,5") (.str "abc")]
      (Field.mk (some "name") (some "from:2,5") (.str "abc"))
      = .ok ⟨"name", .str ""⟩ :=
  ⟨by decide,
   ((C27_bounds_without_comma_fault exampleEnv [] "5" (by decide)).1 "abc").1,
   rfl, rfl, rfl, rfl⟩

/-- C28. The request handler on a failure. When the validation of the record yields a
non-empty error map `m`, the handler sets the content type, writes the status 422 and
the body with `status` false and `errors` `m`, and then calls the next handler all the
same: there is no `return` after the write. Every request that the handler answers
without a fault ends with the call of the next handler. -/
theorem C28_next_handler_always_invoked (env : Env)
    (nested : Target → Except Fault (Option GoMap)) (locale : String)
    (errors0 : Option GoMap) :
    (∀ fields m, structValidator env nested locale fields = .ok (some m) → 0 < m.length →
      ValidateRequest env nested locale errors0 (.struct fields)
        = .ok [.setHeader "Content-Type" "application/json", .writeHeader 422,
               .write false m, .next]) ∧
    (∀ fields, structValidator env nested locale fields = .ok none →
      ValidateRequest env nested locale errors0 (.struct fields) = .ok [.next]) ∧
    (∀ target evs, ValidateRequest env nested locale errors0 target = .ok evs →
      ∃ before, evs = before ++ [HandlerEvent.next]) := by
  refine ⟨?_, ?_, ?_⟩
  · intro fields m h hm
    have hm2 : m.length > 0 := hm
    simp [ValidateRequest, h, hm2, bind, Except.bind, pure, Except.pure]
  · intro fields h
    simp [ValidateRequest, h, bind, Except.bind, pure, Except.pure]
  · intro target evs h
    have key : ∀ (errors : Option GoMap),
        (match errors with
          | some m => (pure [HandlerEvent.setHeader "Content-Type" "application/json",
              HandlerEvent.writeHeader 422, HandlerEvent.write false m, HandlerEvent.next] :
                Except Fault (List HandlerEvent))
          | none => pure [HandlerEvent.next]) = .ok evs →
        ∃ before, evs = before ++ [HandlerEvent.next] := by
      intro errors he
      cases errors with
      | none =>
        simp [pure, Except.pure] at he
        exact ⟨[], he.symm⟩
      | some m =>
        simp [pure, Except.pure] at he
        exact ⟨[.setHeader "Content-Type" "application/json", .writeHeader 422,
          .write false m], he.symm⟩
    cases target with
    | struct fields =>
      cases hs : structValidator env nested locale fields with
      | error e => simp [ValidateRequest, hs, bind, Except.bind] at h
      | ok message =>
        cases message with
        | none =>
          simp [ValidateRequest, hs, bind, Except.bind, pure, Except.pure] at h
          exact ⟨[], h.symm⟩
        | some m =>
          by_cases hm : m.length > 0
          · simp [ValidateRequest, hs, hm, bind, Except.bind, pure, Except.pure] at h
            exact ⟨[.setHeader "Content-Type" "application/json", .writeHeader 422,
              .write false m], h.symm⟩
          · simp [ValidateRequest, hs, hm, bind, Except.bind, pure, Except.pure] at h
            exact ⟨[], h.symm⟩
    | mapPtr => simp [ValidateRequest, bind, Except.bind, throw, throwThe, MonadExceptOf.throw] at h
    | otherPtr =>
      apply key errors0
      simpa [ValidateRequest, bind, Except.bind, pure, Except.pure] using h
    | invalid => simp [ValidateRequest, bind, Except.bind, throw, throwThe, MonadExceptOf.throw] at h

/-- C28 at a request whose `name` is empty under `required`: the response 422 with the
error map is written and the next handler is invoked after it. -/
theorem C28_next_handler_always_invoked_witness :
    structValidator exampleEnv noNested "fr"
      [Field.mk (some "name") (some "required") (.str "")]
      = .ok (some [("name", .str "Le champ name est requis.")]) ∧
    ValidateRequest exampleEnv noNested "fr" none
      (.struct [Field.mk (some "name") (some "required") (.str "")])
      = .ok [.setHeader "Content-Type" "application/json", .writeHeader 422,
             .write false [("name", .str "Le champ name est requis.")], .next] :=
  ⟨rfl,
   (C28_next_handler_always_invoked exampleEnv noNested "fr" none).1
     [Field.mk (some "name") (some "required") (.str "")]
     [("name", .str "Le champ name est requis.")] rfl (by decide)⟩

/-- C29. One message per field goroutine. In the statement-by-statement model of
`validateStruct`, where a send on the channel and a `return` are separate statements,
a run that does not panic adds exactly one message to the channel, the message
`validateStruct` ends with, whatever the channel held before; started on an empty
channel it leaves one message, and the goroutines of a record leave on their shared
channel one message per field, the messages the evaluator receives. -/
theorem C29_one_message_per_field (env : Env)
    (nested : Target → Except Fault (Option GoMap)) (locale : String)
    (fields : List Field) :
    (∀ f ch, (validateStructCh env nested locale fields f).after ch
        = (validateStruct env nested locale fields f >>= fun m => pure (ch ++ [m]))) ∧
    (∀ f ch ch1, (validateStructCh env nested locale fields f).after ch = .ok ch1 →
        ∃ m, ch1 = ch ++ [m]) ∧
    (∀ f sent, validateStructSends env nested locale fields f = .ok sent →
        sent.length = 1) ∧
    (∀ fs, runFieldsCh env nested locale fields fs []
        = runFields env nested locale fields fs) ∧
    (∀ fs msgs, runFieldsCh env nested locale fields fs [] = .ok msgs →
        msgs.length = fs.length) := by
  have h1 : ∀ f ch, (validateStructCh env nested locale fields f).after ch
      = (validateStruct env nested locale fields f >>= fun m => pure (ch ++ [m])) := by
    intro f ch
    unfold validateStructCh validateStruct
    exact ruleLoopCh_after env nested locale fields _ _ _ _ ch
  have h2 : ∀ f ch ch1, (validateStructCh env nested locale fields f).after ch = .ok ch1 →
      ∃ m, ch1 = ch ++ [m] := by
    intro f ch ch1 h
    rw [h1 f ch] at h
    cases hv : validateStruct env nested locale fields f with
    | error e => simp [hv, bind, Except.bind] at h
    | ok m =>
      simp [hv, bind, Except.bind, pure, Except.pure] at h
      exact ⟨m, h.symm⟩
  have h4 : ∀ fs, runFieldsCh env nested locale fields fs []
      = runFields env nested locale fields fs := by
    intro fs
    rw [runFieldsCh_eq]
    cases hr : runFields env nested locale fields fs <;>
      simp [bind, Except.bind, pure, Except.pure]
  refine ⟨h1, h2, ?_, h4, ?_⟩
  · intro f sent h
    obtain ⟨m, hm⟩ := h2 f [] sent h
    rw [hm]
    rfl
  · intro fs msgs h
    rw [h4 fs] at h
    exact (runFields_V_not_nil env nested locale fields fs msgs h).1

/-- C29 at a record of three fields, one failing `required`, one failing a later
directive and one passing: each goroutine sends one message and the channel holds
three. -/
theorem C29_one_message_per_field_witness :
    validateStructSends exampleEnv noNested "fr"
      [Field.mk (some "name") (some "required") (.str ""),
       Field.mk (some "age") (some "required|min:18") (.int .int 15),
       Field.mk (some "nick") (some "alpha") (.str "ama")]
      (Field.mk (some "age") (some "required|min:18") (.int .int 15))
      = .ok [⟨"age", .str "Le champ age doit être d'au moins 18"⟩] ∧
    [(⟨"age", .str "Le champ age doit être d'au moins 18"⟩ : Message)].length = 1 ∧
    runFieldsCh exampleEnv noNested "fr"
      [Field.mk (some "name") (some "required") (.str ""),
       Field.mk (some "age") (some "required|min:18") (.int .int 15),
       Field.mk (some "nick") (some "alpha") (.str "ama")]
      [Field.mk (some "name") (some "required") (.str ""),
       Field.mk (some "age") (some "required|min:18") (.int .int 15),
       Field.mk (some "nick") (some "alpha") (.str "ama")] []
      = .ok [⟨"name", .str "Le champ name est requis."⟩,
             ⟨"age", .str "Le champ age doit être d'au moins 18"⟩,
             ⟨"nick", .str ""⟩] :=
  ⟨rfl,
   (C29_one_message_per_field exampleEnv noNested "fr"
      [Field.mk (some "name") (some "required") (.str ""),
       Field.mk (some "age") (some "required|min:18") (.int .int 15),
       Field.mk (some "nick") (some "alpha") (.str "ama")]).2.2.1
      (Field.mk (some "age") (some "required|min:18") (.int .int 15)) _ rfl,
   rfl⟩

/-- C30. Assembly and arrival order. The messages of a record with pairwise distinct
wire names have pairwise distinct keys; and for messages with pairwise distinct keys,
whatever the order `arrived` in which they are received, the fold of `structValidator`
builds the same two maps (the same entries, hence the same value under every key and
the same size) and the end of `structValidator` takes the same nil / non-nil decision
and returns the same map. -/
theorem C30_assembly_order_independent (env : Env)
    (nested : Target → Except Fault (Option GoMap)) (locale : String)
    (fields : List Field) :
    (∀ msgs, (fields.map (fun f => tagGet f.json)).Nodup →
      runFields env nested locale fields fields = .ok msgs →
      (msgs.map Message.K).Nodup) ∧
    (∀ msgs arrived : List Message, (msgs.map Message.K).Nodup → arrived.Perm msgs →
      (foldMessages arrived ([], [])).1.Perm (foldMessages msgs ([], [])).1 ∧
      (foldMessages arrived ([], [])).2.Perm (foldMessages msgs ([], [])).2 ∧
      (∀ k, mapGet (foldMessages arrived ([], [])).1 k
          = mapGet (foldMessages msgs ([], [])).1 k) ∧
      (∀ k, mapGet (foldMessages arrived ([], [])).2 k
          = mapGet (foldMessages msgs ([], [])).2 k) ∧
      (assemble arrived).isSome = (assemble msgs).isSome ∧
      (∀ k, (assemble arrived).bind (fun m => mapGet m k)
          = (assemble msgs).bind (fun m => mapGet m k))) := by
  constructor
  · intro msgs hn hrun
    rw [runFields_K env nested locale fields fields msgs hrun]
    exact hn
  · intro msgs arrived hn hp
    have hna : (arrived.map Message.K).Nodup :=
      (List.Perm.nodup_iff (hp.map Message.K)).mpr hn
    have p1 : (arrived.map (fun x => (x.K, x.V))).Perm (msgs.map (fun x => (x.K, x.V))) :=
      hp.map _
    have p2 : ((arrived.filter (fun x => x.V.isNil)).map (fun x => (x.K, x.V))).Perm
        ((msgs.filter (fun x => x.V.isNil)).map (fun x => (x.K, x.V))) :=
      (hp.filter _).map _
    have n1 := keys_nodup_filter msgs (fun _ => true) hn
    have n2 := keys_nodup_filter msgs (fun x => x.V.isNil) hn
    simp only [List.filter_true] at n1
    have g1 := mapGet_perm _ _ p1 n1
    have g2 := mapGet_perm _ _ p2 n2
    have l1 := p1.length_eq
    have l2 := p2.length_eq
    simp only [assemble, foldMessages_distinct arrived hna, foldMessages_distinct msgs hn]
    refine ⟨p1, p2, g1, g2, ?_, ?_⟩
    · rw [l1, l2]
      split <;> rfl
    · intro k
      rw [l1, l2]
      split
      · exact g1 k
      · rfl

/-- C30 at the record `name`, `age`, `nick` with `name` empty under `required` and
`age` below its minimum: the messages received in the order of declaration and in the
reverse order give the same entries under every key and the decision non-nil. -/
theorem C30_assembly_order_independent_witness :
    runFields exampleEnv noNested "fr"
      [Field.mk (some "name") (some "required") (.str ""),
       Field.mk (some "age") (some "required|min:18") (.int .int 15),
       Field.mk (some "nick") (some "alpha") (.str "ama")]
      [Field.mk (some "name") (some "required") (.str ""),
       Field.mk (some "age") (some "required|min:18") (.int .int 15),
       Field.mk (some "nick") (some "alpha") (.str "ama")]
      = .ok [⟨"name", .str "Le champ name est requis."⟩,
             ⟨"age", .str "Le champ age doit être d'au moins 18"⟩,
             ⟨"nick", .str ""⟩] ∧
    assemble [⟨"name", .str "Le champ name est requis."⟩,
              ⟨"age", .str "Le champ age doit être d'au moins 18"⟩,
              ⟨"nick", .str ""⟩]
      = some [("name", .str "Le champ name est requis."),
              ("age", .str "Le champ age doit être d'au moins 18"),
              ("nick", .str "")] ∧
    assemble [⟨"nick", .str ""⟩,
              ⟨"age", .str "Le champ age doit être d'au moins 18"⟩,
              ⟨"name", .str "Le champ name est requis."⟩]
      = some [("nick", .str ""),
              ("age", .str "Le champ age doit être d'au moins 18"),
              ("name", .str "Le champ name est requis.")] ∧
    (∀ k, (assemble [⟨"nick", .str ""⟩,
              ⟨"age", .str "Le champ age doit être d'au moins 18"⟩,
              ⟨"name", .str "Le champ name est requis."⟩]).bind (fun m => mapGet m k)
        = (assemble [⟨"name", .str "Le champ name est requis."⟩,
              ⟨"age", .str "Le champ age doit être d'au moins 18"⟩,
              ⟨"nick", .str ""⟩]).bind (fun m => mapGet m k)) :=
  ⟨rfl, rfl, rfl,
   ((C30_assembly_order_independent exampleEnv noNested "fr" []).2
      [⟨"name", .str "Le champ name est requis."⟩,
       ⟨"age", .str "Le champ age doit être d'au moins 18"⟩,
       ⟨"nick", .str ""⟩]
      [⟨"nick", .str ""⟩,
       ⟨"age", .str "Le champ age doit être d'au moins 18"⟩,
       ⟨"name", .str "Le champ name est requis."⟩]
      (by decide)
      (List.reverse_perm [Message.mk "name" (.str "Le champ name est requis."),
       Message.mk "age" (.str "Le champ age doit être d'au moins 18"),
       Message.mk "nick" (.str "")])).2.2.2.2.2⟩

/-- C31. Length limits of a sequence. The cases `min` and `max` of the `slice`
directives hand `rSlice[0]`, the word `min` or `max`, to the predicate instead of the
number `rSlice[1]`; `strconv.Atoi` makes 0 of it. For every value with a length and
every parameter `N`, `slice:min:N` never fires and `slice:max:N` fires iff the length
is not 0: on a non-empty sequence the `max.slice` violation is always produced and the
`min.slice` violation never, whatever `N` is. -/
theorem C31_slice_limits_ignore_parameter (env : Env) (v : Value) (len : Nat)
    (N : String) (hv : valueLen v = some len) :
    atoi "min" = 0 ∧ atoi "max" = 0 ∧
    sliceDirective env v ("slice:min:" ++ N) = .ok none ∧
    sliceDirective env v ("slice:max:" ++ N)
      = .ok (if 0 < len then some ("max.slice", [N]) else none) := by
  have hmin : atoi "min" = 0 := by decide
  have hmax : atoi "max" = 0 := by decide
  obtain ⟨h1, h2⟩ := sliceDirective_min_max env v N
  refine ⟨hmin, hmax, ?_, ?_⟩
  · rw [h1, isNotMin_len env v len "min" hv, hmin]
    simp [fireIf, pure, Except.pure]
  · rw [h2, isNotMax_len env v len "max" hv, hmax]
    by_cases hl : 0 < len
    · have : ¬ ((len : Int) ≤ 0) := by omega
      simp [fireIf, pure, Except.pure, hl, this]
    · have : (len : Int) ≤ 0 := by omega
      simp [fireIf, pure, Except.pure, hl, this]

/-- C31 at the sequence `tags` of two texts: under `slice:max:5` it is reported as
holding more than 5 elements, under `slice:min:5` it passes although it holds fewer
than 5. -/
theorem C31_slice_limits_ignore_parameter_witness :
    valueLen (.strs ["a", "b"]) = some 2 ∧
    sliceDirective exampleEnv (.strs ["a", "b"]) "slice:max:5"
      = .ok (some ("max.slice", ["5"])) ∧
    sliceDirective exampleEnv (.strs ["a", "b"]) "slice:min:5" = .ok none ∧
    validateStruct exampleEnv noNested "fr"
      [Field.mk (some "tags") (some "slice:max:5") (.strs ["a", "b"])]
      (Field.mk (some "tags") (some "slice:max:5") (.strs ["a", "b"]))
      = .ok ⟨"tags", .str "Le champ tags ne doit pas contenir plus de 5 éléments."⟩ ∧
    validateStruct exampleEnv noNested "fr"
      [Field.mk (some "tags") (some "slice:min:5") (.strs ["a", "b"])]
      (Field.mk (some "tags") (some "slice:min:5") (.strs ["a", "b"]))
      = .ok ⟨"tags", .str ""⟩ :=
  ⟨rfl,
   (C31_slice_limits_ignore_parameter exampleEnv (.strs ["a", "b"]) 2 "5" rfl).2.2.2,
   (C31_slice_limits_ignore_parameter exampleEnv (.strs ["a", "b"]) 2 "5" rfl).2.2.1,
   rfl, rfl⟩

/-- C32. Rendering under the locale `fr`. Every rule key the dispatcher hands to the
renderer without a message of its own, with `n` positional arguments, has a template
in the table `FR` that is not empty and holds `n + 1` verbs `%s`, so that `getMessage`
raises nothing and `render` fills the template with the field name and the arguments;
and these are the keys of the dispatcher: whatever a directive of a text, an integer,
a float, a file or a sequence fires with (key and arguments) is one of them, as are
`required` and `bool`. -/
theorem C32_fr_templates_resolve_with_arity (env : Env) :
    (∀ key n, (key, n) ∈ dispatcherKeys →
      ∃ t, getMessage env "fr" key = .ok t ∧ t ≠ "" ∧ placeholders t.data = n + 1) ∧
    (∀ key n field values, (key, n) ∈ dispatcherKeys → values.length = n →
      ∃ t, getMessage env "fr" key = .ok t ∧
        render env "fr" key field values = .ok (sprintf t (field :: values)) ∧
        (∀ customMsg msgKey, ∃ m,
          setMessage env "fr" key customMsg msgKey field values = .ok m) ∧
        (∀ customMsg, ∃ m,
          generateMessage env "fr" key customMsg field values = .ok m)) ∧
    (("required", 0) ∈ dispatcherKeys ∧ ("bool", 0) ∈ dispatcherKeys) ∧
    (∀ fields s rule key values,
      stringDirective env fields s rule = .ok (some (key, values)) →
      (key, values.length) ∈ dispatcherKeys) ∧
    (∀ fields v rule key values,
      integerDirective env fields v rule = .ok (some (key, values)) →
      (key, values.length) ∈ dispatcherKeys) ∧
    (∀ fields v rule key values,
      floatDirective env fields v rule = .ok (some (key, values)) →
      (key, values.length) ∈ dispatcherKeys) ∧
    (∀ fields v rule key values,
      integerElemDirective env fields v rule = .ok (some (key, values)) →
      (key, values.length) ∈ dispatcherKeys) ∧
    (∀ fields v rule key values,
      floatElemDirective env fields v rule = .ok (some (key, values)) →
      (key, values.length) ∈ dispatcherKeys) ∧
    (∀ fh rule key values,
      fileDirective env fh rule = .ok (some (key, values)) →
      (key, values.length) ∈ dispatcherKeys) ∧
    (∀ v rule key values,
      sliceDirective env v rule = .ok (some (key, values)) →
      (key, values.length) ∈ dispatcherKeys) := by
  refine ⟨dispatcherKeys_template env, ?_, ⟨by decide, by decide⟩,
    fun fields s rule key values h => stringDirective_keys env fields s rule key values h,
    fun fields v rule key values h => integerDirective_keys env fields v rule key values h,
    fun fields v rule key values h => floatDirective_keys env fields v rule key values h,
    fun fields v rule key values h => integerElemDirective_keys env fields v rule key values h,
    fun fields v rule key values h => floatElemDirective_keys env fields v rule key values h,
    fun fh rule key values h => fileDirective_keys env fh rule key values h,
    fun v rule key values h => sliceDirective_keys env v rule key values h⟩
  intro key n field values hk hlen
  obtain ⟨t, ht, _, _⟩ := dispatcherKeys_template env key n hk
  have hn := dispatcherKeys_le_two key n hk
  have hr : render env "fr" key field values = .ok (sprintf t (field :: values)) := by
    match values, hlen with
    | [], _ => simp [render, ht, bind, Except.bind, pure, Except.pure]
    | [a], _ => simp [render, ht, bind, Except.bind, pure, Except.pure]
    | [a, b], _ => simp [render, ht, bind, Except.bind, pure, Except.pure]
    | a :: b :: c :: rest, hl =>
      simp only [List.length_cons] at hl
      omega
  refine ⟨t, ht, hr, ?_, ?_⟩
  · intro customMsg msgKey
    unfold setMessage
    split
    · exact ⟨_, rfl⟩
    · split
      · exact ⟨_, rfl⟩
      · rw [hr]
        exact ⟨_, rfl⟩
  · intro customMsg
    unfold generateMessage
    split
    · exact ⟨_, rfl⟩
    · split
      · exact ⟨_, rfl⟩
      · rw [hr]
        exact ⟨_, rfl⟩

/-- C32 at the key `between.numeric`, which the dispatcher passes with two arguments:
its template has three verbs and is filled with the field name and both bounds. -/
theorem C32_fr_templates_resolve_with_arity_witness :
    ("between.numeric", 2) ∈ dispatcherKeys ∧
    getMessage exampleEnv "fr" "between.numeric"
      = .ok "Le champ %s doit être compris entre %s et %s." ∧
    placeholders "Le champ %s doit être compris entre %s et %s.".data = 2 + 1 ∧
    render exampleEnv "fr" "between.numeric" "age" ["18", "65"]
      = .ok "Le champ age doit être compris entre 18 et 65." ∧
    integerDirective exampleEnv [] (.int .int 70) "between:18,65"
      = .ok (some ("between.numeric", ["18", "65"])) ∧
    (∃ t, getMessage exampleEnv "fr" "between.numeric" = .ok t ∧ t ≠ "" ∧
      placeholders t.data = 2 + 1) :=
  ⟨by decide, rfl, by decide, rfl, rfl,
   (C32_fr_templates_resolve_with_arity exampleEnv).1 "between.numeric" 2 (by decide)⟩

/-- C33. The directives `size` and `equal` are one predicate. For every value and every
parameter string `p`, `isNotSize` and `isNotEqual` return the same result; both are
false exactly when the length of a text or of a sequence, or the number of a signed or
unsigned integer, is the number `p` parses to (`strconv.Atoi`, `ParseInt`,
`ParseUint`, the error dropped). -/
theorem C33_size_is_equal (env : Env) (p : String) :
    (∀ v, isNotSize env v p = isNotEqual env v p) ∧
    (∀ s, isNotEqual env (.str s) p = false ↔ (goLen s : Int) = atoi p) ∧
    (∀ v len, valueLen v = some len →
      (isNotEqual env v p = false ↔ (len : Int) = atoi p)) ∧
    (∀ k i, isNotEqual env (.int k i) p = false ↔ i = parseInt p) ∧
    (∀ k n, isNotEqual env (.uint k n) p = false ↔ n = parseUint p) := by
  refine ⟨?_, ?_, ?_, ?_, ?_⟩
  · intro v
    cases v <;> simp [isNotSize, isNotEqual, valueLen, bne]
  · intro s
    simp [isNotEqual, valueLen]
  · intro v len hv
    cases v <;> simp [valueLen] at hv <;> simp [isNotEqual, valueLen, hv]
  · intro k i
    simp [isNotEqual]
  · intro k n
    simp [isNotEqual]

/-- C33 at the parameter `3`: a text of three bytes and a sequence of three elements
satisfy `size:3` and `equal:3`, a text of two bytes violates both. -/
theorem C33_size_is_equal_witness :
    valueLen (.strs ["a", "b", "c"]) = some 3 ∧ atoi "3" = 3 ∧
    isNotEqual exampleEnv (.strs ["a", "b", "c"]) "3" = false ∧
    isNotSize exampleEnv (.strs ["a", "b", "c"]) "3" = false ∧
    isNotEqual exampleEnv (.str "abc") "3" = false ∧
    isNotSize exampleEnv (.str "ab") "3" = true ∧
    isNotEqual exampleEnv (.str "ab") "3" = true :=
  ⟨rfl, by decide,
   ((C33_size_is_equal exampleEnv "3").2.2.1 (.strs ["a", "b", "c"]) 3 rfl).mpr
     (by decide),
   by decide, by decide, by decide, by decide⟩

end Validata
